import Mathlib

/-! Online auction server (`src/server.c`): shallow embedding.

The server keeps four arrays with counters (`g_users`, `g_rooms`, `g_auctions`,
`g_bids`), a fixed table of `MAX_CLIENTS` session slots (`g_clients`) and four
data files.  Each array with its counter is a list (the counter is the length),
the session table is a list of slots, and every C function becomes a function
from the state before the call to the result code and the state after it.

Modelling conventions:
* `int` and `time_t` values are `Int`; `double` amounts are exact numbers (`Int`).
  The `int` product `duration_minutes * 60` of `create_room` and `create_auction`,
  whose factor comes unchecked from the request, is taken in 32 bits (`wrap32`);
  not-a-number amounts are treated apart, in the section on `double` amounts.
* C strings are `String`; `strcmp(a, b) == 0` is `a = b`; `strncpy(dst, src, n)`
  followed by `dst[n] = 0` keeps the first `n` characters.
* `time(NULL)` is the parameter `now`, read once per call.
* The two mutexes serialise the calls, so each call is one atomic step; the order
  in which the functions take them is kept apart, in the section on mutexes.
* `fopen` on a data file succeeds.
-/

namespace AuctionServer

/-! ## Constants -/

def MAX_CLIENTS : Nat := 100
def MAX_USERS : Nat := 1000
def MAX_ROOMS : Nat := 100
def MAX_AUCTIONS : Nat := 1000
def MAX_BIDS : Nat := 5000

/-! ## Data structures -/

structure User where
  user_id : Int
  username : String
  password : String
  email : String
  role : String
  balance : Int
  status : String
  created_at : Int
deriving DecidableEq

structure AuctionRoom where
  room_id : Int
  room_name : String
  description : String
  max_participants : Int
  current_participants : Int
  status : String
  start_time : Int
  end_time : Int
  created_by : Int
  total_auctions : Int
deriving DecidableEq

structure Auction where
  auction_id : Int
  seller_id : Int
  room_id : Int
  title : String
  description : String
  start_price : Int
  current_price : Int
  buy_now_price : Int
  min_bid_increment : Int
  start_time : Int
  end_time : Int
  status : String
  winner_id : Int
  total_bids : Int
deriving DecidableEq

structure Bid where
  bid_id : Int
  auction_id : Int
  user_id : Int
  bid_amount : Int
  bid_time : Int
deriving DecidableEq

structure ClientSession where
  socket : Int
  user_id : Int
  username : String
  is_active : Bool
  login_time : Int
  current_room_id : Int
deriving DecidableEq

/-- The four collections `g_users`, `g_rooms`, `g_auctions`, `g_bids`; each
counter `g_*_count` is the length of its list. -/
structure Store where
  users : List User
  rooms : List AuctionRoom
  auctions : List Auction
  bids : List Bid
deriving DecidableEq

/-- Whole server state: the in-memory store, the session table `g_clients` with
`g_client_count`, and the contents of the four data files. -/
structure State where
  data : Store
  clients : List ClientSession
  client_count : Int
  disk : Store
deriving DecidableEq

/-! ## Helpers for C idioms -/

/-- Effect of `strncpy(dst, src, n); dst[n] = 0`. -/
def strncpy (n : Nat) (src : String) : String := ⟨src.data.take n⟩

/-- Value of an `int` expression whose exact value is `x`: reduced to 32 bits in
two's complement.  Inside the range of `int` it is `x`; outside, C leaves the
result undefined and this is what the usual compilers give. -/
def wrap32 (x : Int) : Int := (x + 2147483648) % 4294967296 - 2147483648

/-- Write through the pointer returned by a linear search: the first element
satisfying `p` is replaced by `f` of it, everything else is untouched. -/
def modifyFirst {α : Type} (p : α → Bool) (f : α → α) : List α → List α
  | [] => []
  | x :: xs => if p x then f x :: xs else x :: modifyFirst p f xs

/-- A zeroed session slot (`memset(g_clients, 0, ...)`). -/
def emptySlot : ClientSession :=
  { socket := 0, user_id := 0, username := "", is_active := false,
    login_time := 0, current_room_id := 0 }

def emptyStore : Store := { users := [], rooms := [], auctions := [], bids := [] }

/-- State after `main` has started with no data files: empty collections and
`MAX_CLIENTS` zeroed session slots. -/
def initState : State :=
  { data := emptyStore, clients := List.replicate MAX_CLIENTS emptySlot,
    client_count := 0, disk := emptyStore }

/-! ## File I/O -/

/-- `save_all_data`: each file receives the first `g_*_count` records. -/
def save_all_data (s : State) : State := { s with disk := s.data }

/-- `init_data_storage`: each collection is read back, at most `MAX_*` records. -/
def init_data_storage (s : State) : State :=
  { s with data :=
      { users := s.disk.users.take MAX_USERS,
        rooms := s.disk.rooms.take MAX_ROOMS,
        auctions := s.disk.auctions.take MAX_AUCTIONS,
        bids := s.disk.bids.take MAX_BIDS } }

/-! ## Lookups -/

def find_user_by_username (users : List User) (username : String) : Option User :=
  users.find? (fun u => decide (u.username = username))

def find_user_by_id (users : List User) (user_id : Int) : Option User :=
  users.find? (fun u => decide (u.user_id = user_id))

def find_auction_by_id (auctions : List Auction) (auction_id : Int) : Option Auction :=
  auctions.find? (fun a => decide (a.auction_id = auction_id))

def find_room_by_id (rooms : List AuctionRoom) (room_id : Int) : Option AuctionRoom :=
  rooms.find? (fun r => decide (r.room_id = room_id))

def find_client_by_user_id (clients : List ClientSession) (user_id : Int) :
    Option ClientSession :=
  clients.find? (fun c => c.is_active && decide (c.user_id = user_id))

/-! ## Room management -/

def create_room (s : State) (now : Int) (creator_id : Int) (name desc : String)
    (max_participants duration_minutes : Int) : Int × State :=
  if MAX_ROOMS ≤ s.data.rooms.length then (-1, s)
  else if s.data.rooms.any (fun r => decide (r.room_name = name) && decide (r.status ≠ "ended"))
  then (-2, s)
  else
    let room : AuctionRoom :=
      { room_id := (s.data.rooms.length : Int) + 1,
        room_name := strncpy 99 name,
        description := strncpy 199 desc,
        max_participants := max_participants,
        current_participants := 0,
        status := "waiting",
        start_time := now,
        end_time := now + wrap32 (duration_minutes * 60),
        created_by := creator_id,
        total_auctions := 0 }
    (room.room_id,
      save_all_data { s with data := { s.data with rooms := s.data.rooms ++ [room] } })

def join_room (s : State) (user_id room_id : Int) : Int × State :=
  match find_room_by_id s.data.rooms room_id with
  | none => (-1, s)
  | some room =>
    if room.status = "ended" then (-2, s)
    else if room.max_participants ≤ room.current_participants then (-3, s)
    else
      let client := find_client_by_user_id s.clients user_id
      let already : Bool :=
        match client with
        | some c => decide (0 < c.current_room_id) && decide (c.current_room_id ≠ room_id)
        | none => false
      if already then (-4, s)
      else
        let clients1 :=
          match client with
          | some _ =>
            modifyFirst (fun c => c.is_active && decide (c.user_id = user_id))
              (fun c => { c with current_room_id := room_id }) s.clients
          | none => s.clients
        let rooms1 :=
          modifyFirst (fun r => decide (r.room_id = room_id))
            (fun r => { r with
              current_participants := r.current_participants + 1,
              status := if r.status = "waiting" then "active" else r.status })
            s.data.rooms
        (0, save_all_data { s with data := { s.data with rooms := rooms1 }, clients := clients1 })

def _leave_room_unsafe (s : State) (user_id : Int) : Int × State :=
  match find_client_by_user_id s.clients user_id with
  | none => (-1, s)
  | some client =>
    if client.current_room_id = 0 then (-1, s)
    else
      let old_room_id := client.current_room_id
      let rooms1 :=
        match find_room_by_id s.data.rooms old_room_id with
        | some _ =>
          modifyFirst (fun r => decide (r.room_id = old_room_id))
            (fun r => { r with current_participants := r.current_participants - 1 })
            s.data.rooms
        | none => s.data.rooms
      let clients1 :=
        modifyFirst (fun c => c.is_active && decide (c.user_id = user_id))
          (fun c => { c with current_room_id := 0 }) s.clients
      (0, { s with data := { s.data with rooms := rooms1 }, clients := clients1 })

def leave_room (s : State) (user_id : Int) : Int × State :=
  let r := _leave_room_unsafe s user_id
  if r.1 = 0 then (r.1, save_all_data r.2) else r

/-! ## User management -/

def register_user (s : State) (now : Int) (username password email : String) :
    Int × State :=
  match find_user_by_username s.data.users username with
  | some _ => (-1, s)
  | none =>
    if MAX_USERS ≤ s.data.users.length then (-2, s)
    else
      let user : User :=
        { user_id := (s.data.users.length : Int) + 1,
          username := strncpy 49 username,
          password := strncpy 255 password,
          email := strncpy 99 email,
          role := "user",
          balance := 1000000,
          status := "active",
          created_at := now }
      (user.user_id,
        save_all_data { s with data := { s.data with users := s.data.users ++ [user] } })

def authenticate_user (s : State) (username password : String) : Int :=
  match find_user_by_username s.data.users username with
  | none => -1
  | some user =>
    if user.password ≠ password then -2
    else if user.status ≠ "active" then -3
    else user.user_id

/-! ## Auction management -/

def create_auction (s : State) (now : Int) (seller_id room_id : Int)
    (title desc : String) (start_price buy_now_price min_increment : Int)
    (duration_minutes : Int) : Int × State :=
  if MAX_AUCTIONS ≤ s.data.auctions.length then (-1, s)
  else
    match find_room_by_id s.data.rooms room_id with
    | none => (-2, s)
    | some room =>
      let seller_current_room : Int :=
        match find_client_by_user_id s.clients seller_id with
        | some client => client.current_room_id
        | none => 0
      if seller_current_room ≠ room_id then (-3, s)
      else if room.created_by ≠ seller_id then (-4, s)
      else
        let auction : Auction :=
          { auction_id := (s.data.auctions.length : Int) + 1,
            seller_id := seller_id,
            room_id := room_id,
            title := strncpy 199 title,
            description := strncpy 499 desc,
            start_price := start_price,
            current_price := start_price,
            buy_now_price := buy_now_price,
            min_bid_increment := min_increment,
            start_time := now,
            end_time := now + wrap32 (duration_minutes * 60),
            status := "active",
            winner_id := 0,
            total_bids := 0 }
        let rooms1 :=
          modifyFirst (fun r => decide (r.room_id = room_id))
            (fun r => { r with total_auctions := r.total_auctions + 1 }) s.data.rooms
        (auction.auction_id,
          save_all_data { s with data := { s.data with
            auctions := s.data.auctions ++ [auction], rooms := rooms1 } })

/-- Room the bidder is taken to be in by `place_bid`:
`(client != NULL) ? client->current_room_id : 0`. -/
def user_room_id (clients : List ClientSession) (user_id : Int) : Int :=
  match find_client_by_user_id clients user_id with
  | some client => client.current_room_id
  | none => 0

def place_bid (s : State) (now : Int) (auction_id user_id : Int) (bid_amount : Int) :
    Int × State :=
  match find_auction_by_id s.data.auctions auction_id with
  | none => (-1, s)
  | some auction =>
    if auction.status ≠ "active" then (-2, s)
    else if user_room_id s.clients user_id ≠ auction.room_id then (-8, s)
    else if auction.end_time < now then (-3, s)
    else if bid_amount < auction.current_price + auction.min_bid_increment then (-4, s)
    else if auction.seller_id = user_id then (-5, s)
    else
      match find_user_by_id s.data.users user_id with
      | none => (-6, s)
      | some user =>
        if user.balance < bid_amount then (-6, s)
        else if MAX_BIDS ≤ s.data.bids.length then (-7, s)
        else
          let bid : Bid :=
            { bid_id := (s.data.bids.length : Int) + 1,
              auction_id := auction_id,
              user_id := user_id,
              bid_amount := bid_amount,
              bid_time := now }
          let time_remaining := auction.end_time - now
          let auctions1 :=
            modifyFirst (fun a => decide (a.auction_id = auction_id))
              (fun a => { a with
                current_price := bid_amount,
                total_bids := a.total_bids + 1,
                winner_id := user_id,
                end_time :=
                  if time_remaining < 30 ∧ 0 < time_remaining then now + 30 else a.end_time })
              s.data.auctions
          (bid.bid_id,
            save_all_data { s with data := { s.data with
              bids := s.data.bids ++ [bid], auctions := auctions1 } })

def buy_now (s : State) (auction_id user_id : Int) : Int × State :=
  match find_auction_by_id s.data.auctions auction_id with
  | none => (-1, s)
  | some auction =>
    if auction.status ≠ "active" then (-1, s)
    else
      match find_client_by_user_id s.clients user_id with
      | none => (-4, s)
      | some client =>
        if client.current_room_id ≠ auction.room_id then (-4, s)
        else if auction.buy_now_price ≤ 0 then (-2, s)
        else
          match find_user_by_id s.data.users user_id with
          | none => (-3, s)
          | some user =>
            if user.balance < auction.buy_now_price then (-3, s)
            else
              let users1 :=
                modifyFirst (fun u => decide (u.user_id = user_id))
                  (fun u => { u with balance := u.balance - auction.buy_now_price })
                  s.data.users
              let users2 :=
                match find_user_by_id users1 auction.seller_id with
                | some _ =>
                  modifyFirst (fun u => decide (u.user_id = auction.seller_id))
                    (fun u => { u with balance := u.balance + auction.buy_now_price }) users1
                | none => users1
              let auctions1 :=
                modifyFirst (fun a => decide (a.auction_id = auction_id))
                  (fun a => { a with
                    winner_id := user_id,
                    current_price := a.buy_now_price,
                    status := "ended" })
                  s.data.auctions
              (0, save_all_data { s with data := { s.data with
                users := users2, auctions := auctions1 } })

/-! ## Client session management -/

def is_user_logged_in (s : State) (user_id : Int) : Bool :=
  s.clients.any (fun c => c.is_active && decide (c.user_id = user_id))

def force_logout_user (s : State) (user_id : Int) : State :=
  { s with
    clients := s.clients.map (fun c =>
      if c.is_active && decide (c.user_id = user_id) then { c with is_active := false } else c),
    client_count := s.client_count -
      ((s.clients.filter (fun c => c.is_active && decide (c.user_id = user_id))).length : Int) }

def add_client (s : State) (now : Int) (socket user_id : Int) (username : String) : State :=
  if s.clients.any (fun c => !c.is_active) then
    { s with
      clients := modifyFirst (fun c => !c.is_active)
        (fun c => { c with
          socket := socket, user_id := user_id, username := strncpy 49 username,
          is_active := true, login_time := now, current_room_id := 0 }) s.clients,
      client_count := s.client_count + 1 }
  else s

def remove_client (s : State) (socket : Int) : State :=
  match s.clients.find? (fun c => c.is_active && decide (c.socket = socket)) with
  | none => s
  | some c =>
    let s1 : State :=
      { s with
        clients := modifyFirst (fun c => c.is_active && decide (c.socket = socket))
          (fun c => { c with is_active := false }) s.clients,
        client_count := s.client_count - 1 }
    if 0 < c.user_id ∧ 0 < c.current_room_id then
      save_all_data ( _leave_room_unsafe s1 c.user_id).2
    else s1

/-! ## Protocol handlers that change the state beyond one call above -/

def handle_login (s : State) (now : Int) (client_socket : Int) (username password : String) :
    State :=
  let user_id := authenticate_user s username password
  if 0 < user_id then
    let s1 := if is_user_logged_in s user_id then force_logout_user s user_id else s
    add_client s1 now client_socket user_id username
  else s

def handle_create_room (s : State) (now : Int) (creator_id : Int) (name desc : String)
    (max_participants duration : Int) : State :=
  let r := create_room s now creator_id name desc max_participants duration
  if 0 < r.1 then (join_room r.2 creator_id r.1).2 else r.2

/-! ## Auction timer -/

/-- One pass of the loop body of `auction_timer` over `g_auctions`. -/
def auction_timer (s : State) (now : Int) : State :=
  { s with data := { s.data with
      auctions := s.data.auctions.map (fun a =>
        if a.status = "active" then
          if a.end_time - now ≤ 0 then { a with status := "ended" } else a
        else a) } }

/-! ## The server as a transition system -/

/-- Requests that can change the state, and the timer tick.  The handlers pass
the ids found in the request text, so every argument is arbitrary. -/
inductive Op where
  | register (username password email : String)
  | login (client_socket : Int) (username password : String)
  | disconnect (client_socket : Int)
  | create_room (creator_id : Int) (name desc : String) (max_participants duration : Int)
  | join_room (user_id room_id : Int)
  | leave_room (user_id : Int)
  | create_auction (seller_id room_id : Int) (title desc : String)
      (start_price buy_now_price min_increment : Int) (duration : Int)
  | place_bid (auction_id user_id : Int) (bid_amount : Int)
  | buy_now (auction_id user_id : Int)
  | timer
  | query
deriving DecidableEq

/-- State after the server has handled `op` at time `now`; `query` stands for the
read-only commands. -/
def step (now : Int) (op : Op) (s : State) : State :=
  match op with
  | .register u p e => (register_user s now u p e).2
  | .login sock u p => handle_login s now sock u p
  | .disconnect sock => remove_client s sock
  | .create_room c n d m dur => handle_create_room s now c n d m dur
  | .join_room u r => (join_room s u r).2
  | .leave_room u => (leave_room s u).2
  | .create_auction sid rid t d sp bp mi dur => (create_auction s now sid rid t d sp bp mi dur).2
  | .place_bid a u amt => (place_bid s now a u amt).2
  | .buy_now a u => (buy_now s a u).2
  | .timer => auction_timer s now
  | .query => s

/-- A request or tick together with the clock reading at which it is handled. -/
abbrev Event := Int × Op

def run (evs : List Event) (s : State) : State :=
  evs.foldl (fun st ev => step ev.1 ev.2 st) s

/-- States reachable from the start state by events whose requests satisfy `P`. -/
inductive ReachableBy (P : Op → Prop) : State → Prop
  | init : ReachableBy P initState
  | step (now : Int) (op : Op) (s : State) : ReachableBy P s → P op →
      ReachableBy P (step now op s)

def Reachable (s : State) : Prop := ReachableBy (fun _ => True) s

/-- Every auction in the request is created with a positive minimum increment. -/
def PositiveIncrement : Op → Prop
  | .create_auction _ _ _ _ _ _ mi _ => 0 < mi
  | _ => True

/-- Bids of a bid table recorded for the auction with the given id, oldest first. -/
def bidsOf (bids : List Bid) (auction_id : Int) : List Bid :=
  bids.filter (fun b => decide (b.auction_id = auction_id))

/-- Recorded bids on the auction with the given id, oldest first. -/
def bidsOn (s : State) (auction_id : Int) : List Bid := bidsOf s.data.bids auction_id

/-- Amount of the most recently recorded bid on the auction, or its start price
when no bid on it is recorded. -/
def latestPrice (bids : List Bid) (a : Auction) : Int :=
  match (bidsOf bids a.auction_id).getLast? with
  | some b => b.bid_amount
  | none => a.start_price

instance : DecidablePred PositiveIncrement := fun op => by
  cases op <;> unfold PositiveIncrement <;> infer_instance

/-! ## The writing parts of `place_bid` and `buy_now` -/

/-- Conditions under which `place_bid` passes all its checks, `a` and `u` being
the records its two searches return. -/
def BidOk (s : State) (now auction_id user_id bid_amount : Int) (a : Auction) (u : User) :
    Prop :=
  find_auction_by_id s.data.auctions auction_id = some a ∧
    a.status = "active" ∧ now ≤ a.end_time ∧
    a.current_price + a.min_bid_increment ≤ bid_amount ∧
    user_id ≠ a.seller_id ∧
    find_user_by_id s.data.users user_id = some u ∧ bid_amount ≤ u.balance ∧
    user_room_id s.clients user_id = a.room_id ∧
    s.data.bids.length < 5000

/-- State written by `place_bid` after its checks, `auction` being the record found. -/
def bidAccepted (s : State) (now auction_id user_id bid_amount : Int) (auction : Auction) :
    State :=
  save_all_data { s with data := { s.data with
    bids := s.data.bids ++
      [{ bid_id := (s.data.bids.length : Int) + 1, auction_id := auction_id,
         user_id := user_id, bid_amount := bid_amount, bid_time := now }],
    auctions :=
      modifyFirst (fun a => decide (a.auction_id = auction_id))
        (fun a => { a with
          current_price := bid_amount,
          total_bids := a.total_bids + 1,
          winner_id := user_id,
          end_time :=
            if auction.end_time - now < 30 ∧ 0 < auction.end_time - now then now + 30
            else a.end_time })
        s.data.auctions } }

/-- Conditions under which `buy_now` passes all its checks, `a`, `c` and `u` being
the records its searches return. -/
def BuyOk (s : State) (auction_id user_id : Int) (a : Auction) (c : ClientSession)
    (u : User) : Prop :=
  find_auction_by_id s.data.auctions auction_id = some a ∧
    a.status = "active" ∧
    find_client_by_user_id s.clients user_id = some c ∧
    c.current_room_id = a.room_id ∧
    0 < a.buy_now_price ∧
    find_user_by_id s.data.users user_id = some u ∧ a.buy_now_price ≤ u.balance

/-- User table after the debit of the buyer and the credit of the seller in `buy_now`. -/
def buyUsers (users : List User) (user_id : Int) (auction : Auction) : List User :=
  let users1 :=
    modifyFirst (fun u => decide (u.user_id = user_id))
      (fun u => { u with balance := u.balance - auction.buy_now_price }) users
  match find_user_by_id users1 auction.seller_id with
  | some _ =>
    modifyFirst (fun u => decide (u.user_id = auction.seller_id))
      (fun u => { u with balance := u.balance + auction.buy_now_price }) users1
  | none => users1

/-- State written by `buy_now` after its checks, `auction` being the record found. -/
def buyAccepted (s : State) (auction_id user_id : Int) (auction : Auction) : State :=
  save_all_data { s with data := { s.data with
    users := buyUsers s.data.users user_id auction,
    auctions :=
      modifyFirst (fun a => decide (a.auction_id = auction_id))
        (fun a => { a with
          winner_id := user_id,
          current_price := a.buy_now_price,
          status := "ended" })
        s.data.auctions } }

/-! ## Concrete states -/

/-- Two users register and log in; user 1 opens room 1 and is joined to it,
user 2 joins, and user 1 puts up auction 1 (start 100, buy-now 500, increment 10,
one minute) at time 0. -/
def demoEvents : List Event :=
  [ (0, .register "alice" "pw" "a@x"),
    (0, .register "bob" "pw" "b@x"),
    (0, .login 4 "alice" "pw"),
    (0, .login 5 "bob" "pw"),
    (0, .create_room 1 "Vintage" "Old stuff" 5 60),
    (0, .join_room 2 1),
    (0, .create_auction 1 1 "Lamp" "Brass lamp" 100 500 10 1) ]

def demoState : State := run demoEvents initState

/-- After `demoEvents`, user 2 bids 110 at time 1 and 150 at time 2 on auction 1. -/
def bidEvents : List Event :=
  demoEvents ++ [(1, .place_bid 1 2 110), (2, .place_bid 1 2 150)]

def bidState : State := run bidEvents initState

/-- The record of auction 1 in `bidState`. -/
def bidAuction : Auction :=
  { auction_id := 1, seller_id := 1, room_id := 1, title := "Lamp",
    description := "Brass lamp", start_price := 100, current_price := 150,
    buy_now_price := 500, min_bid_increment := 10, start_time := 0,
    end_time := 60, status := "active", winner_id := 2, total_bids := 2 }

/-- After `demoEvents`, user 2 buys auction 1 at its buy-now price at time 1. -/
def soldEvents : List Event := demoEvents ++ [(1, .buy_now 1 2)]

def soldState : State := run soldEvents initState

/-- The record of auction 1 in `soldState`. -/
def soldAuction : Auction :=
  { auction_id := 1, seller_id := 1, room_id := 1, title := "Lamp",
    description := "Brass lamp", start_price := 100, current_price := 500,
    buy_now_price := 500, min_bid_increment := 10, start_time := 0,
    end_time := 60, status := "ended", winner_id := 2, total_bids := 0 }

/-- As `demoEvents`, but auction 1 is put up with start price 100 and buy-now
price 50 (increment 10). -/
def cheapEvents : List Event :=
  [ (0, .register "alice" "pw" "a@x"),
    (0, .register "bob" "pw" "b@x"),
    (0, .login 4 "alice" "pw"),
    (0, .login 5 "bob" "pw"),
    (0, .create_room 1 "Vintage" "Old stuff" 5 60),
    (0, .join_room 2 1),
    (0, .create_auction 1 1 "Lamp" "Brass lamp" 100 50 10 1) ]

def cheapState : State := run cheapEvents initState

/-- The record of auction 1 in `demoState`. -/
def demoAuction : Auction :=
  { auction_id := 1, seller_id := 1, room_id := 1, title := "Lamp",
    description := "Brass lamp", start_price := 100, current_price := 100,
    buy_now_price := 500, min_bid_increment := 10, start_time := 0,
    end_time := 60, status := "active", winner_id := 0, total_bids := 0 }

/-- The record of user 1 (the seller) in `demoState`. -/
def demoSeller : User :=
  { user_id := 1, username := "alice", password := "pw", email := "a@x", role := "user",
    balance := 1000000, status := "active", created_at := 0 }

/-- The record of user 2 in `demoState`. -/
def demoBuyer : User :=
  { user_id := 2, username := "bob", password := "pw", email := "b@x", role := "user",
    balance := 1000000, status := "active", created_at := 0 }

/-! ## Invariants of the auction and bid tables -/

/-- What the bid table says about one auction record. -/
structure AuctionInv (bids : List Bid) (a : Auction) : Prop where
  total : a.total_bids = ((bidsOf bids a.auction_id).length : Int)
  price : a.current_price = latestPrice bids a ∨
    (a.status = "ended" ∧ a.current_price = a.buy_now_price)
  winner : a.status = "active" →
    ∀ b, (bidsOf bids a.auction_id).getLast? = some b → a.winner_id = b.user_id
  floor : 0 < a.min_bid_increment →
    a.start_price ≤ a.current_price ∨ (a.status = "ended" ∧ a.current_price = a.buy_now_price)
  top : 0 < a.min_bid_increment → a.status = "active" →
    ∀ b ∈ bidsOf bids a.auction_id, b.bid_amount ≤ a.current_price
  sorted : 0 < a.min_bid_increment →
    (bidsOf bids a.auction_id).Pairwise (fun x y => x.bid_amount < y.bid_amount)

/-- Invariant of the auction table together with the bid table. -/
structure StoreInv (auctions : List Auction) (bids : List Bid) : Prop where
  ids : ∀ (i : Nat) (a : Auction), auctions[i]? = some a → a.auction_id = (i : Int) + 1
  bidIds : ∀ b ∈ bids, b.auction_id ≤ (auctions.length : Int)
  each : ∀ a ∈ auctions, AuctionInv bids a

/-! ## Replies and timer notifications -/

/-- Reply line of `handle_register`, by its fields. -/
inductive RegisterResponse where
  | success (user_id : Int) (username : String)
  | fail (reason : String)
deriving DecidableEq

/-- Reply chosen by `handle_register` from the result of `register_user`. -/
def handle_register_response (result : Int) (username : String) : RegisterResponse :=
  if 0 < result then .success result username
  else if result = -1 then .fail "Username already exists"
  else .fail "Database full"

/-- Number of live sessions whose `current_room_id` is the given room (the test
`broadcast_message_to_room` uses for membership). -/
def participantsOf (clients : List ClientSession) (room_id : Int) : Nat :=
  (clients.filter (fun c => c.is_active && decide (c.current_room_id = room_id))).length

/-- No two live sessions of the table carry the same `user_id`. -/
def SessionsUnique (clients : List ClientSession) : Prop :=
  clients.Pairwise (fun c d =>
    ¬ (c.is_active = true ∧ d.is_active = true ∧ c.user_id = d.user_id))

/-! ## More concrete states -/

/-- The session of user 1 in `demoState` (slot 0). -/
def demoSessionAlice : ClientSession :=
  { socket := 4, user_id := 1, username := "alice", is_active := true, login_time := 0,
    current_room_id := 1 }

/-- The session of user 2 in `demoState` (slot 1). -/
def demoSessionBob : ClientSession :=
  { socket := 5, user_id := 2, username := "bob", is_active := true, login_time := 0,
    current_room_id := 1 }

/-- The record of room 1 in `demoState`. -/
def demoRoom : AuctionRoom :=
  { room_id := 1, room_name := "Vintage", description := "Old stuff", max_participants := 5,
    current_participants := 2, status := "active", start_time := 0, end_time := 3600,
    created_by := 1, total_auctions := 1 }

/-- Two users register and log in, and user 1 opens room 1 (and is joined to it);
user 2 is in no room yet. -/
def openEvents : List Event :=
  [ (0, .register "alice" "pw" "a@x"),
    (0, .register "bob" "pw" "b@x"),
    (0, .login 4 "alice" "pw"),
    (0, .login 5 "bob" "pw"),
    (0, .create_room 1 "Vintage" "Old stuff" 5 60) ]

def openState : State := run openEvents initState

/-- The record of room 1 in `openState`. -/
def openRoom : AuctionRoom :=
  { room_id := 1, room_name := "Vintage", description := "Old stuff", max_participants := 5,
    current_participants := 1, status := "active", start_time := 0, end_time := 3600,
    created_by := 1, total_auctions := 0 }

/-- The session of user 2 in `openState` (slot 1). -/
def openSessionBob : ClientSession :=
  { socket := 5, user_id := 2, username := "bob", is_active := true, login_time := 0,
    current_room_id := 0 }

/-- A user name of 50 characters. -/
def longName : String := "aaaaaaaaaaaaaaaaaaaaaaaaaaaaaaaaaaaaaaaaaaaaaaaaaa"

/-- The first 49 characters of `longName`. -/
def longNameStored : String := "aaaaaaaaaaaaaaaaaaaaaaaaaaaaaaaaaaaaaaaaaaaaaaaaa"

/-- The room stored at position `i` has id `i + 1`. -/
def RoomIds (rooms : List AuctionRoom) : Prop :=
  ∀ (i : Nat) (r : AuctionRoom), rooms[i]? = some r → r.room_id = (i : Int) + 1

/-! ## Bid history and bid notifications -/

/-- Name the handlers print for a user id: `user ? user->username : "Unknown"`. -/
def bidder_name (users : List User) (user_id : Int) : String :=
  match find_user_by_id users user_id with
  | some bidder => bidder.username
  | none => "Unknown"

/-- One record of the `BID_HISTORY` reply: bidder name, amount and time of the bid
(the time is kept as the clock value the reply formats). -/
structure BidRecord where
  bidder : String
  amount : Int
  bid_time : Int
deriving DecidableEq

/-- Reply of `handle_bid_history`, by its fields. -/
inductive BidHistoryResponse where
  | fail (reason : String)
  | history (records : List BidRecord)
deriving DecidableEq

/-- `handle_bid_history`: the loop runs over the last 20 entries of the bid table,
newest first, and keeps those recorded for the auction. -/
def handle_bid_history (s : State) (auction_id user_id : Int) : BidHistoryResponse :=
  match find_auction_by_id s.data.auctions auction_id,
      find_client_by_user_id s.clients user_id with
  | some auction, some client =>
    if client.current_room_id ≠ auction.room_id then .fail "Not in the same room"
    else
      .history (((s.data.bids.reverse.take 20).filter
          (fun b => decide (b.auction_id = auction_id))).map
        (fun b =>
          { bidder := bidder_name s.data.users b.user_id,
            amount := b.bid_amount,
            bid_time := b.bid_time }))
  | _, _ => .fail "Not in the same room"

/-- Reply of `handle_place_bid`, by its fields. -/
inductive BidResponse where
  | success (auction_id : Int) (bid_amount : Int) (total_bids : Int) (time_left : Int)
  | fail (reason : String)
deriving DecidableEq

/-- Messages `handle_place_bid` formats for the room, by their fields. -/
inductive BidNotification where
  | new_bid (auction_id : Int) (bidder : String) (bid_amount : Int) (total_bids : Int)
  | new_bid_warning (auction_id : Int) (bidder : String) (bid_amount : Int)
      (total_bids : Int) (time_left : Int)
deriving DecidableEq

/-- One call `broadcast_message_to_room(message, room_id, exclude_socket)` of
`handle_place_bid`. -/
structure BidBroadcast where
  room_id : Int
  exclude_socket : Int
  message : BidNotification
deriving DecidableEq

/-- Sessions `broadcast_message_to_room` sends to: live, in the room, and not on the
excluded socket. -/
def broadcast_recipients (clients : List ClientSession) (room_id exclude_socket : Int) :
    List ClientSession :=
  clients.filter (fun c =>
    c.is_active && decide (c.current_room_id = room_id) &&
      decide (c.socket ≠ exclude_socket))

/-- Text `handle_place_bid` puts after `BID_FAIL|` for a result code. -/
def bid_error_msg (result : Int) : String :=
  if result = -1 then "Auction not found"
  else if result = -2 then "Auction not active"
  else if result = -3 then "Auction ended"
  else if result = -4 then "Bid too low"
  else if result = -5 then "Cannot bid on own auction"
  else if result = -6 then "Insufficient balance"
  else if result = -8 then "Not in the same room"
  else "Unknown error"

/-- What `handle_place_bid` does: the state after `place_bid`, the reply to the
requesting connection and the broadcast to the room, if any. -/
structure PlaceBidOutcome where
  state : State
  response : BidResponse
  broadcast : Option BidBroadcast
deriving DecidableEq

/-- `handle_place_bid` on the connection `client_socket`; `now` is the clock read
inside `place_bid`, `now2` the clock read by the handler afterwards. -/
def handle_place_bid (s : State) (now now2 : Int) (client_socket auction_id user_id : Int)
    (bid_amount : Int) : PlaceBidOutcome :=
  let r := place_bid s now auction_id user_id bid_amount
  if 0 < r.1 then
    match find_auction_by_id r.2.data.auctions auction_id with
    | some auction =>
      let time_left := auction.end_time - now2
      let total_bids := auction.total_bids
      let bidder := bidder_name r.2.data.users user_id
      { state := r.2,
        response := .success auction_id bid_amount total_bids time_left,
        broadcast := some
          { room_id := auction.room_id,
            exclude_socket := client_socket,
            message :=
              if time_left < 30 ∧ 0 < time_left then
                .new_bid_warning auction_id bidder bid_amount total_bids time_left
              else .new_bid auction_id bidder bid_amount total_bids } }
    | none =>
      { state := r.2, response := .success auction_id bid_amount 0 0, broadcast := none }
  else
    { state := r.2, response := .fail (bid_error_msg r.1), broadcast := none }

/-! ## Invariants of rooms, sessions and ids -/

/-- Every room in the request is created with a positive capacity. -/
def PositiveCapacity : Op → Prop
  | .create_room _ _ _ m _ => 0 < m
  | _ => True

instance : DecidablePred PositiveCapacity := fun op => by
  cases op <;> unfold PositiveCapacity <;> infer_instance

/-- The user stored at position `i` has id `i + 1`. -/
def UserIds (users : List User) : Prop :=
  ∀ (i : Nat) (u : User), users[i]? = some u → u.user_id = (i : Int) + 1

/-- The bid stored at position `i` has id `i + 1`. -/
def BidIds (bids : List Bid) : Prop :=
  ∀ (i : Nat) (b : Bid), bids[i]? = some b → b.bid_id = (i : Int) + 1

/-- 1 for a live session in the room, 0 otherwise. -/
def inRoom (room_id : Int) (c : ClientSession) : Int :=
  if c.is_active && decide (c.current_room_id = room_id) then 1 else 0

/-- Invariant of the room table together with the session table; `Q` holds of
every capacity rooms were created with. -/
structure RoomInv (Q : Int → Prop) (rooms : List AuctionRoom) (clients : List ClientSession) :
    Prop where
  ids : RoomIds rooms
  status : ∀ r ∈ rooms, r.status = "waiting" ∨ r.status = "active"
  maxq : ∀ r ∈ rooms, Q r.max_participants
  cap : ∀ r ∈ rooms,
    r.current_participants ≤ r.max_participants ∨ r.current_participants ≤ 0
  sess : ∀ c ∈ clients, c.is_active = true →
    0 ≤ c.current_room_id ∧ c.current_room_id ≤ (rooms.length : Int)
  count : ∀ r ∈ rooms, (participantsOf clients r.room_id : Int) ≤ r.current_participants

/-! ## Concrete states for the history and the snapshot -/

/-- After `demoEvents`, user 1 puts up auction 2 in room 1; user 2 bids 110 on
auction 1 and then twenty times on auction 2 (110, 120, ..., 300). -/
def historyEvents : List Event :=
  demoEvents ++
    [ (0, .create_auction 1 1 "Vase" "Glass vase" 100 0 10 1),
      (1, .place_bid 1 2 110) ] ++
    (List.range 20).map (fun k => ((1 : Int), Op.place_bid 2 2 (110 + 10 * (k : Int))))

def historyState : State := run historyEvents initState

/-- After `demoEvents`, user 2 leaves room 1 at time 3 and the connection of user 1
(socket 4) drops at time 4. -/
def leftEvents : List Event :=
  demoEvents ++ [(3, .leave_room 2), (4, .disconnect 4)]

def leftState : State := run leftEvents initState

/-- The record of room 1 in `leftState`. -/
def leftRoom : AuctionRoom :=
  { room_id := 1, room_name := "Vintage", description := "Old stuff", max_participants := 5,
    current_participants := 1, status := "active", start_time := 0, end_time := 3600,
    created_by := 1, total_auctions := 1 }

/-! ## Mutexes

The two mutexes of `server.c` and, for every function that takes one, the order
in which its paths lock and unlock them.  A call of a function that takes no
mutex (`find_*`, `save_all_data`, `_leave_room_unsafe`, the C library) leaves no
event; a call of a function that does is its skeleton in place. -/

inductive Mutex where
  | data_mutex
  | client_mutex
deriving DecidableEq

/-- One `pthread_mutex_lock` or `pthread_mutex_unlock`. -/
inductive LockEvent where
  | lock (m : Mutex)
  | unlock (m : Mutex)
deriving DecidableEq

/-- Control flow of a function as the mutexes see it: `alt` is a branch (an early
`return` ends its alternative), `loop` a `for` or `while` body run any number of
times. -/
inductive LockProg where
  | skip
  | lock (m : Mutex)
  | unlock (m : Mutex)
  | seq (a b : LockProg)
  | alt (a b : LockProg)
  | loop (body : LockProg)
deriving DecidableEq

/-- Statements in sequence. -/
def LockProg.block : List LockProg → LockProg
  | [] => .skip
  | p :: ps => .seq p (LockProg.block ps)

/-- One of several branches. -/
def LockProg.choice : List LockProg → LockProg
  | [] => .skip
  | [p] => p
  | p :: q :: ps => .alt p (LockProg.choice (q :: ps))

/-- Concatenations of at most `k` traces out of `ts`. -/
def iterate (ts : List (List LockEvent)) : Nat → List (List LockEvent)
  | 0 => [[]]
  | k + 1 => [] :: ts.flatMap (fun t => (iterate ts k).map (fun u => t ++ u))

/-- The event sequences of the paths through `p` in which every loop runs at most
`n` times. -/
def traces (n : Nat) : LockProg → List (List LockEvent)
  | .skip => [[]]
  | .lock m => [[.lock m]]
  | .unlock m => [[.unlock m]]
  | .seq a b => (traces n a).flatMap (fun t => (traces n b).map (fun u => t ++ u))
  | .alt a b => traces n a ++ traces n b
  | .loop a => iterate (traces n a) n

/-- Whether `m` is held after the event `e`, given whether it was held before. -/
def upd (m : Mutex) (b : Bool) : LockEvent → Bool
  | .lock m1 => if m1 = m then true else b
  | .unlock m1 => if m1 = m then false else b

/-- Whether `m` is held after the events `t`, given whether it was held before. -/
def holdsFrom (m : Mutex) (b : Bool) (t : List LockEvent) : Bool :=
  t.foldl (upd m) b

/-- Whether a thread that starts with no mutex holds `m` after the events `t`. -/
def holds (m : Mutex) (t : List LockEvent) : Bool :=
  holdsFrom m false t

/-- Lock order `data_mutex` before `client_mutex`: at no point of `t` is
`data_mutex` locked while `client_mutex` is held. -/
def LockOrdered (t : List LockEvent) : Prop :=
  ∀ i < t.length, t[i]? = some (.lock .data_mutex) → holds .client_mutex (t.take i) = false

instance : DecidablePred LockOrdered := fun t => by
  unfold LockOrdered
  infer_instance

/-- The check of `LockOrdered` along `t`, with `c` telling whether `client_mutex`
is held at the start. -/
def safeFrom (c : Bool) : List LockEvent → Bool
  | [] => true
  | e :: t =>
    (if e = .lock .data_mutex then !c else true) && safeFrom (upd .client_mutex c e) t

/-- The same check on the control flow: `some c1` when no path of `p` started with
`client_mutex` held or not (`c`) locks `data_mutex` under `client_mutex`, and
every path ends with `client_mutex` held or not as `c1` says. -/
def check : LockProg → Bool → Option Bool
  | .skip, c => some c
  | .lock m, c =>
    if m = .data_mutex ∧ c = true then none else some (upd .client_mutex c (.lock m))
  | .unlock m, c => some (upd .client_mutex c (.unlock m))
  | .seq a b, c => (check a c).bind (check b)
  | .alt a b, c =>
    match check a c, check b c with
    | some x, some y => if x = y then some x else none
    | _, _ => none
  | .loop a, c => if check a c = some c then some c else none

namespace Locks

def create_room : LockProg :=
  .block [.lock .data_mutex,
    .choice [
      .unlock .data_mutex,   -- return -1
      .unlock .data_mutex,   -- return -2, inside the name loop
      .unlock .data_mutex]]  -- return room->room_id

def join_room : LockProg :=
  .block [.lock .data_mutex,
    .choice [
      .unlock .data_mutex,   -- return -1
      .unlock .data_mutex,   -- return -2
      .unlock .data_mutex,   -- return -3
      .block [.lock .client_mutex,
        .choice [
          .block [.unlock .client_mutex, .unlock .data_mutex],    -- return -4
          .block [.unlock .client_mutex, .unlock .data_mutex]]]]] -- return 0

def leave_room : LockProg :=
  .block [.lock .data_mutex, .lock .client_mutex, .unlock .client_mutex,
    .unlock .data_mutex]

def register_user : LockProg :=
  .block [.lock .data_mutex,
    .choice [
      .unlock .data_mutex,   -- return -1
      .unlock .data_mutex,   -- return -2
      .unlock .data_mutex]]  -- return user->user_id

def authenticate_user : LockProg :=
  .block [.lock .data_mutex,
    .choice [
      .unlock .data_mutex,   -- return -1
      .unlock .data_mutex,   -- return -2
      .unlock .data_mutex,   -- return -3
      .unlock .data_mutex]]  -- return user_id

def create_auction : LockProg :=
  .block [.lock .data_mutex,
    .choice [
      .unlock .data_mutex,   -- return -1
      .unlock .data_mutex,   -- return -2
      .block [.lock .client_mutex, .unlock .client_mutex,
        .choice [
          .unlock .data_mutex,     -- return -3
          .unlock .data_mutex,     -- return -4
          .unlock .data_mutex]]]]  -- return auction->auction_id

def place_bid : LockProg :=
  .block [.lock .data_mutex,
    .choice [
      .unlock .data_mutex,   -- return -1
      .unlock .data_mutex,   -- return -2
      .block [.lock .client_mutex, .unlock .client_mutex,
        .choice [
          .unlock .data_mutex,     -- return -8
          .unlock .data_mutex,     -- return -3
          .unlock .data_mutex,     -- return -4
          .unlock .data_mutex,     -- return -5
          .unlock .data_mutex,     -- return -6
          .unlock .data_mutex,     -- return -7
          .unlock .data_mutex]]]]  -- return bid_id

def buy_now : LockProg :=
  .block [.lock .data_mutex,
    .choice [
      .unlock .data_mutex,   -- return -1
      .unlock .data_mutex,   -- return -4
      .unlock .data_mutex,   -- return -2
      .unlock .data_mutex,   -- return -3
      .unlock .data_mutex]]  -- return 0

def is_user_logged_in : LockProg :=
  .block [.lock .client_mutex,
    .choice [
      .unlock .client_mutex,   -- return 1, inside the loop
      .unlock .client_mutex]]  -- return 0

def force_logout_user : LockProg :=
  .block [.lock .client_mutex, .unlock .client_mutex]

def add_client : LockProg :=
  .block [.lock .client_mutex, .unlock .client_mutex]

def remove_client : LockProg :=
  .block [.lock .client_mutex, .unlock .client_mutex,
    .choice [
      .block [.lock .data_mutex, .lock .client_mutex, .unlock .client_mutex,
        .unlock .data_mutex],
      .skip]]

def broadcast_message_to_room : LockProg :=
  .block [.lock .client_mutex, .unlock .client_mutex]

def handle_register : LockProg :=
  register_user

def handle_login : LockProg :=
  .block [authenticate_user,
    .choice [
      .block [is_user_logged_in, .choice [force_logout_user, .skip], add_client],
      .skip]]

def handle_create_room : LockProg :=
  .block [create_room,
    .choice [
      .block [join_room, .lock .client_mutex, .unlock .client_mutex],
      .skip]]

def handle_list_rooms : LockProg :=
  .block [.lock .data_mutex, .unlock .data_mutex]

def handle_join_room : LockProg :=
  .block [join_room, .choice [broadcast_message_to_room, .skip]]

def handle_leave_room : LockProg :=
  .block [leave_room, .choice [broadcast_message_to_room, .skip]]

def handle_room_detail : LockProg :=
  .block [.lock .data_mutex, .unlock .data_mutex]

def handle_my_room : LockProg :=
  .choice [.block [.lock .data_mutex, .unlock .data_mutex], .skip]

def handle_list_auctions : LockProg :=
  .choice [
    .skip,   -- return, not in any room
    .block [.lock .data_mutex, .unlock .data_mutex]]

def handle_auction_detail : LockProg :=
  .block [.lock .data_mutex, .unlock .data_mutex]

def handle_create_auction : LockProg :=
  .block [create_auction, .choice [broadcast_message_to_room, .skip]]

def handle_place_bid : LockProg :=
  .block [place_bid,
    .choice [
      .block [.lock .data_mutex, .unlock .data_mutex,
        .choice [broadcast_message_to_room, .skip]],
      .skip]]

def handle_buy_now : LockProg :=
  .block [buy_now, .choice [broadcast_message_to_room, .skip]]

def handle_bid_history : LockProg :=
  .block [.lock .data_mutex,
    .choice [
      .unlock .data_mutex,   -- return, not in the same room
      .unlock .data_mutex]]

def handle_my_auctions : LockProg :=
  .block [.lock .data_mutex, .unlock .data_mutex]

def handle_auction_history : LockProg :=
  .block [.lock .data_mutex, .unlock .data_mutex]

/-- The thread of one connection: the command loop, then `remove_client`. -/
def handle_client : LockProg :=
  .block [
    .loop (.choice [handle_register, handle_login, handle_create_room, handle_list_rooms,
      handle_join_room, handle_leave_room, handle_room_detail, handle_my_room,
      handle_list_auctions, handle_my_auctions, handle_auction_detail,
      handle_create_auction, handle_place_bid, handle_buy_now, handle_bid_history,
      handle_auction_history,
      .skip]),   -- unknown command
    remove_client]

/-- The timer thread: each round locks `data_mutex`, walks the auctions (a
broadcast for an auction that ended, one for a warning, or nothing) and unlocks. -/
def auction_timer : LockProg :=
  .loop (.block [.lock .data_mutex,
    .loop (.choice [broadcast_message_to_room, broadcast_message_to_room, .skip]),
    .unlock .data_mutex])

/-- The main thread and `signal_handler` take no mutex. -/
def main : LockProg :=
  .skip

end Locks

/-! ## References between the tables -/

/-- Every live session carries the id of one of the first `n` users. -/
def SessionUsers (n : Int) (clients : List ClientSession) : Prop :=
  ∀ c ∈ clients, c.is_active = true → 1 ≤ c.user_id ∧ c.user_id ≤ n

/-- Every auction names one of the first `n` users as its seller, and a room id
that is at least 1. -/
def AuctionRefs (n : Int) (auctions : List Auction) : Prop :=
  ∀ a ∈ auctions, 1 ≤ a.seller_id ∧ a.seller_id ≤ n ∧ 1 ≤ a.room_id

/-- Sessions and auctions refer to stored users and to room ids from 1 on. -/
structure RefInv (s : State) : Prop where
  sess : SessionUsers (s.data.users.length : Int) s.clients
  refs : AuctionRefs (s.data.users.length : Int) s.data.auctions

/-! ## Further concrete states -/

/-- As `demoEvents`, with a third user who registers, logs in on socket 6 and
joins room 1 before the auction is put up. -/
def trioEvents : List Event :=
  [ (0, .register "alice" "pw" "a@x"),
    (0, .register "bob" "pw" "b@x"),
    (0, .register "carol" "pw" "c@x"),
    (0, .login 4 "alice" "pw"),
    (0, .login 5 "bob" "pw"),
    (0, .login 6 "carol" "pw"),
    (0, .create_room 1 "Vintage" "Old stuff" 5 60),
    (0, .join_room 2 1),
    (0, .join_room 3 1),
    (0, .create_auction 1 1 "Lamp" "Brass lamp" 100 500 10 1) ]

def trioState : State := run trioEvents initState

/-- A server started on the files that `bidState` has saved: nothing in memory,
no session, the four files as `save_all_data` left them. -/
def restartState : State :=
  { initState with disk := (save_all_data bidState).disk }

/-! ## `double` amounts

`sscanf` with `%lf` also delivers not-a-number (for the text `nan`), which no
exact number stands for.  The part of `place_bid` that compares and stores
amounts is repeated here on amounts that are a not-a-number or a whole number.
Whole numbers up to 2^53 in size are values of `double`, and so are their sums
while they stay in that range; every value in the traces below does. -/

inductive Double where
  | nan
  | num (x : Int)
deriving DecidableEq

/-- `a + b` on `double`: not-a-number as soon as one side is. -/
def Double.add : Double → Double → Double
  | .num x, .num y => .num (x + y)
  | _, _ => .nan

/-- `a < b` on `double`: false as soon as one side is not-a-number. -/
def Double.lt : Double → Double → Bool
  | .num x, .num y => decide (x < y)
  | _, _ => false

/-- `a <= b` on `double`: false as soon as one side is not-a-number. -/
def Double.le : Double → Double → Bool
  | .num x, .num y => decide (x ≤ y)
  | _, _ => false

namespace Dbl

structure User where
  user_id : Int
  username : String
  password : String
  email : String
  role : String
  balance : Double
  status : String
  created_at : Int
deriving DecidableEq

structure Auction where
  auction_id : Int
  seller_id : Int
  room_id : Int
  title : String
  description : String
  start_price : Double
  current_price : Double
  buy_now_price : Double
  min_bid_increment : Double
  start_time : Int
  end_time : Int
  status : String
  winner_id : Int
  total_bids : Int
deriving DecidableEq

structure Bid where
  bid_id : Int
  auction_id : Int
  user_id : Int
  bid_amount : Double
  bid_time : Int
deriving DecidableEq

structure Store where
  users : List User
  rooms : List AuctionRoom
  auctions : List Auction
  bids : List Bid
deriving DecidableEq

structure State where
  data : Store
  clients : List ClientSession
  client_count : Int
  disk : Store
deriving DecidableEq

def save_all_data (s : State) : State := { s with disk := s.data }

def find_user_by_id (users : List User) (user_id : Int) : Option User :=
  users.find? (fun u => decide (u.user_id = user_id))

def find_auction_by_id (auctions : List Auction) (auction_id : Int) : Option Auction :=
  auctions.find? (fun a => decide (a.auction_id = auction_id))

def place_bid (s : State) (now : Int) (auction_id user_id : Int) (bid_amount : Double) :
    Int × State :=
  match find_auction_by_id s.data.auctions auction_id with
  | none => (-1, s)
  | some auction =>
    if auction.status ≠ "active" then (-2, s)
    else if user_room_id s.clients user_id ≠ auction.room_id then (-8, s)
    else if auction.end_time < now then (-3, s)
    else if Double.lt bid_amount (Double.add auction.current_price auction.min_bid_increment)
    then (-4, s)
    else if auction.seller_id = user_id then (-5, s)
    else
      match find_user_by_id s.data.users user_id with
      | none => (-6, s)
      | some user =>
        if Double.lt user.balance bid_amount then (-6, s)
        else if MAX_BIDS ≤ s.data.bids.length then (-7, s)
        else
          let bid : Bid :=
            { bid_id := (s.data.bids.length : Int) + 1,
              auction_id := auction_id,
              user_id := user_id,
              bid_amount := bid_amount,
              bid_time := now }
          let time_remaining := auction.end_time - now
          let auctions1 :=
            modifyFirst (fun a => decide (a.auction_id = auction_id))
              (fun a => { a with
                current_price := bid_amount,
                total_bids := a.total_bids + 1,
                winner_id := user_id,
                end_time :=
                  if time_remaining < 30 ∧ 0 < time_remaining then now + 30 else a.end_time })
              s.data.auctions
          (bid.bid_id,
            save_all_data { s with data := { s.data with
              bids := s.data.bids ++ [bid], auctions := auctions1 } })

/-- The same record with its exact balance read as a `double`. -/
def ofUser (u : AuctionServer.User) : User :=
  { user_id := u.user_id, username := u.username, password := u.password, email := u.email,
    role := u.role, balance := .num u.balance, status := u.status,
    created_at := u.created_at }

def ofAuction (a : AuctionServer.Auction) : Auction :=
  { auction_id := a.auction_id, seller_id := a.seller_id, room_id := a.room_id,
    title := a.title, description := a.description, start_price := .num a.start_price,
    current_price := .num a.current_price, buy_now_price := .num a.buy_now_price,
    min_bid_increment := .num a.min_bid_increment, start_time := a.start_time,
    end_time := a.end_time, status := a.status, winner_id := a.winner_id,
    total_bids := a.total_bids }

def ofBid (b : AuctionServer.Bid) : Bid :=
  { bid_id := b.bid_id, auction_id := b.auction_id, user_id := b.user_id,
    bid_amount := .num b.bid_amount, bid_time := b.bid_time }

def ofStore (d : AuctionServer.Store) : Store :=
  { users := d.users.map ofUser, rooms := d.rooms, auctions := d.auctions.map ofAuction,
    bids := d.bids.map ofBid }

/-- A state of the server with every exact amount read as a `double`. -/
def ofState (s : AuctionServer.State) : State :=
  { data := ofStore s.data, clients := s.clients, client_count := s.client_count,
    disk := ofStore s.disk }

end Dbl

/-- The state `trioState` with its amounts read as `double`, after user 2 has bid
110 at time 1 and then a not-a-number at time 2 on auction 1. -/
def nanState : Dbl.State :=
  (Dbl.place_bid (Dbl.place_bid (Dbl.ofState trioState) 1 1 2 (.num 110)).2 2 1 2 .nan).2

/-! ## Writing through a search result -/
section ModifyFirst
variable {α : Type} (p : α → Bool) (f : α → α)

@[simp] theorem modifyFirst_length (l : List α) : (modifyFirst p f l).length = l.length := by
  induction l with
  | nil => rfl
  | cons x xs ih => by_cases h : p x <;> simp [modifyFirst, h, ih]

theorem modifyFirst_of_find?_none {l : List α} (h : l.find? p = none) :
    modifyFirst p f l = l := by
  induction l with
  | nil => rfl
  | cons x xs ih =>
    by_cases hx : p x
    · simp [List.find?, hx] at h
    · simp [List.find?, hx] at h
      simp only [modifyFirst, hx]
      simp
      exact ih (by simpa using h)

theorem find?_modifyFirst_self (hpf : ∀ x, p x = true → p (f x) = true) (l : List α) :
    (modifyFirst p f l).find? p = (l.find? p).map f := by
  induction l with
  | nil => rfl
  | cons x xs ih =>
    by_cases hx : p x
    · simp [modifyFirst, hx, List.find?, hpf x hx]
    · simp [modifyFirst, hx, List.find?, ih]

theorem find?_modifyFirst_disjoint (q : α → Bool) (h1 : ∀ x, p x = true → q x = false)
    (h2 : ∀ x, p x = true → q (f x) = false) (l : List α) :
    (modifyFirst p f l).find? q = l.find? q := by
  induction l with
  | nil => rfl
  | cons x xs ih =>
    by_cases hx : p x
    · simp [modifyFirst, hx, List.find?, h1 x hx, h2 x hx]
    · by_cases hq : q x <;> simp [modifyFirst, hx, List.find?, hq, ih]

theorem getElem?_modifyFirst_of_not {l : List α} {i : Nat} {x : α} (h : l[i]? = some x)
    (hx : p x = false) : (modifyFirst p f l)[i]? = some x := by
  induction l generalizing i with
  | nil => simp at h
  | cons y ys ih =>
    by_cases hy : p y
    · cases i with
      | zero => simp at h; subst h; simp [hx] at hy
      | succ j => simpa [modifyFirst, hy] using h
    · cases i with
      | zero => simpa [modifyFirst, hy] using h
      | succ j =>
        simp [modifyFirst, hy]
        exact ih (by simpa using h)

theorem getElem?_modifyFirst (l : List α) (i : Nat) (x : α) (h : l[i]? = some x) :
    (modifyFirst p f l)[i]? = some x ∨
      (p x = true ∧ l.find? p = some x ∧ (modifyFirst p f l)[i]? = some (f x)) := by
  induction l generalizing i with
  | nil => simp at h
  | cons y ys ih =>
    by_cases hy : p y
    · cases i with
      | zero =>
        simp at h; subst h
        right; simp [modifyFirst, hy, List.find?]
      | succ j => left; simpa [modifyFirst, hy] using h
    · cases i with
      | zero => left; simpa [modifyFirst, hy] using h
      | succ j =>
        have := ih j (by simpa using h)
        simpa [modifyFirst, hy, List.find?] using this

theorem sum_map_modifyFirst (g : α → Int) {l : List α} {x : α} (h : l.find? p = some x) :
    ((modifyFirst p f l).map g).sum = (l.map g).sum - g x + g (f x) := by
  induction l with
  | nil => simp at h
  | cons y ys ih =>
    by_cases hy : p y
    · simp [List.find?, hy] at h
      subst h
      simp [modifyFirst, hy]
      omega
    · simp [List.find?, hy] at h
      have := ih (by simpa using h)
      simp [modifyFirst, hy, this]
      omega

/-- When at most one element satisfies `p`, writing through the search result is
a map over the list. -/
theorem modifyFirst_eq_map {l : List α}
    (huniq : l.Pairwise (fun x y => ¬ (p x = true ∧ p y = true))) :
    modifyFirst p f l = l.map (fun x => if p x then f x else x) := by
  induction l with
  | nil => rfl
  | cons y ys ih =>
    rw [List.pairwise_cons] at huniq
    by_cases hy : p y
    · simp only [modifyFirst, hy, if_true, List.map_cons]
      congr 1
      symm
      calc ys.map (fun x => if p x = true then f x else x) = ys.map id := by
            apply List.map_congr_left
            intro z hz
            have := huniq.1 z hz
            simp [hy] at this
            simp [this]
        _ = ys := List.map_id ys
    · simp only [modifyFirst, hy, List.map_cons]
      simp [ih huniq.2]

end ModifyFirst

/-! ## `place_bid` and `buy_now`: rejected without a write, or accepted -/

theorem place_bid_of_ok {s : State} {now auction_id user_id bid_amount : Int} {a : Auction}
    {u : User} (h : BidOk s now auction_id user_id bid_amount a u) :
    place_bid s now auction_id user_id bid_amount =
      ((s.data.bids.length : Int) + 1, bidAccepted s now auction_id user_id bid_amount a) := by
  obtain ⟨ha, h1, h2, h3, h4, hu, h5, h6, h7⟩ := h
  have h4' : ¬ a.seller_id = user_id := fun h => h4 h.symm
  have h7' : ¬ MAX_BIDS ≤ s.data.bids.length := by simp [MAX_BIDS]; omega
  unfold place_bid
  simp only [ha, hu]
  rw [if_neg (by simp [h1]), if_neg (by simp [h6]), if_neg (by omega), if_neg (by omega),
    if_neg h4', if_neg (by omega), if_neg h7']
  rfl

theorem place_bid_cases (s : State) (now auction_id user_id bid_amount : Int) :
    ((place_bid s now auction_id user_id bid_amount).1 < 0 ∧
        (place_bid s now auction_id user_id bid_amount).2 = s) ∨
      ∃ a u, BidOk s now auction_id user_id bid_amount a u := by
  cases ha : find_auction_by_id s.data.auctions auction_id with
  | none => left; simp [place_bid, ha]
  | some a =>
    by_cases h1 : a.status = "active"
    swap
    · left; simp [place_bid, ha, h1]
    by_cases h2 : user_room_id s.clients user_id = a.room_id
    swap
    · left; simp [place_bid, ha, h1, h2]
    by_cases h3 : a.end_time < now
    · left; simp [place_bid, ha, h1, h2, h3]
    by_cases h4 : bid_amount < a.current_price + a.min_bid_increment
    · left; simp [place_bid, ha, h1, h2, h3, h4]
    by_cases h5 : a.seller_id = user_id
    · left; simp [place_bid, ha, h1, h2, h3, h4, h5]
    cases hu : find_user_by_id s.data.users user_id with
    | none => left; simp [place_bid, ha, h1, h2, h3, h4, h5, hu]
    | some u =>
      by_cases h6 : u.balance < bid_amount
      · left; simp [place_bid, ha, h1, h2, h3, h4, h5, hu, h6]
      by_cases h7 : MAX_BIDS ≤ s.data.bids.length
      · left; simp [place_bid, ha, h1, h2, h3, h4, h5, hu, h6, h7]
      right
      refine ⟨a, u, ha, h1, by omega, by omega, fun h => h5 h.symm, hu, by omega, h2, ?_⟩
      simp [MAX_BIDS] at h7; omega

/-- An accepted call passed every check, on the auction record its search returns. -/
theorem place_bid_accepted {s : State} {now auction_id user_id bid_amount : Int} {a : Auction}
    (ha : find_auction_by_id s.data.auctions auction_id = some a)
    (hacc : 0 < (place_bid s now auction_id user_id bid_amount).1) :
    ∃ u, BidOk s now auction_id user_id bid_amount a u := by
  rcases place_bid_cases s now auction_id user_id bid_amount with ⟨hneg, _⟩ | ⟨a', u, hok⟩
  · omega
  · have : a' = a := by
      have h := hok.1
      rw [ha] at h
      exact (Option.some.inj h).symm
    subst this
    exact ⟨u, hok⟩

theorem find_auction_bidAccepted (s : State) (now auction_id user_id bid_amount : Int)
    (auction : Auction) :
    find_auction_by_id (bidAccepted s now auction_id user_id bid_amount auction).data.auctions
        auction_id =
      (find_auction_by_id s.data.auctions auction_id).map (fun a => { a with
          current_price := bid_amount,
          total_bids := a.total_bids + 1,
          winner_id := user_id,
          end_time :=
            if auction.end_time - now < 30 ∧ 0 < auction.end_time - now then now + 30
            else a.end_time }) := by
  unfold find_auction_by_id bidAccepted save_all_data
  exact find?_modifyFirst_self _ _ (fun x hx => by simpa using hx) _

/-- End time of the auction after an accepted bid. -/
theorem place_bid_end_time {s : State} {now auction_id user_id bid_amount : Int} {a : Auction}
    (ha : find_auction_by_id s.data.auctions auction_id = some a)
    (hacc : 0 < (place_bid s now auction_id user_id bid_amount).1) :
    ∃ a', find_auction_by_id
          (place_bid s now auction_id user_id bid_amount).2.data.auctions auction_id = some a' ∧
      a'.end_time =
        if 0 < a.end_time - now ∧ a.end_time - now < 30 then now + 30 else a.end_time := by
  obtain ⟨u, hok⟩ := place_bid_accepted ha hacc
  rw [place_bid_of_ok hok]
  rw [find_auction_bidAccepted, ha]
  refine ⟨_, rfl, ?_⟩
  simp only [and_comm]

theorem buy_now_of_ok {s : State} {auction_id user_id : Int} {a : Auction}
    {c : ClientSession} {u : User} (h : BuyOk s auction_id user_id a c u) :
    buy_now s auction_id user_id = (0, buyAccepted s auction_id user_id a) := by
  obtain ⟨ha, h1, hc, h2, h3, hu, h4⟩ := h
  unfold buy_now
  simp only [ha, hc, hu]
  rw [if_neg (by simp [h1]), if_neg (by simp [h2]), if_neg (by omega), if_neg (by omega)]
  rfl

theorem buy_now_cases (s : State) (auction_id user_id : Int) :
    ((buy_now s auction_id user_id).1 < 0 ∧ (buy_now s auction_id user_id).2 = s) ∨
      ∃ a c u, BuyOk s auction_id user_id a c u := by
  cases ha : find_auction_by_id s.data.auctions auction_id with
  | none => left; simp [buy_now, ha]
  | some a =>
    by_cases h1 : a.status = "active"
    swap
    · left; simp [buy_now, ha, h1]
    cases hc : find_client_by_user_id s.clients user_id with
    | none => left; simp [buy_now, ha, h1, hc]
    | some c =>
      by_cases h2 : c.current_room_id = a.room_id
      swap
      · left; simp [buy_now, ha, h1, hc, h2]
      by_cases h3 : a.buy_now_price ≤ 0
      · left; simp [buy_now, ha, h1, hc, h2, h3]
      cases hu : find_user_by_id s.data.users user_id with
      | none => left; simp [buy_now, ha, h1, hc, h2, h3, hu]
      | some u =>
        by_cases h4 : u.balance < a.buy_now_price
        · left; simp [buy_now, ha, h1, hc, h2, h3, hu, h4]
        right
        exact ⟨a, c, u, ha, h1, hc, h2, by omega, hu, by omega⟩

/-- A successful call passed every check, on the auction record its search returns. -/
theorem buy_now_accepted {s : State} {auction_id user_id : Int} {a : Auction}
    (ha : find_auction_by_id s.data.auctions auction_id = some a)
    (hacc : (buy_now s auction_id user_id).1 = 0) :
    ∃ c u, BuyOk s auction_id user_id a c u := by
  rcases buy_now_cases s auction_id user_id with ⟨hneg, _⟩ | ⟨a', c, u, hok⟩
  · omega
  · have : a' = a := by
      have h := hok.1
      rw [ha] at h
      exact (Option.some.inj h).symm
    subst this
    exact ⟨c, u, hok⟩

/-- Exact conditions of success of `buy_now`: the seller is not excluded. -/
theorem buy_now_succeeds_iff (s : State) (auction_id user_id : Int) :
    (buy_now s auction_id user_id).1 = 0 ↔
      ∃ a c u, find_auction_by_id s.data.auctions auction_id = some a ∧
        a.status = "active" ∧
        find_client_by_user_id s.clients user_id = some c ∧
        c.current_room_id = a.room_id ∧
        0 < a.buy_now_price ∧
        find_user_by_id s.data.users user_id = some u ∧ a.buy_now_price ≤ u.balance := by
  constructor
  · intro h
    rcases buy_now_cases s auction_id user_id with ⟨hneg, _⟩ | h'
    · omega
    · exact h'
  · rintro ⟨a, c, u, hok⟩
    rw [buy_now_of_ok hok]

theorem find_auction_buyAccepted (s : State) (auction_id user_id : Int) (auction : Auction) :
    find_auction_by_id (buyAccepted s auction_id user_id auction).data.auctions auction_id =
      (find_auction_by_id s.data.auctions auction_id).map (fun a => { a with
          winner_id := user_id,
          current_price := a.buy_now_price,
          status := "ended" }) := by
  unfold find_auction_by_id buyAccepted save_all_data
  exact find?_modifyFirst_self _ _ (fun x hx => by simpa using hx) _

/-- With buyer and seller distinct and the seller stored, `buy_now` writes the
debit to the buyer's record and the credit to the seller's record. -/
theorem buyUsers_of_seller {users : List User} {user_id : Int} {a : Auction} {seller : User}
    (hne : user_id ≠ a.seller_id)
    (hsel : find_user_by_id users a.seller_id = some seller) :
    buyUsers users user_id a =
      modifyFirst (fun u => decide (u.user_id = a.seller_id))
        (fun u => { u with balance := u.balance + a.buy_now_price })
        (modifyFirst (fun u => decide (u.user_id = user_id))
          (fun u => { u with balance := u.balance - a.buy_now_price }) users) := by
  have h : find_user_by_id (modifyFirst (fun u => decide (u.user_id = user_id))
      (fun u => { u with balance := u.balance - a.buy_now_price }) users) a.seller_id =
      some seller := by
    rw [← hsel]
    unfold find_user_by_id
    apply find?_modifyFirst_disjoint
    · intro x hx
      simp at hx ⊢
      omega
    · intro x hx
      simp at hx ⊢
      omega
  unfold buyUsers
  simp only [h]

/-! ## What each request does to the auction and bid tables -/

theorem register_user_tables (s : State) (now : Int) (u p e : String) :
    (register_user s now u p e).2.data.auctions = s.data.auctions ∧
      (register_user s now u p e).2.data.bids = s.data.bids := by
  unfold register_user save_all_data
  split
  · exact ⟨rfl, rfl⟩
  · split <;> exact ⟨rfl, rfl⟩

theorem force_logout_user_data (s : State) (u : Int) : (force_logout_user s u).data = s.data :=
  rfl

theorem add_client_data (s : State) (now sock u : Int) (n : String) :
    (add_client s now sock u n).data = s.data := by
  unfold add_client
  split <;> rfl

theorem handle_login_data (s : State) (now sock : Int) (u p : String) :
    (handle_login s now sock u p).data = s.data := by
  unfold handle_login
  simp only
  split
  · rw [add_client_data]
    split
    · exact force_logout_user_data _ _
    · rfl
  · rfl

theorem leave_room_unsafe_tables (s : State) (u : Int) :
    ( _leave_room_unsafe s u).2.data.auctions = s.data.auctions ∧
      ( _leave_room_unsafe s u).2.data.bids = s.data.bids ∧
      ( _leave_room_unsafe s u).2.data.users = s.data.users := by
  unfold _leave_room_unsafe
  split
  · exact ⟨rfl, rfl, rfl⟩
  · split <;> exact ⟨rfl, rfl, rfl⟩

theorem leave_room_tables (s : State) (u : Int) :
    (leave_room s u).2.data.auctions = s.data.auctions ∧
      (leave_room s u).2.data.bids = s.data.bids := by
  have h := leave_room_unsafe_tables s u
  unfold leave_room save_all_data
  simp only
  split
  · exact ⟨h.1, h.2.1⟩
  · exact ⟨h.1, h.2.1⟩

theorem remove_client_tables (s : State) (sock : Int) :
    (remove_client s sock).data.auctions = s.data.auctions ∧
      (remove_client s sock).data.bids = s.data.bids := by
  unfold remove_client
  split
  · exact ⟨rfl, rfl⟩
  · simp only
    split
    · rename_i c _ _
      have h := leave_room_unsafe_tables
        { s with
          clients := modifyFirst (fun c => c.is_active && decide (c.socket = sock))
            (fun c => { c with is_active := false }) s.clients,
          client_count := s.client_count - 1 } c.user_id
      exact ⟨h.1, h.2.1⟩
    · exact ⟨rfl, rfl⟩

theorem create_room_tables (s : State) (now c : Int) (n d : String) (m dur : Int) :
    (create_room s now c n d m dur).2.data.auctions = s.data.auctions ∧
      (create_room s now c n d m dur).2.data.bids = s.data.bids := by
  unfold create_room save_all_data
  split
  · exact ⟨rfl, rfl⟩
  · split <;> exact ⟨rfl, rfl⟩

theorem join_room_tables (s : State) (u r : Int) :
    (join_room s u r).2.data.auctions = s.data.auctions ∧
      (join_room s u r).2.data.bids = s.data.bids := by
  unfold join_room save_all_data
  split
  · exact ⟨rfl, rfl⟩
  · split
    · exact ⟨rfl, rfl⟩
    · split
      · exact ⟨rfl, rfl⟩
      · simp only
        split <;> exact ⟨rfl, rfl⟩

theorem handle_create_room_tables (s : State) (now c : Int) (n d : String) (m dur : Int) :
    (handle_create_room s now c n d m dur).data.auctions = s.data.auctions ∧
      (handle_create_room s now c n d m dur).data.bids = s.data.bids := by
  have h1 := create_room_tables s now c n d m dur
  unfold handle_create_room
  simp only
  split
  · have h2 := join_room_tables (create_room s now c n d m dur).2 c
      (create_room s now c n d m dur).1
    exact ⟨h2.1.trans h1.1, h2.2.trans h1.2⟩
  · exact h1

/-- A call of `create_auction` either writes nothing or appends one record with
the next id, the start price as current price, status "active" and no bids. -/
theorem create_auction_tables (s : State) (now sid rid : Int) (t d : String)
    (sp bp mi dur : Int) :
    (create_auction s now sid rid t d sp bp mi dur).2.data.bids = s.data.bids ∧
      ((create_auction s now sid rid t d sp bp mi dur).2.data.auctions = s.data.auctions ∨
        ∃ a : Auction, (create_auction s now sid rid t d sp bp mi dur).2.data.auctions =
            s.data.auctions ++ [a] ∧
          a.auction_id = (s.data.auctions.length : Int) + 1 ∧
          a.current_price = a.start_price ∧ a.status = "active" ∧ a.total_bids = 0 ∧
          a.winner_id = 0 ∧ a.min_bid_increment = mi) := by
  unfold create_auction save_all_data
  split
  · exact ⟨rfl, Or.inl rfl⟩
  · split
    · exact ⟨rfl, Or.inl rfl⟩
    · simp only
      split
      · exact ⟨rfl, Or.inl rfl⟩
      · split
        · exact ⟨rfl, Or.inl rfl⟩
        · exact ⟨rfl, Or.inr ⟨_, rfl, rfl, rfl, rfl, rfl, rfl, rfl⟩⟩

/-- The timer's rewrite of one auction record. -/
theorem auction_timer_tables (s : State) (now : Int) :
    (auction_timer s now).data.bids = s.data.bids ∧
      (auction_timer s now).data.auctions = s.data.auctions.map (fun a =>
        if a.status = "active" then
          if a.end_time - now ≤ 0 then { a with status := "ended" } else a
        else a) :=
  ⟨rfl, rfl⟩

/-! ## The table invariant is kept by every request -/

theorem ended_ne_active : ("ended" : String) ≠ "active" := by decide

theorem active_ne_ended : ("active" : String) ≠ "ended" := by decide

theorem bidsOf_append_singleton (bids : List Bid) (nb : Bid) (aid : Int) :
    bidsOf (bids ++ [nb]) aid =
      if nb.auction_id = aid then bidsOf bids aid ++ [nb] else bidsOf bids aid := by
  unfold bidsOf
  by_cases h : nb.auction_id = aid <;> simp [List.filter_append, List.filter, h]

theorem AuctionInv.of_bidsOf_eq {bids bids1 : List Bid} {a : Auction}
    (h : bidsOf bids1 a.auction_id = bidsOf bids a.auction_id) (hinv : AuctionInv bids a) :
    AuctionInv bids1 a := by
  have hl : latestPrice bids1 a = latestPrice bids a := by
    unfold latestPrice
    rw [h]
  exact
    { total := by rw [h]; exact hinv.total
      price := by rw [hl]; exact hinv.price
      winner := by rw [h]; exact hinv.winner
      floor := hinv.floor
      top := by rw [h]; exact hinv.top
      sorted := by rw [h]; exact hinv.sorted }

theorem StoreInv.unique {auctions : List Auction} {bids : List Bid}
    (h : StoreInv auctions bids) {x y : Auction} (hx : x ∈ auctions) (hy : y ∈ auctions)
    (hxy : x.auction_id = y.auction_id) : x = y := by
  obtain ⟨i, hi⟩ := List.mem_iff_getElem?.1 hx
  obtain ⟨j, hj⟩ := List.mem_iff_getElem?.1 hy
  have h1 := h.ids i x hi
  have h2 := h.ids j y hj
  have hij : i = j := by omega
  subst hij
  rw [hi] at hj
  exact Option.some.inj hj

theorem StoreInv.pairwise {auctions : List Auction} {bids : List Bid}
    (h : StoreInv auctions bids) (aid : Int) :
    auctions.Pairwise (fun x y =>
      ¬ (decide (x.auction_id = aid) = true ∧ decide (y.auction_id = aid) = true)) := by
  rw [List.pairwise_iff_getElem]
  intro i j hi hj hij hboth
  have e1 := h.ids i _ (List.getElem?_eq_getElem hi)
  have e2 := h.ids j _ (List.getElem?_eq_getElem hj)
  simp only [decide_eq_true_eq] at hboth
  omega

theorem StoreInv.id_le {auctions : List Auction} {bids : List Bid}
    (h : StoreInv auctions bids) {a : Auction} (ha : a ∈ auctions) :
    1 ≤ a.auction_id ∧ a.auction_id ≤ (auctions.length : Int) := by
  obtain ⟨i, hi⟩ := List.mem_iff_getElem?.1 ha
  have h1 := h.ids i a hi
  have hlt : i < auctions.length := by
    by_contra hge
    rw [List.getElem?_eq_none (by omega)] at hi
    exact Option.noConfusion hi
  omega

theorem StoreInv.init : StoreInv [] [] :=
  { ids := fun i a h => by simp at h
    bidIds := fun b hb => by simp at hb
    each := fun a ha => by simp at ha }

theorem StoreInv.create {auctions : List Auction} {bids : List Bid}
    (h : StoreInv auctions bids) {a : Auction}
    (hid : a.auction_id = (auctions.length : Int) + 1)
    (hp : a.current_price = a.start_price) (ht : a.total_bids = 0) :
    StoreInv (auctions ++ [a]) bids := by
  have hnil : bidsOf bids a.auction_id = [] := by
    unfold bidsOf
    rw [List.filter_eq_nil_iff]
    intro b hb
    have := h.bidIds b hb
    simp only [decide_eq_true_eq]
    omega
  refine { ids := ?_, bidIds := ?_, each := ?_ }
  · intro i x hx
    rw [List.getElem?_append] at hx
    split at hx
    · exact h.ids i x hx
    · rename_i hge
      have hi : i - auctions.length = 0 := by
        by_contra hne
        rw [List.getElem?_eq_none (by simp; omega)] at hx
        exact Option.noConfusion hx
      rw [hi] at hx
      simp at hx
      subst hx
      rw [hid]
      omega
  · intro b hb
    have := h.bidIds b hb
    simp only [List.length_append, List.length_singleton]
    push_cast
    omega
  · intro x hx
    rcases List.mem_append.1 hx with hx | hx
    · exact h.each x hx
    · simp at hx
      subst hx
      exact
        { total := by rw [hnil, ht]; rfl
          price := by
            left
            unfold latestPrice
            rw [hnil, hp]
            rfl
          winner := by
            intro _ b hb
            rw [hnil] at hb
            exact Option.noConfusion hb
          floor := fun _ => Or.inl (by omega)
          top := by
            intro _ _ b hb
            rw [hnil] at hb
            simp at hb
          sorted := by
            intro _
            rw [hnil]
            exact List.Pairwise.nil }

theorem StoreInv.timer {auctions : List Auction} {bids : List Bid}
    (h : StoreInv auctions bids) (now : Int) :
    StoreInv (auctions.map (fun a =>
        if a.status = "active" then
          if a.end_time - now ≤ 0 then { a with status := "ended" } else a
        else a)) bids := by
  refine { ids := ?_, bidIds := ?_, each := ?_ }
  · intro i x hx
    rw [List.getElem?_map] at hx
    cases hy : auctions[i]? with
    | none => rw [hy] at hx; exact Option.noConfusion hx
    | some y =>
      rw [hy] at hx
      have := h.ids i y hy
      simp only [Option.map_some', Option.some.injEq] at hx
      subst hx
      split
      · split <;> exact this
      · exact this
  · intro b hb
    simpa using h.bidIds b hb
  · intro x hx
    obtain ⟨y, hy, rfl⟩ := List.mem_map.1 hx
    have hinv := h.each y hy
    split
    · split
      · rename_i hact _
        exact
          { total := hinv.total
            price := by
              rcases hinv.price with hl | hr
              · exact Or.inl hl
              · exact Or.inr ⟨rfl, hr.2⟩
            winner := fun hs => absurd hs ended_ne_active
            floor := fun hm => by
              rcases hinv.floor hm with hl | hr
              · exact Or.inl hl
              · exact Or.inr ⟨rfl, hr.2⟩
            top := fun _ hs => absurd hs ended_ne_active
            sorted := hinv.sorted }
      · exact hinv
    · exact hinv

theorem StoreInv.buy {s : State} (h : StoreInv s.data.auctions s.data.bids)
    (auction_id user_id : Int) (a : Auction) :
    StoreInv (buyAccepted s auction_id user_id a).data.auctions
      (buyAccepted s auction_id user_id a).data.bids := by
  have hb : (buyAccepted s auction_id user_id a).data.bids = s.data.bids := rfl
  have ha : (buyAccepted s auction_id user_id a).data.auctions =
      s.data.auctions.map (fun x =>
        if decide (x.auction_id = auction_id) = true then
          { x with winner_id := user_id, current_price := x.buy_now_price, status := "ended" }
        else x) :=
    modifyFirst_eq_map _ _ (h.pairwise auction_id)
  rw [hb, ha]
  refine { ids := ?_, bidIds := ?_, each := ?_ }
  · intro i x hx
    rw [List.getElem?_map] at hx
    cases hy : s.data.auctions[i]? with
    | none => rw [hy] at hx; exact Option.noConfusion hx
    | some y =>
      rw [hy] at hx
      have := h.ids i y hy
      simp only [Option.map_some', Option.some.injEq] at hx
      subst hx
      split <;> exact this
  · intro b hb
    simpa using h.bidIds b hb
  · intro x hx
    obtain ⟨y, hy, rfl⟩ := List.mem_map.1 hx
    have hinv := h.each y hy
    split
    · exact
        { total := hinv.total
          price := Or.inr ⟨rfl, rfl⟩
          winner := fun hs => absurd hs ended_ne_active
          floor := fun _ => Or.inr ⟨rfl, rfl⟩
          top := fun _ hs => absurd hs ended_ne_active
          sorted := hinv.sorted }
    · exact hinv

theorem StoreInv.bid {s : State} {now auction_id user_id bid_amount : Int} {a : Auction}
    {u : User} (h : StoreInv s.data.auctions s.data.bids)
    (hok : BidOk s now auction_id user_id bid_amount a u) :
    StoreInv (bidAccepted s now auction_id user_id bid_amount a).data.auctions
      (bidAccepted s now auction_id user_id bid_amount a).data.bids := by
  obtain ⟨hfind, hact, _, hfloor, _, _, _, _, _⟩ := hok
  have hmem : a ∈ s.data.auctions := List.mem_of_find?_eq_some hfind
  have haid : a.auction_id = auction_id := by
    have := List.find?_some hfind
    simpa using this
  obtain ⟨nb, hnb1, hnb2, hnb3, hbids⟩ : ∃ nb : Bid, nb.auction_id = auction_id ∧
      nb.user_id = user_id ∧ nb.bid_amount = bid_amount ∧
      (bidAccepted s now auction_id user_id bid_amount a).data.bids = s.data.bids ++ [nb] :=
    ⟨_, rfl, rfl, rfl, rfl⟩
  have ha : (bidAccepted s now auction_id user_id bid_amount a).data.auctions =
      s.data.auctions.map (fun x =>
        if decide (x.auction_id = auction_id) = true then
          { x with
            current_price := bid_amount,
            total_bids := x.total_bids + 1,
            winner_id := user_id,
            end_time :=
              if a.end_time - now < 30 ∧ 0 < a.end_time - now then now + 30 else x.end_time }
        else x) :=
    modifyFirst_eq_map _ _ (h.pairwise auction_id)
  rw [hbids, ha]
  refine { ids := ?_, bidIds := ?_, each := ?_ }
  · intro i x hx
    rw [List.getElem?_map] at hx
    cases hy : s.data.auctions[i]? with
    | none => rw [hy] at hx; exact Option.noConfusion hx
    | some y =>
      rw [hy] at hx
      have := h.ids i y hy
      simp only [Option.map_some', Option.some.injEq] at hx
      subst hx
      split <;> exact this
  · intro b hb
    rw [List.length_map]
    rcases List.mem_append.1 hb with hb | hb
    · exact h.bidIds b hb
    · simp at hb
      rw [hb]
      have := (h.id_le hmem).2
      omega
  · intro x hx
    obtain ⟨y, hy, rfl⟩ := List.mem_map.1 hx
    have hinv := h.each y hy
    by_cases hyid : y.auction_id = auction_id
    · have hya : y = a := h.unique hy hmem (by omega)
      subst hya
      simp only [hyid, decide_True, if_true]
      have hbs : bidsOf (s.data.bids ++ [nb]) auction_id =
          bidsOf s.data.bids auction_id ++ [nb] := by
        rw [bidsOf_append_singleton]
        simp [hnb1]
      have hne : y.status ≠ "ended" := by rw [hact]; exact active_ne_ended
      exact
        { total := by
            show y.total_bids + 1 = _
            rw [hbs, List.length_append, hinv.total, hyid]
            simp
          price := by
            left
            show bid_amount = _
            unfold latestPrice
            show bid_amount = match (bidsOf _ auction_id).getLast? with
              | some b => b.bid_amount
              | none => y.start_price
            rw [hbs, List.getLast?_concat]
            exact hnb3.symm
          winner := by
            intro _ b hb
            change (bidsOf _ auction_id).getLast? = some b at hb
            rw [hbs, List.getLast?_concat] at hb
            have := Option.some.inj hb
            rw [← this]
            exact hnb2.symm
          floor := by
            intro hm
            left
            show y.start_price ≤ bid_amount
            rcases hinv.floor hm with hl | hr
            · have : 0 < y.min_bid_increment := hm
              omega
            · exact absurd hr.1 hne
          top := by
            intro hm _ b hb
            change b ∈ bidsOf _ auction_id at hb
            show b.bid_amount ≤ bid_amount
            rw [hbs] at hb
            have hm1 : 0 < y.min_bid_increment := hm
            rcases List.mem_append.1 hb with hb | hb
            · have := hinv.top hm1 hact b (by rw [hyid]; exact hb)
              omega
            · simp at hb
              rw [hb]
              exact le_of_eq hnb3
          sorted := by
            intro hm
            change (bidsOf _ auction_id).Pairwise _
            have hm1 : 0 < y.min_bid_increment := hm
            rw [hbs, List.pairwise_append]
            refine ⟨by rw [← hyid]; exact hinv.sorted hm1, List.pairwise_singleton _ _, ?_⟩
            intro b hb nb1 hnb
            simp at hnb
            rw [hnb]
            have := hinv.top hm1 hact b (by rw [hyid]; exact hb)
            show b.bid_amount < nb.bid_amount
            omega }
    · simp only [hyid, decide_False]
      apply AuctionInv.of_bidsOf_eq _ hinv
      rw [bidsOf_append_singleton]
      have : ¬ nb.auction_id = y.auction_id := fun e => hyid (by omega)
      simp [this]

theorem step_storeInv (now : Int) (op : Op) (s : State)
    (h : StoreInv s.data.auctions s.data.bids) :
    StoreInv (step now op s).data.auctions (step now op s).data.bids := by
  cases op with
  | register u p e =>
    have e := register_user_tables s now u p e
    simp only [step]
    rw [e.1, e.2]
    exact h
  | login sock u p =>
    simp only [step, handle_login_data]
    exact h
  | disconnect sock =>
    have e := remove_client_tables s sock
    simp only [step]
    rw [e.1, e.2]
    exact h
  | create_room c n d m dur =>
    have e := handle_create_room_tables s now c n d m dur
    simp only [step]
    rw [e.1, e.2]
    exact h
  | join_room u r =>
    have e := join_room_tables s u r
    simp only [step]
    rw [e.1, e.2]
    exact h
  | leave_room u =>
    have e := leave_room_tables s u
    simp only [step]
    rw [e.1, e.2]
    exact h
  | create_auction sid rid t d sp bp mi dur =>
    obtain ⟨hb, hcase⟩ := create_auction_tables s now sid rid t d sp bp mi dur
    simp only [step]
    rw [hb]
    rcases hcase with e | ⟨a, e, hid, hp, _, ht, _, _⟩
    · rw [e]
      exact h
    · rw [e]
      exact h.create hid hp ht
  | place_bid aid uid amt =>
    simp only [step]
    rcases place_bid_cases s now aid uid amt with ⟨_, e⟩ | ⟨a, u, hok⟩
    · rw [e]
      exact h
    · rw [place_bid_of_ok hok]
      exact h.bid hok
  | buy_now aid uid =>
    simp only [step]
    rcases buy_now_cases s aid uid with ⟨_, e⟩ | ⟨a, c, u, hok⟩
    · rw [e]
      exact h
    · rw [buy_now_of_ok hok]
      exact h.buy aid uid a
  | timer => exact h.timer now
  | query => exact h

/-- What a request does to the auction record stored at one position: nothing,
or the write of an accepted bid on it, or the write of a successful buy-now on
it, or the timer ending it. -/
theorem step_auction_at (s : State) (now : Int) (op : Op) (i : Nat) (a : Auction)
    (hi : s.data.auctions[i]? = some a) :
    (step now op s).data.auctions[i]? = some a ∨
      (∃ aid uid amt u, op = .place_bid aid uid amt ∧ BidOk s now aid uid amt a u ∧
        (step now op s).data.auctions[i]? = some { a with
          current_price := amt,
          total_bids := a.total_bids + 1,
          winner_id := uid,
          end_time :=
            if a.end_time - now < 30 ∧ 0 < a.end_time - now then now + 30 else a.end_time }) ∨
      (∃ aid uid c u, op = .buy_now aid uid ∧ BuyOk s aid uid a c u ∧
        (step now op s).data.auctions[i]? = some { a with
          winner_id := uid, current_price := a.buy_now_price, status := "ended" }) ∨
      (op = .timer ∧ a.status = "active" ∧ a.end_time - now ≤ 0 ∧
        (step now op s).data.auctions[i]? = some { a with status := "ended" }) := by
  cases op with
  | register u p e =>
    left
    simp only [step]
    rw [(register_user_tables s now u p e).1]
    exact hi
  | login sock u p =>
    left
    simp only [step, handle_login_data]
    exact hi
  | disconnect sock =>
    left
    simp only [step]
    rw [(remove_client_tables s sock).1]
    exact hi
  | create_room c n d m dur =>
    left
    simp only [step]
    rw [(handle_create_room_tables s now c n d m dur).1]
    exact hi
  | join_room u r =>
    left
    simp only [step]
    rw [(join_room_tables s u r).1]
    exact hi
  | leave_room u =>
    left
    simp only [step]
    rw [(leave_room_tables s u).1]
    exact hi
  | create_auction sid rid t d sp bp mi dur =>
    left
    obtain ⟨_, hcase⟩ := create_auction_tables s now sid rid t d sp bp mi dur
    simp only [step]
    rcases hcase with e | ⟨x, e, _⟩
    · rw [e]
      exact hi
    · rw [e]
      have hlt : i < s.data.auctions.length := by
        by_contra hge
        rw [List.getElem?_eq_none (by omega)] at hi
        exact Option.noConfusion hi
      rw [List.getElem?_append_left hlt]
      exact hi
  | place_bid aid uid amt =>
    simp only [step]
    rcases place_bid_cases s now aid uid amt with ⟨_, e⟩ | ⟨a0, u, hok⟩
    · left
      rw [e]
      exact hi
    · rw [place_bid_of_ok hok]
      have hfind := hok.1
      unfold find_auction_by_id at hfind
      rcases getElem?_modifyFirst (fun x : Auction => decide (x.auction_id = aid))
          (fun x => { x with
            current_price := amt,
            total_bids := x.total_bids + 1,
            winner_id := uid,
            end_time :=
              if a0.end_time - now < 30 ∧ 0 < a0.end_time - now then now + 30 else x.end_time })
          s.data.auctions i a hi with h1 | ⟨_, h2, h3⟩
      · left
        exact h1
      · right
        left
        have haa : a0 = a := by
          rw [hfind] at h2
          exact Option.some.inj h2
        subst haa
        exact ⟨aid, uid, amt, u, rfl, hok, h3⟩
  | buy_now aid uid =>
    simp only [step]
    rcases buy_now_cases s aid uid with ⟨_, e⟩ | ⟨a0, c, u, hok⟩
    · left
      rw [e]
      exact hi
    · rw [buy_now_of_ok hok]
      have hfind := hok.1
      unfold find_auction_by_id at hfind
      rcases getElem?_modifyFirst (fun x : Auction => decide (x.auction_id = aid))
          (fun x => { x with
            winner_id := uid, current_price := x.buy_now_price, status := "ended" })
          s.data.auctions i a hi with h1 | ⟨_, h2, h3⟩
      · left
        exact h1
      · right
        right
        left
        have haa : a0 = a := by
          rw [hfind] at h2
          exact Option.some.inj h2
        subst haa
        exact ⟨aid, uid, c, u, rfl, hok, h3⟩
  | timer =>
    have e : (step now Op.timer s).data.auctions[i]? =
        some (if a.status = "active" then
          if a.end_time - now ≤ 0 then { a with status := "ended" } else a
        else a) := by
      show (List.map _ s.data.auctions)[i]? = _
      rw [List.getElem?_map, hi]
      rfl
    by_cases h1 : a.status = "active"
    · by_cases h2 : a.end_time - now ≤ 0
      · right
        right
        right
        rw [e, if_pos h1, if_pos h2]
        exact ⟨rfl, h1, h2, rfl⟩
      · left
        rw [e, if_pos h1, if_neg h2]
    · left
      rw [e, if_neg h1]
  | query =>
    left
    exact hi

/-- A record found beyond the old end of the auction table was appended by
`create_auction`, with the increment of the request. -/
theorem step_auction_new (s : State) (now : Int) (op : Op) (i : Nat) (a : Auction)
    (hi : (step now op s).data.auctions[i]? = some a) (hge : s.data.auctions.length ≤ i) :
    ∃ sid rid t d sp bp mi dur, op = .create_auction sid rid t d sp bp mi dur ∧
      a.min_bid_increment = mi := by
  have hnone : s.data.auctions[i]? = none := List.getElem?_eq_none hge
  have hlen : ∀ l : List Auction, l.length = s.data.auctions.length → l[i]? = some a → False := by
    intro l hl h
    rw [List.getElem?_eq_none (by omega)] at h
    exact Option.noConfusion h
  cases op with
  | register u p e =>
    simp only [step] at hi
    rw [(register_user_tables s now u p e).1, hnone] at hi
    exact Option.noConfusion hi
  | login sock u p =>
    simp only [step, handle_login_data] at hi
    rw [hnone] at hi
    exact Option.noConfusion hi
  | disconnect sock =>
    simp only [step] at hi
    rw [(remove_client_tables s sock).1, hnone] at hi
    exact Option.noConfusion hi
  | create_room c n d m dur =>
    simp only [step] at hi
    rw [(handle_create_room_tables s now c n d m dur).1, hnone] at hi
    exact Option.noConfusion hi
  | join_room u r =>
    simp only [step] at hi
    rw [(join_room_tables s u r).1, hnone] at hi
    exact Option.noConfusion hi
  | leave_room u =>
    simp only [step] at hi
    rw [(leave_room_tables s u).1, hnone] at hi
    exact Option.noConfusion hi
  | create_auction sid rid t d sp bp mi dur =>
    obtain ⟨_, hcase⟩ := create_auction_tables s now sid rid t d sp bp mi dur
    simp only [step] at hi
    rcases hcase with e | ⟨x, e, _, _, _, _, _, hmi⟩
    · rw [e, hnone] at hi
      exact Option.noConfusion hi
    · rw [e, List.getElem?_append_right hge] at hi
      have h0 : i - s.data.auctions.length = 0 := by
        by_contra hne
        rw [List.getElem?_eq_none (by simp; omega)] at hi
        exact Option.noConfusion hi
      rw [h0] at hi
      simp at hi
      subst hi
      exact ⟨sid, rid, t, d, sp, bp, mi, dur, rfl, hmi⟩
  | place_bid aid uid amt =>
    simp only [step] at hi
    rcases place_bid_cases s now aid uid amt with ⟨_, e⟩ | ⟨a0, u, hok⟩
    · rw [e, hnone] at hi
      exact Option.noConfusion hi
    · rw [place_bid_of_ok hok] at hi
      exact (hlen _ (modifyFirst_length _ _ _) hi).elim
  | buy_now aid uid =>
    simp only [step] at hi
    rcases buy_now_cases s aid uid with ⟨_, e⟩ | ⟨a0, c, u, hok⟩
    · rw [e, hnone] at hi
      exact Option.noConfusion hi
    · rw [buy_now_of_ok hok] at hi
      exact (hlen _ (modifyFirst_length _ _ _) hi).elim
  | timer =>
    exact (hlen _ (List.length_map _ _) hi).elim
  | query =>
    simp only [step] at hi
    rw [hnone] at hi
    exact Option.noConfusion hi

/-! ## Reachable states -/

theorem ReachableBy.mono {P Q : Op → Prop} (hPQ : ∀ op, P op → Q op) {s : State}
    (h : ReachableBy P s) : ReachableBy Q s := by
  induction h with
  | init => exact ReachableBy.init
  | step now op s _ hop ih => exact ReachableBy.step now op s ih (hPQ op hop)

theorem ReachableBy.reachable {P : Op → Prop} {s : State} (h : ReachableBy P s) :
    Reachable s :=
  h.mono (fun _ _ => trivial)

theorem ReachableBy.run {P : Op → Prop} (evs : List Event) :
    ∀ {s : State}, ReachableBy P s → (∀ ev ∈ evs, P ev.2) → ReachableBy P (run evs s) := by
  induction evs with
  | nil => intro s h _; exact h
  | cons ev evs ih =>
    intro s h hall
    exact ih (ReachableBy.step ev.1 ev.2 s h (hall ev (List.mem_cons_self _ _)))
      (fun e he => hall e (List.mem_cons_of_mem _ he))

theorem ReachableBy.storeInv {P : Op → Prop} {s : State} (h : ReachableBy P s) :
    StoreInv s.data.auctions s.data.bids := by
  induction h with
  | init => exact StoreInv.init
  | step now op s _ _ ih => exact step_storeInv now op s ih

theorem ReachableBy.increments {s : State} (h : ReachableBy PositiveIncrement s) :
    ∀ a ∈ s.data.auctions, 0 < a.min_bid_increment := by
  induction h with
  | init => intro a ha; simp [initState, emptyStore] at ha
  | step now op s _ hop ih =>
    intro a ha
    obtain ⟨i, hi⟩ := List.mem_iff_getElem?.1 ha
    by_cases hlt : i < s.data.auctions.length
    · have hold : s.data.auctions[i]? = some s.data.auctions[i] := List.getElem?_eq_getElem hlt
      have hpos := ih _ (List.getElem_mem hlt)
      rcases step_auction_at s now op i _ hold with h1 | ⟨_, _, _, _, _, _, h1⟩ |
        ⟨_, _, _, _, _, _, h1⟩ | ⟨_, _, _, h1⟩ <;>
      · rw [hi] at h1
        have := Option.some.inj h1
        rw [this]
        exact hpos
    · obtain ⟨sid, rid, t, d, sp, bp, mi, dur, hopeq, hmi⟩ :=
        step_auction_new s now op i a hi (by omega)
      rw [hopeq] at hop
      rw [hmi]
      exact hop

/-! ## `create_room` and `join_room`: rejected without a write, or done -/

theorem create_room_cases (s : State) (now creator_id : Int) (name desc : String)
    (max_participants duration_minutes : Int) :
    ((create_room s now creator_id name desc max_participants duration_minutes).1 < 0 ∧
        (create_room s now creator_id name desc max_participants duration_minutes).2 = s) ∨
      create_room s now creator_id name desc max_participants duration_minutes =
        ((s.data.rooms.length : Int) + 1,
          save_all_data { s with data := { s.data with rooms := s.data.rooms ++
            [{ room_id := (s.data.rooms.length : Int) + 1, room_name := strncpy 99 name,
               description := strncpy 199 desc, max_participants := max_participants,
               current_participants := 0, status := "waiting", start_time := now,
               end_time := now + wrap32 (duration_minutes * 60), created_by := creator_id,
               total_auctions := 0 }] } }) := by
  unfold create_room
  split
  · left; exact ⟨by simp, rfl⟩
  · split
    · left; exact ⟨by simp, rfl⟩
    · right; rfl

theorem join_room_of_ok {s : State} {user_id room_id : Int} {room : AuctionRoom}
    {c : ClientSession} (hr : find_room_by_id s.data.rooms room_id = some room)
    (hne : room.status ≠ "ended") (hcap : room.current_participants < room.max_participants)
    (hc : find_client_by_user_id s.clients user_id = some c)
    (hfree : ¬ (0 < c.current_room_id ∧ c.current_room_id ≠ room_id)) :
    join_room s user_id room_id =
      (0, save_all_data
        { s with
          data := { s.data with
            rooms := modifyFirst (fun r => decide (r.room_id = room_id))
              (fun r => { r with
                current_participants := r.current_participants + 1,
                status := if r.status = "waiting" then "active" else r.status })
              s.data.rooms },
          clients := modifyFirst (fun c => c.is_active && decide (c.user_id = user_id))
            (fun c => { c with current_room_id := room_id }) s.clients }) := by
  have hcap1 : ¬ room.max_participants ≤ room.current_participants := by omega
  have hal : (decide (0 < c.current_room_id) && decide (c.current_room_id ≠ room_id)) = false := by
    rw [Bool.and_eq_false_iff]
    by_cases h1 : 0 < c.current_room_id
    · right
      have : c.current_room_id = room_id := by
        by_contra h2
        exact hfree ⟨h1, h2⟩
      simp [this]
    · left
      simp [h1]
  unfold join_room
  simp only [hr, hc]
  rw [if_neg hne, if_neg hcap1, hal]
  rfl

/-- State of the found room and of the caller's session after a `join_room` that
went through. -/
theorem join_room_done {s : State} {user_id room_id : Int} {room : AuctionRoom}
    {c : ClientSession} (hr : find_room_by_id s.data.rooms room_id = some room)
    (hne : room.status ≠ "ended") (hcap : room.current_participants < room.max_participants)
    (hc : find_client_by_user_id s.clients user_id = some c)
    (hfree : ¬ (0 < c.current_room_id ∧ c.current_room_id ≠ room_id)) :
    (join_room s user_id room_id).1 = 0 ∧
      find_room_by_id (join_room s user_id room_id).2.data.rooms room_id =
        some { room with
          current_participants := room.current_participants + 1,
          status := if room.status = "waiting" then "active" else room.status } ∧
      find_client_by_user_id (join_room s user_id room_id).2.clients user_id =
        some { c with current_room_id := room_id } := by
  rw [join_room_of_ok hr hne hcap hc hfree]
  refine ⟨rfl, ?_, ?_⟩
  · show find_room_by_id (modifyFirst _ _ s.data.rooms) room_id = _
    unfold find_room_by_id at hr ⊢
    rw [find?_modifyFirst_self _ _ (fun x hx => by simpa using hx), hr]
    rfl
  · show find_client_by_user_id (modifyFirst _ _ s.clients) user_id = _
    unfold find_client_by_user_id at hc ⊢
    rw [find?_modifyFirst_self _ _ (fun x hx => by simpa using hx), hc]
    rfl

/-! ## The session table keeps one live session per user -/

section ModifyFirstPairwise
variable {α : Type} (p : α → Bool) (f : α → α)

theorem mem_modifyFirst {l : List α} {y : α} (h : y ∈ modifyFirst p f l) :
    y ∈ l ∨ ∃ x ∈ l, p x = true ∧ y = f x := by
  induction l with
  | nil => simp [modifyFirst] at h
  | cons x xs ih =>
    by_cases hx : p x
    · have e : modifyFirst p f (x :: xs) = f x :: xs := by
        simp [modifyFirst, hx]
      rw [e, List.mem_cons] at h
      rcases h with h | h
      · exact Or.inr ⟨x, List.mem_cons_self _ _, hx, h⟩
      · exact Or.inl (List.mem_cons_of_mem _ h)
    · have e : modifyFirst p f (x :: xs) = x :: modifyFirst p f xs := by
        simp [modifyFirst, hx]
      rw [e, List.mem_cons] at h
      rcases h with h | h
      · exact Or.inl (by rw [h]; exact List.mem_cons_self _ _)
      · rcases ih h with h1 | ⟨z, hz, hpz, hyz⟩
        · exact Or.inl (List.mem_cons_of_mem _ h1)
        · exact Or.inr ⟨z, List.mem_cons_of_mem _ hz, hpz, hyz⟩

theorem pairwise_modifyFirst {R : α → α → Prop} {l : List α} (hl : l.Pairwise R)
    (h1 : ∀ x ∈ l, p x = true → ∀ y ∈ l, R x y → R (f x) y)
    (h2 : ∀ x ∈ l, ∀ y ∈ l, p y = true → R x y → R x (f y)) :
    (modifyFirst p f l).Pairwise R := by
  induction l with
  | nil => exact List.Pairwise.nil
  | cons x xs ih =>
    rw [List.pairwise_cons] at hl
    by_cases hx : p x
    · have e : modifyFirst p f (x :: xs) = f x :: xs := by
        simp [modifyFirst, hx]
      rw [e, List.pairwise_cons]
      exact ⟨fun y hy => h1 x (List.mem_cons_self _ _) hx y (List.mem_cons_of_mem _ hy)
        (hl.1 y hy), hl.2⟩
    · have e : modifyFirst p f (x :: xs) = x :: modifyFirst p f xs := by
        simp [modifyFirst, hx]
      rw [e, List.pairwise_cons]
      refine ⟨?_, ih hl.2
        (fun a ha hpa b hb hab =>
          h1 a (List.mem_cons_of_mem _ ha) hpa b (List.mem_cons_of_mem _ hb) hab)
        (fun a ha b hb hpb hab =>
          h2 a (List.mem_cons_of_mem _ ha) b (List.mem_cons_of_mem _ hb) hpb hab)⟩
      intro y hy
      rcases mem_modifyFirst p f hy with hy1 | ⟨z, hz, hpz, hyz⟩
      · exact hl.1 y hy1
      · rw [hyz]
        exact h2 x (List.mem_cons_self _ _) z (List.mem_cons_of_mem _ hz) hpz (hl.1 z hz)

end ModifyFirstPairwise

/-- A write to one session that does not make it live and keeps its user id
keeps the table free of double logins. -/
theorem sessionsUnique_modifyFirst {clients : List ClientSession} (h : SessionsUnique clients)
    (p : ClientSession → Bool) (f : ClientSession → ClientSession)
    (hf : ∀ x, (f x).is_active = true → x.is_active = true ∧ (f x).user_id = x.user_id) :
    SessionsUnique (AuctionServer.modifyFirst p f clients) := by
  unfold SessionsUnique at h ⊢
  apply pairwise_modifyFirst p f h
  · intro x _ _ y _ hxy hboth
    obtain ⟨ha, hid⟩ := hf x hboth.1
    exact hxy ⟨ha, hboth.2.1, by rw [← hid]; exact hboth.2.2⟩
  · intro x _ y _ _ hxy hboth
    obtain ⟨ha, hid⟩ := hf y hboth.2.1
    exact hxy ⟨hboth.1, ha, by rw [← hid]; exact hboth.2.2⟩

theorem sessionsUnique_init : SessionsUnique initState.clients := by
  unfold SessionsUnique initState
  apply List.pairwise_replicate.2
  right
  intro h
  exact absurd h.1 (by decide)

theorem sessionsUnique_force_logout {s : State} (h : SessionsUnique s.clients) (user_id : Int) :
    SessionsUnique (force_logout_user s user_id).clients ∧
      ∀ y ∈ (force_logout_user s user_id).clients, y.is_active = true → y.user_id ≠ user_id := by
  constructor
  · unfold SessionsUnique force_logout_user at *
    apply List.Pairwise.map _ _ h
    intro a b hab hboth
    apply hab
    split at hboth <;> split at hboth
    · exact absurd hboth.1 (by simp)
    · exact absurd hboth.1 (by simp)
    · exact absurd hboth.2.1 (by simp)
    · exact hboth
  · intro y hy hact
    unfold force_logout_user at hy
    obtain ⟨x, _, rfl⟩ := List.mem_map.1 hy
    split at hact
    · exact absurd hact (by simp)
    · rename_i hcond
      intro hid
      apply hcond
      rw [if_neg hcond] at hid
      simp [hact, hid]

theorem sessionsUnique_add_client {s : State} (h : SessionsUnique s.clients)
    (now socket user_id : Int) (username : String)
    (hnone : ∀ y ∈ s.clients, y.is_active = true → y.user_id ≠ user_id) :
    SessionsUnique (add_client s now socket user_id username).clients := by
  unfold AuctionServer.add_client
  split
  · unfold SessionsUnique at h ⊢
    apply pairwise_modifyFirst _ _ h
    · intro x _ _ y hy _ hboth
      exact hnone y hy hboth.2.1 hboth.2.2.symm
    · intro x hx y _ _ _ hboth
      exact hnone x hx hboth.1 hboth.2.2
  · exact h

theorem sessionsUnique_handle_login {s : State} (h : SessionsUnique s.clients)
    (now sock : Int) (u p : String) : SessionsUnique (handle_login s now sock u p).clients := by
  unfold AuctionServer.handle_login
  simp only
  split
  · split
    · rename_i hlogged
      obtain ⟨h1, h2⟩ := sessionsUnique_force_logout h (authenticate_user s u p)
      exact sessionsUnique_add_client h1 now sock _ u h2
    · rename_i hlogged
      apply sessionsUnique_add_client h now sock _ u
      intro y hy hact hid
      apply hlogged
      unfold is_user_logged_in
      rw [List.any_eq_true]
      exact ⟨y, hy, by simp [hact, hid]⟩
  · exact h

theorem sessionsUnique_leave_room_core {s : State} (h : SessionsUnique s.clients)
    (user_id : Int) : SessionsUnique ( _leave_room_unsafe s user_id).2.clients := by
  unfold _leave_room_unsafe
  split
  · exact h
  · split
    · exact h
    · exact sessionsUnique_modifyFirst h _ _ (fun x hx => ⟨hx, rfl⟩)

theorem sessionsUnique_leave_room {s : State} (h : SessionsUnique s.clients) (user_id : Int) :
    SessionsUnique (leave_room s user_id).2.clients := by
  have := sessionsUnique_leave_room_core h user_id
  unfold AuctionServer.leave_room save_all_data
  simp only
  split <;> exact this

theorem sessionsUnique_remove_client {s : State} (h : SessionsUnique s.clients) (sock : Int) :
    SessionsUnique (remove_client s sock).clients := by
  unfold AuctionServer.remove_client
  split
  · exact h
  · rename_i c _
    have h1 : SessionsUnique (AuctionServer.modifyFirst
        (fun c => c.is_active && decide (c.socket = sock))
        (fun c => { c with is_active := false }) s.clients) :=
      sessionsUnique_modifyFirst h _ _ (fun x hx => absurd hx (by simp))
    simp only
    split
    · exact sessionsUnique_leave_room_core
        (s := { s with
          clients := AuctionServer.modifyFirst
            (fun c => c.is_active && decide (c.socket = sock))
            (fun c => { c with is_active := false }) s.clients,
          client_count := s.client_count - 1 }) h1 c.user_id
    · exact h1

theorem sessionsUnique_join_room {s : State} (h : SessionsUnique s.clients)
    (user_id room_id : Int) : SessionsUnique (join_room s user_id room_id).2.clients := by
  unfold AuctionServer.join_room save_all_data
  split
  · exact h
  · split
    · exact h
    · split
      · exact h
      · simp only
        split
        · exact h
        · simp only
          split
          · exact sessionsUnique_modifyFirst h _ _ (fun x hx => ⟨hx, rfl⟩)
          · exact h

theorem create_room_clients (s : State) (now c : Int) (n d : String) (m dur : Int) :
    (create_room s now c n d m dur).2.clients = s.clients := by
  unfold create_room save_all_data
  split
  · rfl
  · split <;> rfl

theorem register_user_clients (s : State) (now : Int) (u p e : String) :
    (register_user s now u p e).2.clients = s.clients := by
  unfold register_user save_all_data
  split
  · rfl
  · split <;> rfl

theorem create_auction_clients (s : State) (now sid rid : Int) (t d : String)
    (sp bp mi dur : Int) :
    (create_auction s now sid rid t d sp bp mi dur).2.clients = s.clients := by
  unfold create_auction save_all_data
  split
  · rfl
  · split
    · rfl
    · simp only
      split
      · rfl
      · split <;> rfl

theorem place_bid_clients (s : State) (now aid uid amt : Int) :
    (place_bid s now aid uid amt).2.clients = s.clients := by
  rcases place_bid_cases s now aid uid amt with ⟨_, e⟩ | ⟨a, u, hok⟩
  · rw [e]
  · rw [place_bid_of_ok hok]
    rfl

theorem buy_now_clients (s : State) (aid uid : Int) :
    (buy_now s aid uid).2.clients = s.clients := by
  rcases buy_now_cases s aid uid with ⟨_, e⟩ | ⟨a, c, u, hok⟩
  · rw [e]
  · rw [buy_now_of_ok hok]
    rfl

theorem step_sessionsUnique (now : Int) (op : Op) (s : State) (h : SessionsUnique s.clients) :
    SessionsUnique (step now op s).clients := by
  cases op with
  | register u p e =>
    simp only [step, register_user_clients]
    exact h
  | login sock u p => exact sessionsUnique_handle_login h now sock u p
  | disconnect sock => exact sessionsUnique_remove_client h sock
  | create_room c n d m dur =>
    simp only [step, handle_create_room]
    have h1 : SessionsUnique (create_room s now c n d m dur).2.clients := by
      rw [create_room_clients]
      exact h
    split
    · exact sessionsUnique_join_room h1 _ _
    · exact h1
  | join_room u r => exact sessionsUnique_join_room h u r
  | leave_room u => exact sessionsUnique_leave_room h u
  | create_auction sid rid t d sp bp mi dur =>
    simp only [step, create_auction_clients]
    exact h
  | place_bid aid uid amt =>
    simp only [step, place_bid_clients]
    exact h
  | buy_now aid uid =>
    simp only [step, buy_now_clients]
    exact h
  | timer => exact h
  | query => exact h

theorem ReachableBy.sessionsUnique {P : Op → Prop} {s : State} (h : ReachableBy P s) :
    SessionsUnique s.clients := by
  induction h with
  | init => exact sessionsUnique_init
  | step now op s _ _ ih => exact step_sessionsUnique now op s ih

/-! ## Room ids are assigned densely -/

theorem roomIds_modifyFirst {rooms : List AuctionRoom} (h : RoomIds rooms)
    (p : AuctionRoom → Bool) (f : AuctionRoom → AuctionRoom)
    (hf : ∀ x, (f x).room_id = x.room_id) : RoomIds (AuctionServer.modifyFirst p f rooms) := by
  intro i y hy
  have hlt : i < rooms.length := by
    by_contra hge
    rw [List.getElem?_eq_none (by simp; omega)] at hy
    exact Option.noConfusion hy
  have hx : rooms[i]? = some rooms[i] := List.getElem?_eq_getElem hlt
  have hid := h i _ hx
  rcases getElem?_modifyFirst p f rooms i _ hx with h1 | ⟨_, _, h1⟩
  · rw [hy] at h1
    rw [Option.some.inj h1]
    exact hid
  · rw [hy] at h1
    rw [Option.some.inj h1, hf]
    exact hid

theorem roomIds_append {rooms : List AuctionRoom} (h : RoomIds rooms) (r : AuctionRoom)
    (hr : r.room_id = (rooms.length : Int) + 1) : RoomIds (rooms ++ [r]) := by
  intro i x hx
  rw [List.getElem?_append] at hx
  split at hx
  · exact h i x hx
  · rename_i hge
    have hi : i - rooms.length = 0 := by
      by_contra hne
      rw [List.getElem?_eq_none (by simp; omega)] at hx
      exact Option.noConfusion hx
    rw [hi] at hx
    simp at hx
    rw [← hx, hr]
    omega

/-- With dense ids no stored room has the id the next room gets. -/
theorem roomIds_fresh {rooms : List AuctionRoom} (h : RoomIds rooms) :
    find_room_by_id rooms ((rooms.length : Int) + 1) = none := by
  unfold find_room_by_id
  rw [List.find?_eq_none]
  intro x hx hxid
  obtain ⟨i, hi⟩ := List.mem_iff_getElem?.1 hx
  have hid := h i x hi
  have hlt : i < rooms.length := by
    by_contra hge
    rw [List.getElem?_eq_none (by omega)] at hi
    exact Option.noConfusion hi
  simp only [decide_eq_true_eq] at hxid
  omega

theorem roomIds_create_room {s : State} (h : RoomIds s.data.rooms) (now c : Int)
    (n d : String) (m dur : Int) : RoomIds (create_room s now c n d m dur).2.data.rooms := by
  rcases create_room_cases s now c n d m dur with ⟨_, e⟩ | e
  · rw [e]
    exact h
  · rw [e]
    exact roomIds_append h _ rfl

theorem roomIds_join_room {s : State} (h : RoomIds s.data.rooms) (user_id room_id : Int) :
    RoomIds (join_room s user_id room_id).2.data.rooms := by
  unfold AuctionServer.join_room save_all_data
  split
  · exact h
  · split
    · exact h
    · split
      · exact h
      · simp only
        split
        · exact h
        · exact roomIds_modifyFirst h _ _ (fun _ => rfl)

theorem roomIds_leave_room_core {s : State} (h : RoomIds s.data.rooms) (user_id : Int) :
    RoomIds ( _leave_room_unsafe s user_id).2.data.rooms := by
  unfold _leave_room_unsafe
  split
  · exact h
  · split
    · exact h
    · simp only
      split
      · exact roomIds_modifyFirst h _ _ (fun _ => rfl)
      · exact h

theorem roomIds_leave_room {s : State} (h : RoomIds s.data.rooms) (user_id : Int) :
    RoomIds (leave_room s user_id).2.data.rooms := by
  have := roomIds_leave_room_core h user_id
  unfold AuctionServer.leave_room save_all_data
  simp only
  split <;> exact this

theorem roomIds_remove_client {s : State} (h : RoomIds s.data.rooms) (sock : Int) :
    RoomIds (remove_client s sock).data.rooms := by
  unfold AuctionServer.remove_client
  split
  · exact h
  · rename_i c _
    simp only
    split
    · exact roomIds_leave_room_core
        (s := { s with
          clients := AuctionServer.modifyFirst
            (fun c => c.is_active && decide (c.socket = sock))
            (fun c => { c with is_active := false }) s.clients,
          client_count := s.client_count - 1 }) h c.user_id
    · exact h

theorem roomIds_create_auction {s : State} (h : RoomIds s.data.rooms) (now sid rid : Int)
    (t d : String) (sp bp mi dur : Int) :
    RoomIds (create_auction s now sid rid t d sp bp mi dur).2.data.rooms := by
  unfold AuctionServer.create_auction save_all_data
  split
  · exact h
  · split
    · exact h
    · simp only
      split
      · exact h
      · split
        · exact h
        · exact roomIds_modifyFirst h _ _ (fun _ => rfl)

theorem step_roomIds (now : Int) (op : Op) (s : State) (h : RoomIds s.data.rooms) :
    RoomIds (step now op s).data.rooms := by
  cases op with
  | register u p e =>
    have e1 : (register_user s now u p e).2.data.rooms = s.data.rooms := by
      unfold register_user save_all_data
      split
      · rfl
      · split <;> rfl
    simp only [step, e1]
    exact h
  | login sock u p =>
    simp only [step, handle_login_data]
    exact h
  | disconnect sock => exact roomIds_remove_client h sock
  | create_room c n d m dur =>
    simp only [step, handle_create_room]
    have h1 := roomIds_create_room h now c n d m dur
    split
    · exact roomIds_join_room h1 _ _
    · exact h1
  | join_room u r => exact roomIds_join_room h u r
  | leave_room u => exact roomIds_leave_room h u
  | create_auction sid rid t d sp bp mi dur => exact roomIds_create_auction h now sid rid t d sp bp mi dur
  | place_bid aid uid amt =>
    simp only [step]
    rcases place_bid_cases s now aid uid amt with ⟨_, e⟩ | ⟨a, u, hok⟩
    · rw [e]
      exact h
    · rw [place_bid_of_ok hok]
      exact h
  | buy_now aid uid =>
    simp only [step]
    rcases buy_now_cases s aid uid with ⟨_, e⟩ | ⟨a, c, u, hok⟩
    · rw [e]
      exact h
    · rw [buy_now_of_ok hok]
      exact h
  | timer => exact h
  | query => exact h

theorem ReachableBy.roomIds {P : Op → Prop} {s : State} (h : ReachableBy P s) :
    RoomIds s.data.rooms := by
  induction h with
  | init => intro i r hr; simp [initState, emptyStore] at hr
  | step now op s _ _ ih => exact step_roomIds now op s ih

/-- In a reachable state no stored room has the id the next room gets. -/
theorem ReachableBy.fresh_room_id {P : Op → Prop} {s : State} (h : ReachableBy P s) :
    find_room_by_id s.data.rooms ((s.data.rooms.length : Int) + 1) = none :=
  roomIds_fresh h.roomIds

/-! ## Requests that fail write nothing; requests that write also save -/

theorem register_user_cases (s : State) (now : Int) (u p e : String) :
    ((register_user s now u p e).1 < 0 ∧ (register_user s now u p e).2 = s) ∨
      (0 < (register_user s now u p e).1 ∧
        ∃ user : User, user.user_id = (s.data.users.length : Int) + 1 ∧
          (register_user s now u p e).2 =
            save_all_data { s with data := { s.data with users := s.data.users ++ [user] } }) := by
  unfold register_user
  split
  · left; exact ⟨by simp, rfl⟩
  · split
    · left; exact ⟨by simp, rfl⟩
    · right
      refine ⟨?_, _, rfl, rfl⟩
      show 0 < (s.data.users.length : Int) + 1
      omega

theorem join_room_cases (s : State) (user_id room_id : Int) :
    ((join_room s user_id room_id).1 < 0 ∧ (join_room s user_id room_id).2 = s) ∨
      ((join_room s user_id room_id).1 = 0 ∧
        ∃ t : State, (join_room s user_id room_id).2 = save_all_data t) := by
  unfold join_room
  split
  · left; exact ⟨by simp, rfl⟩
  · split
    · left; exact ⟨by simp, rfl⟩
    · split
      · left; exact ⟨by simp, rfl⟩
      · simp only
        split
        · left; exact ⟨by simp, rfl⟩
        · right; exact ⟨rfl, _, rfl⟩

theorem leave_room_core_cases (s : State) (user_id : Int) :
    (( _leave_room_unsafe s user_id).1 = -1 ∧ ( _leave_room_unsafe s user_id).2 = s) ∨
      ( _leave_room_unsafe s user_id).1 = 0 := by
  unfold _leave_room_unsafe
  split
  · left; exact ⟨rfl, rfl⟩
  · split
    · left; exact ⟨rfl, rfl⟩
    · right; rfl

theorem leave_room_cases (s : State) (user_id : Int) :
    ((leave_room s user_id).1 < 0 ∧ (leave_room s user_id).2 = s) ∨
      ((leave_room s user_id).1 = 0 ∧
        ∃ t : State, (leave_room s user_id).2 = save_all_data t) := by
  unfold leave_room
  simp only
  rcases leave_room_core_cases s user_id with ⟨h1, h2⟩ | h
  · left
    rw [if_neg (by rw [h1]; decide)]
    exact ⟨by rw [h1]; decide, h2⟩
  · right
    rw [if_pos h]
    exact ⟨h, _, rfl⟩

theorem create_auction_cases (s : State) (now sid rid : Int) (t d : String)
    (sp bp mi dur : Int) :
    ((create_auction s now sid rid t d sp bp mi dur).1 < 0 ∧
        (create_auction s now sid rid t d sp bp mi dur).2 = s) ∨
      (0 < (create_auction s now sid rid t d sp bp mi dur).1 ∧
        ∃ t1 : State, (create_auction s now sid rid t d sp bp mi dur).2 = save_all_data t1) := by
  unfold create_auction
  split
  · left; exact ⟨by simp, rfl⟩
  · split
    · left; exact ⟨by simp, rfl⟩
    · simp only
      split
      · left; exact ⟨by simp, rfl⟩
      · split
        · left; exact ⟨by simp, rfl⟩
        · right
          refine ⟨?_, _, rfl⟩
          show 0 < (s.data.auctions.length : Int) + 1
          omega

theorem save_all_data_disk (t : State) : (save_all_data t).disk = (save_all_data t).data := rfl

/-- Every request other than the timer tick either leaves the store and the files
as they were, or ends with the files equal to the store. -/
theorem step_saves_unless_timer (now : Int) (op : Op) (s : State) (hop : op ≠ .timer) :
    ((step now op s).data = s.data ∧ (step now op s).disk = s.disk) ∨
      (step now op s).disk = (step now op s).data := by
  cases op with
  | register u p e =>
    simp only [step]
    rcases register_user_cases s now u p e with ⟨_, h⟩ | ⟨_, user, _, h⟩
    · left; rw [h]; exact ⟨rfl, rfl⟩
    · right; rw [h]; rfl
  | login sock u p =>
    left
    simp only [step]
    refine ⟨handle_login_data s now sock u p, ?_⟩
    unfold handle_login add_client force_logout_user
    simp only
    split
    · split <;> split <;> rfl
    · rfl
  | disconnect sock =>
    simp only [step]
    unfold remove_client
    split
    · left; exact ⟨rfl, rfl⟩
    · simp only
      split
      · right; rfl
      · left; exact ⟨rfl, rfl⟩
  | create_room c n d m dur =>
    simp only [step, handle_create_room]
    rcases create_room_cases s now c n d m dur with ⟨hneg, h⟩ | h
    · left
      rw [if_neg (by omega), h]
      exact ⟨rfl, rfl⟩
    · right
      rw [h]
      simp only
      split
      · rcases join_room_cases
          (save_all_data { s with data := { s.data with rooms := s.data.rooms ++
            [{ room_id := (s.data.rooms.length : Int) + 1, room_name := strncpy 99 n,
               description := strncpy 199 d, max_participants := m,
               current_participants := 0, status := "waiting", start_time := now,
               end_time := now + wrap32 (dur * 60), created_by := c, total_auctions := 0 }] } })
          c ((s.data.rooms.length : Int) + 1) with ⟨_, h2⟩ | ⟨_, t, h2⟩
        · rw [h2]; rfl
        · rw [h2]; rfl
      · rfl
  | join_room u r =>
    simp only [step]
    rcases join_room_cases s u r with ⟨_, h⟩ | ⟨_, t, h⟩
    · left; rw [h]; exact ⟨rfl, rfl⟩
    · right; rw [h]; rfl
  | leave_room u =>
    simp only [step]
    rcases leave_room_cases s u with ⟨_, h⟩ | ⟨_, t, h⟩
    · left; rw [h]; exact ⟨rfl, rfl⟩
    · right; rw [h]; rfl
  | create_auction sid rid t d sp bp mi dur =>
    simp only [step]
    rcases create_auction_cases s now sid rid t d sp bp mi dur with ⟨_, h⟩ | ⟨_, t1, h⟩
    · left; rw [h]; exact ⟨rfl, rfl⟩
    · right; rw [h]; rfl
  | place_bid aid uid amt =>
    simp only [step]
    rcases place_bid_cases s now aid uid amt with ⟨_, h⟩ | ⟨a, u, hok⟩
    · left; rw [h]; exact ⟨rfl, rfl⟩
    · right; rw [place_bid_of_ok hok]; rfl
  | buy_now aid uid =>
    simp only [step]
    rcases buy_now_cases s aid uid with ⟨_, h⟩ | ⟨a, c, u, hok⟩
    · left; rw [h]; exact ⟨rfl, rfl⟩
    · right; rw [buy_now_of_ok hok]; rfl
  | timer => exact absurd rfl hop
  | query => left; exact ⟨rfl, rfl⟩

/-! ## Ids assigned as positions: users and bids -/

section Dense
variable {α : Type} (key : α → Int)

theorem dense_modifyFirst {l : List α}
    (h : ∀ (i : Nat) (x : α), l[i]? = some x → key x = (i : Int) + 1)
    (p : α → Bool) (f : α → α) (hf : ∀ x, key (f x) = key x) :
    ∀ (i : Nat) (x : α), (modifyFirst p f l)[i]? = some x → key x = (i : Int) + 1 := by
  intro i y hy
  have hlt : i < l.length := by
    by_contra hge
    rw [List.getElem?_eq_none (by simp; omega)] at hy
    exact Option.noConfusion hy
  have hx : l[i]? = some l[i] := List.getElem?_eq_getElem hlt
  have hid := h i _ hx
  rcases getElem?_modifyFirst p f l i _ hx with h1 | ⟨_, _, h1⟩
  · rw [hy] at h1
    rw [Option.some.inj h1]
    exact hid
  · rw [hy] at h1
    rw [Option.some.inj h1, hf]
    exact hid

theorem dense_append {l : List α}
    (h : ∀ (i : Nat) (x : α), l[i]? = some x → key x = (i : Int) + 1) (y : α)
    (hy : key y = (l.length : Int) + 1) :
    ∀ (i : Nat) (x : α), (l ++ [y])[i]? = some x → key x = (i : Int) + 1 := by
  intro i x hx
  rw [List.getElem?_append] at hx
  split at hx
  · exact h i x hx
  · rename_i hge
    have hi : i - l.length = 0 := by
      by_contra hne
      rw [List.getElem?_eq_none (by simp; omega)] at hx
      exact Option.noConfusion hx
    rw [hi] at hx
    simp at hx
    rw [← hx, hy]
    omega

/-- With ids assigned as positions, the search by id returns the record at
position `k - 1` for `1 ≤ k ≤ count` and nothing otherwise. -/
theorem dense_find {l : List α}
    (h : ∀ (i : Nat) (x : α), l[i]? = some x → key x = (i : Int) + 1) (k : Int) :
    l.find? (fun x => decide (key x = k)) =
      if 1 ≤ k ∧ k ≤ (l.length : Int) then l[(k - 1).toNat]? else none := by
  split
  · rename_i hk
    have hlt : (k - 1).toNat < l.length := by omega
    have hx : l[(k - 1).toNat]? = some l[(k - 1).toNat] := List.getElem?_eq_getElem hlt
    have hkey := h _ _ hx
    rw [hx]
    cases hf : l.find? (fun x => decide (key x = k)) with
    | none =>
      rw [List.find?_eq_none] at hf
      have := hf _ (List.getElem_mem hlt)
      simp only [decide_eq_true_eq] at this
      exact absurd (by omega) this
    | some y =>
      have hy1 := List.find?_some hf
      simp only [decide_eq_true_eq] at hy1
      obtain ⟨j, hj⟩ := List.mem_iff_getElem?.1 (List.mem_of_find?_eq_some hf)
      have hkj := h j y hj
      have hjeq : j = (k - 1).toNat := by omega
      rw [hjeq, hx] at hj
      rw [← Option.some.inj hj]
  · rename_i hk
    rw [List.find?_eq_none]
    intro x hx hxk
    simp only [decide_eq_true_eq] at hxk
    obtain ⟨j, hj⟩ := List.mem_iff_getElem?.1 hx
    have hkj := h j x hj
    have hjlt : j < l.length := by
      by_contra hge
      rw [List.getElem?_eq_none (by omega)] at hj
      exact Option.noConfusion hj
    apply hk
    constructor <;> omega

theorem dense_unique {l : List α}
    (h : ∀ (i : Nat) (x : α), l[i]? = some x → key x = (i : Int) + 1) (i j : Nat) (x y : α)
    (hi : l[i]? = some x) (hj : l[j]? = some y) (hxy : key x = key y) : i = j := by
  have h1 := h i x hi
  have h2 := h j y hj
  omega

end Dense

theorem step_users (now : Int) (op : Op) (s : State) :
    (step now op s).data.users = s.data.users ∨
      (∃ user : User, user.user_id = (s.data.users.length : Int) + 1 ∧
        (step now op s).data.users = s.data.users ++ [user]) ∨
      (∃ uid a, (step now op s).data.users = buyUsers s.data.users uid a) := by
  cases op with
  | register u p e =>
    simp only [step]
    rcases register_user_cases s now u p e with ⟨_, h⟩ | ⟨_, user, hid, h⟩
    · left; rw [h]
    · right; left; rw [h]; exact ⟨user, hid, rfl⟩
  | login sock u p => left; simp only [step, handle_login_data]
  | disconnect sock =>
    left
    simp only [step]
    unfold remove_client
    split
    · rfl
    · simp only
      split
      · exact (leave_room_unsafe_tables _ _).2.2
      · rfl
  | create_room c n d m dur =>
    left
    simp only [step, handle_create_room]
    have h1 : (create_room s now c n d m dur).2.data.users = s.data.users := by
      rcases create_room_cases s now c n d m dur with ⟨_, h⟩ | h
      · rw [h]
      · rw [h]; rfl
    have h2 : ∀ (t : State) (u r : Int), (join_room t u r).2.data.users = t.data.users := by
      intro t u r
      unfold join_room save_all_data
      split
      · rfl
      · split
        · rfl
        · split
          · rfl
          · simp only
            split <;> rfl
    split
    · rw [h2, h1]
    · exact h1
  | join_room u r =>
    left
    simp only [step]
    unfold join_room save_all_data
    split
    · rfl
    · split
      · rfl
      · split
        · rfl
        · simp only
          split <;> rfl
  | leave_room u =>
    left
    simp only [step]
    have h := (leave_room_unsafe_tables s u).2.2
    unfold leave_room save_all_data
    simp only
    split <;> exact h
  | create_auction sid rid t d sp bp mi dur =>
    left
    simp only [step]
    unfold create_auction save_all_data
    split
    · rfl
    · split
      · rfl
      · simp only
        split
        · rfl
        · split <;> rfl
  | place_bid aid uid amt =>
    left
    simp only [step]
    rcases place_bid_cases s now aid uid amt with ⟨_, h⟩ | ⟨a, u, hok⟩
    · rw [h]
    · rw [place_bid_of_ok hok]; rfl
  | buy_now aid uid =>
    simp only [step]
    rcases buy_now_cases s aid uid with ⟨_, h⟩ | ⟨a, c, u, hok⟩
    · left; rw [h]
    · right; right; rw [buy_now_of_ok hok]; exact ⟨uid, a, rfl⟩
  | timer => left; rfl
  | query => left; rfl

theorem step_bids (now : Int) (op : Op) (s : State) :
    (step now op s).data.bids = s.data.bids ∨
      ∃ bid : Bid, bid.bid_id = (s.data.bids.length : Int) + 1 ∧
        (step now op s).data.bids = s.data.bids ++ [bid] := by
  cases op with
  | register u p e => left; exact (register_user_tables s now u p e).2
  | login sock u p => left; simp only [step, handle_login_data]
  | disconnect sock => left; exact (remove_client_tables s sock).2
  | create_room c n d m dur => left; exact (handle_create_room_tables s now c n d m dur).2
  | join_room u r => left; exact (join_room_tables s u r).2
  | leave_room u => left; exact (leave_room_tables s u).2
  | create_auction sid rid t d sp bp mi dur =>
    left; exact (create_auction_tables s now sid rid t d sp bp mi dur).1
  | place_bid aid uid amt =>
    simp only [step]
    rcases place_bid_cases s now aid uid amt with ⟨_, h⟩ | ⟨a, u, hok⟩
    · left; rw [h]
    · right; rw [place_bid_of_ok hok]; exact ⟨_, rfl, rfl⟩
  | buy_now aid uid =>
    left
    simp only [step]
    rcases buy_now_cases s aid uid with ⟨_, h⟩ | ⟨a, c, u, hok⟩
    · rw [h]
    · rw [buy_now_of_ok hok]; rfl
  | timer => left; rfl
  | query => left; rfl

theorem userIds_buyUsers {users : List User} (h : UserIds users) (uid : Int) (a : Auction) :
    UserIds (buyUsers users uid a) := by
  unfold buyUsers
  simp only
  have h1 : UserIds (modifyFirst (fun u => decide (u.user_id = uid))
      (fun u => { u with balance := u.balance - a.buy_now_price }) users) :=
    dense_modifyFirst User.user_id h _ _ (fun _ => rfl)
  split
  · exact dense_modifyFirst User.user_id h1 _ _ (fun _ => rfl)
  · exact h1

theorem ReachableBy.userIds {P : Op → Prop} {s : State} (h : ReachableBy P s) :
    UserIds s.data.users := by
  induction h with
  | init => intro i u hu; simp [initState, emptyStore] at hu
  | step now op s _ _ ih =>
    rcases step_users now op s with e | ⟨user, hid, e⟩ | ⟨uid, a, e⟩
    · rw [e]; exact ih
    · rw [e]; exact dense_append User.user_id ih user hid
    · rw [e]; exact userIds_buyUsers ih uid a

theorem ReachableBy.bidIds {P : Op → Prop} {s : State} (h : ReachableBy P s) :
    BidIds s.data.bids := by
  induction h with
  | init => intro i b hb; simp [initState, emptyStore] at hb
  | step now op s _ _ ih =>
    rcases step_bids now op s with e | ⟨bid, hid, e⟩
    · rw [e]; exact ih
    · rw [e]; exact dense_append Bid.bid_id ih bid hid

/-! ## Counting the live sessions of a room -/

theorem inRoom_nonneg (R : Int) (c : ClientSession) : 0 ≤ inRoom R c := by
  unfold inRoom
  split <;> decide

theorem inRoom_le_one (R : Int) (c : ClientSession) : inRoom R c ≤ 1 := by
  unfold inRoom
  split <;> decide

theorem inRoom_of_inactive (R : Int) {c : ClientSession} (h : c.is_active = false) :
    inRoom R c = 0 := by
  simp [inRoom, h]

theorem inRoom_of_other (R : Int) {c : ClientSession} (h : c.current_room_id ≠ R) :
    inRoom R c = 0 := by
  simp [inRoom, h]

theorem inRoom_of_member (R : Int) {c : ClientSession} (ha : c.is_active = true)
    (h : c.current_room_id = R) : inRoom R c = 1 := by
  simp [inRoom, ha, h]

theorem participantsOf_eq_sum (l : List ClientSession) (R : Int) :
    (participantsOf l R : Int) = (l.map (inRoom R)).sum := by
  induction l with
  | nil => rfl
  | cons c cs ih =>
    unfold participantsOf at ih ⊢
    by_cases hc : (c.is_active && decide (c.current_room_id = R)) = true
    · have e : List.filter (fun c => c.is_active && decide (c.current_room_id = R)) (c :: cs) =
          c :: List.filter (fun c => c.is_active && decide (c.current_room_id = R)) cs := by
        simp [List.filter, hc]
      have e1 : inRoom R c = 1 := by simp [inRoom, hc]
      rw [e]
      simp only [List.length_cons, List.map_cons, List.sum_cons]
      rw [← ih, e1]
      push_cast
      omega
    · have e : List.filter (fun c => c.is_active && decide (c.current_room_id = R)) (c :: cs) =
          List.filter (fun c => c.is_active && decide (c.current_room_id = R)) cs := by
        simp [List.filter, hc]
      have e1 : inRoom R c = 0 := by simp [inRoom, hc]
      rw [e]
      simp only [List.map_cons, List.sum_cons]
      rw [← ih, e1]
      omega

theorem participantsOf_modifyFirst (p : ClientSession → Bool) (f : ClientSession → ClientSession)
    {l : List ClientSession} {x : ClientSession} (h : l.find? p = some x) (R : Int) :
    (participantsOf (modifyFirst p f l) R : Int) =
      participantsOf l R - inRoom R x + inRoom R (f x) := by
  rw [participantsOf_eq_sum, participantsOf_eq_sum]
  exact sum_map_modifyFirst p f (inRoom R) h

theorem participantsOf_modifyFirst_le (p : ClientSession → Bool)
    (f : ClientSession → ClientSession) (l : List ClientSession) (R : Int)
    (hf : ∀ x, l.find? p = some x → inRoom R (f x) ≤ inRoom R x) :
    (participantsOf (modifyFirst p f l) R : Int) ≤ participantsOf l R := by
  cases h : l.find? p with
  | none => rw [modifyFirst_of_find?_none p f h]
  | some x =>
    rw [participantsOf_modifyFirst p f h R]
    have := hf x h
    omega

theorem participantsOf_map_le (g : ClientSession → ClientSession) (l : List ClientSession)
    (R : Int) (hg : ∀ x, inRoom R (g x) ≤ inRoom R x) :
    (participantsOf (l.map g) R : Int) ≤ participantsOf l R := by
  rw [participantsOf_eq_sum, participantsOf_eq_sum]
  induction l with
  | nil => exact le_refl _
  | cons c cs ih =>
    simp only [List.map_cons, List.sum_cons]
    have := hg c
    omega

theorem participantsOf_eq_zero (l : List ClientSession) (R : Int)
    (h : ∀ c ∈ l, inRoom R c = 0) : (participantsOf l R : Int) = 0 := by
  rw [participantsOf_eq_sum]
  induction l with
  | nil => rfl
  | cons c cs ih =>
    simp only [List.map_cons, List.sum_cons]
    rw [h c (List.mem_cons_self _ _), ih (fun d hd => h d (List.mem_cons_of_mem _ hd))]
    rfl

/-! ## Rooms under dense ids -/

theorem roomIds_pairwise {rooms : List AuctionRoom} (h : RoomIds rooms) (rid : Int) :
    rooms.Pairwise (fun x y =>
      ¬ (decide (x.room_id = rid) = true ∧ decide (y.room_id = rid) = true)) := by
  rw [List.pairwise_iff_getElem]
  intro i j hi hj hij hboth
  have e1 := h i _ (List.getElem?_eq_getElem hi)
  have e2 := h j _ (List.getElem?_eq_getElem hj)
  simp only [decide_eq_true_eq] at hboth
  omega

theorem roomIds_unique {rooms : List AuctionRoom} (h : RoomIds rooms) {x y : AuctionRoom}
    (hx : x ∈ rooms) (hy : y ∈ rooms) (hxy : x.room_id = y.room_id) : x = y := by
  obtain ⟨i, hi⟩ := List.mem_iff_getElem?.1 hx
  obtain ⟨j, hj⟩ := List.mem_iff_getElem?.1 hy
  have hij := dense_unique AuctionRoom.room_id h i j x y hi hj hxy
  subst hij
  rw [hi] at hj
  exact Option.some.inj hj

theorem roomIds_range {rooms : List AuctionRoom} (h : RoomIds rooms) {x : AuctionRoom}
    (hx : x ∈ rooms) : 1 ≤ x.room_id ∧ x.room_id ≤ (rooms.length : Int) := by
  obtain ⟨i, hi⟩ := List.mem_iff_getElem?.1 hx
  have h1 := h i x hi
  have hlt : i < rooms.length := by
    by_contra hge
    rw [List.getElem?_eq_none (by omega)] at hi
    exact Option.noConfusion hi
  omega

theorem roomIds_modifyFirst_map {rooms : List AuctionRoom} (h : RoomIds rooms) (rid : Int)
    (f : AuctionRoom → AuctionRoom) :
    modifyFirst (fun r => decide (r.room_id = rid)) f rooms =
      rooms.map (fun r => if decide (r.room_id = rid) = true then f r else r) :=
  modifyFirst_eq_map _ _ (roomIds_pairwise h rid)

/-! ## The room invariant is kept by every request -/

theorem roomInv_init (Q : Int → Prop) : RoomInv Q initState.data.rooms initState.clients :=
  { ids := fun i r h => by simp [initState, emptyStore] at h
    status := fun r h => by simp [initState, emptyStore] at h
    maxq := fun r h => by simp [initState, emptyStore] at h
    cap := fun r h => by simp [initState, emptyStore] at h
    sess := fun c hc ha => by
      simp [initState, emptySlot, List.mem_replicate] at hc
      rw [hc.2] at ha
      exact absurd ha (by decide)
    count := fun r h => by simp [initState, emptyStore] at h }

/-- Changing only the session table keeps the invariant when live sessions still
point to 0 or to a stored room and no room gets more live sessions. -/
theorem roomInv_clients {Q : Int → Prop} {rooms : List AuctionRoom}
    {clients clients1 : List ClientSession} (h : RoomInv Q rooms clients)
    (hsess : ∀ c ∈ clients1, c.is_active = true →
      0 ≤ c.current_room_id ∧ c.current_room_id ≤ (rooms.length : Int))
    (hcount : ∀ R : Int, 1 ≤ R →
      (participantsOf clients1 R : Int) ≤ participantsOf clients R) :
    RoomInv Q rooms clients1 :=
  { ids := h.ids
    status := h.status
    maxq := h.maxq
    cap := h.cap
    sess := hsess
    count := fun r hr =>
      le_trans (hcount r.room_id (roomIds_range h.ids hr).1) (h.count r hr) }

/-- A write to one room that keeps its id, status, capacity and count keeps the
invariant. -/
theorem roomInv_rooms_same_fields {Q : Int → Prop} {rooms : List AuctionRoom}
    {clients : List ClientSession} (h : RoomInv Q rooms clients) (p : AuctionRoom → Bool)
    (f : AuctionRoom → AuctionRoom)
    (hf : ∀ x, (f x).room_id = x.room_id ∧ (f x).status = x.status ∧
      (f x).max_participants = x.max_participants ∧
      (f x).current_participants = x.current_participants) :
    RoomInv Q (modifyFirst p f rooms) clients := by
  have hmem : ∀ y ∈ modifyFirst p f rooms, ∃ x ∈ rooms, y.room_id = x.room_id ∧
      y.status = x.status ∧ y.max_participants = x.max_participants ∧
      y.current_participants = x.current_participants := by
    intro y hy
    rcases mem_modifyFirst p f hy with h1 | ⟨x, hx, _, hyx⟩
    · exact ⟨y, h1, rfl, rfl, rfl, rfl⟩
    · rw [hyx]
      exact ⟨x, hx, hf x⟩
  refine { ids := ?_, status := ?_, maxq := ?_, cap := ?_, sess := ?_, count := ?_ }
  · exact roomIds_modifyFirst h.ids p f (fun x => (hf x).1)
  · intro y hy
    obtain ⟨x, hx, _, h2, _, _⟩ := hmem y hy
    rw [h2]
    exact h.status x hx
  · intro y hy
    obtain ⟨x, hx, _, _, h3, _⟩ := hmem y hy
    rw [h3]
    exact h.maxq x hx
  · intro y hy
    obtain ⟨x, hx, _, _, h3, h4⟩ := hmem y hy
    rw [h3, h4]
    exact h.cap x hx
  · intro c hc ha
    rw [modifyFirst_length]
    exact h.sess c hc ha
  · intro y hy
    obtain ⟨x, hx, h1, _, _, h4⟩ := hmem y hy
    rw [h1, h4]
    exact h.count x hx

theorem roomInv_create_room {Q : Int → Prop} {rooms : List AuctionRoom}
    {clients : List ClientSession} (h : RoomInv Q rooms clients) (r : AuctionRoom)
    (hid : r.room_id = (rooms.length : Int) + 1) (hst : r.status = "waiting")
    (hq : Q r.max_participants) (hcur : r.current_participants = 0) :
    RoomInv Q (rooms ++ [r]) clients := by
  refine { ids := ?_, status := ?_, maxq := ?_, cap := ?_, sess := ?_, count := ?_ }
  · exact roomIds_append h.ids r hid
  · intro y hy
    rcases List.mem_append.1 hy with hy | hy
    · exact h.status y hy
    · simp at hy
      rw [hy]
      exact Or.inl hst
  · intro y hy
    rcases List.mem_append.1 hy with hy | hy
    · exact h.maxq y hy
    · simp at hy
      rw [hy]
      exact hq
  · intro y hy
    rcases List.mem_append.1 hy with hy | hy
    · exact h.cap y hy
    · simp at hy
      rw [hy]
      exact Or.inr (by omega)
  · intro c hc ha
    have := h.sess c hc ha
    simp only [List.length_append, List.length_singleton]
    push_cast
    omega
  · intro y hy
    rcases List.mem_append.1 hy with hy | hy
    · exact h.count y hy
    · simp at hy
      rw [hy, hcur, hid]
      apply le_of_eq
      apply participantsOf_eq_zero
      intro c hc
      by_cases ha : c.is_active = true
      · apply inRoom_of_other
        have := (h.sess c hc ha).2
        omega
      · apply inRoom_of_inactive
        simpa using ha

/-- The two writes of `_leave_room_unsafe` keep the invariant. -/
theorem roomInv_leave {Q : Int → Prop} {rooms : List AuctionRoom}
    {clients : List ClientSession} (h : RoomInv Q rooms clients) (user_id : Int)
    (c : ClientSession)
    (hc : clients.find? (fun c => c.is_active && decide (c.user_id = user_id)) = some c)
    (hroom : c.current_room_id ≠ 0) :
    RoomInv Q
      (match find_room_by_id rooms c.current_room_id with
        | some _ =>
          modifyFirst (fun r => decide (r.room_id = c.current_room_id))
            (fun r => { r with current_participants := r.current_participants - 1 }) rooms
        | none => rooms)
      (modifyFirst (fun c => c.is_active && decide (c.user_id = user_id))
        (fun c => { c with current_room_id := 0 }) clients) := by
  have hcmem : c ∈ clients := List.mem_of_find?_eq_some hc
  have hcact : c.is_active = true := by
    have := List.find?_some hc
    simp only [Bool.and_eq_true] at this
    exact this.1
  have hrange := h.sess c hcmem hcact
  have hfound : find_room_by_id rooms c.current_room_id =
      rooms[(c.current_room_id - 1).toNat]? := by
    unfold find_room_by_id
    rw [dense_find AuctionRoom.room_id h.ids, if_pos (by omega)]
  have hlt : (c.current_room_id - 1).toNat < rooms.length := by omega
  rw [hfound, List.getElem?_eq_getElem hlt]
  simp only
  rw [roomIds_modifyFirst_map h.ids]
  have hpo : ∀ R : Int, 1 ≤ R →
      (participantsOf (modifyFirst (fun c => c.is_active && decide (c.user_id = user_id))
        (fun c => { c with current_room_id := 0 }) clients) R : Int) =
        participantsOf clients R - inRoom R c := by
    intro R hR
    rw [participantsOf_modifyFirst _ _ hc R]
    have : inRoom R { c with current_room_id := 0 } = 0 := by
      apply inRoom_of_other
      show (0 : Int) ≠ R
      omega
    omega
  refine { ids := ?_, status := ?_, maxq := ?_, cap := ?_, sess := ?_, count := ?_ }
  · rw [← roomIds_modifyFirst_map h.ids]
    exact roomIds_modifyFirst h.ids _ _ (fun _ => rfl)
  · intro y hy
    obtain ⟨x, hx, rfl⟩ := List.mem_map.1 hy
    split
    · exact h.status x hx
    · exact h.status x hx
  · intro y hy
    obtain ⟨x, hx, rfl⟩ := List.mem_map.1 hy
    split
    · exact h.maxq x hx
    · exact h.maxq x hx
  · intro y hy
    obtain ⟨x, hx, rfl⟩ := List.mem_map.1 hy
    split
    · rcases h.cap x hx with h1 | h1
      · left
        show x.current_participants - 1 ≤ x.max_participants
        omega
      · right
        show x.current_participants - 1 ≤ 0
        omega
    · exact h.cap x hx
  · intro d hd ha
    rw [List.length_map]
    rcases mem_modifyFirst _ _ hd with h1 | ⟨x, _, _, hdx⟩
    · exact h.sess d h1 ha
    · rw [hdx]
      show (0 : Int) ≤ 0 ∧ (0 : Int) ≤ (rooms.length : Int)
      omega
  · intro y hy
    obtain ⟨x, hx, rfl⟩ := List.mem_map.1 hy
    have hxr := (roomIds_range h.ids hx).1
    have hcnt := h.count x hx
    split
    · rename_i hxid
      simp only [decide_eq_true_eq] at hxid
      show (participantsOf _ x.room_id : Int) ≤ x.current_participants - 1
      rw [hpo x.room_id hxr]
      have : inRoom x.room_id c = 1 := inRoom_of_member _ hcact hxid.symm
      omega
    · rw [hpo x.room_id hxr]
      have := inRoom_nonneg x.room_id c
      omega

/-- The write of `join_room` to the room keeps the invariant for any session table
in which live sessions point to stored rooms, the joined room has at most one live
session more and no other room has more. -/
theorem roomInv_join_rooms {Q : Int → Prop} {rooms : List AuctionRoom}
    {clients clients1 : List ClientSession} (h : RoomInv Q rooms clients) (room_id : Int)
    (r0 : AuctionRoom) (hr0 : find_room_by_id rooms room_id = some r0)
    (hcap : r0.current_participants < r0.max_participants)
    (hsess : ∀ d ∈ clients1, d.is_active = true →
      0 ≤ d.current_room_id ∧ d.current_room_id ≤ (rooms.length : Int))
    (hpo_room : (participantsOf clients1 room_id : Int) ≤ participantsOf clients room_id + 1)
    (hpo_other : ∀ R : Int, R ≠ room_id →
      (participantsOf clients1 R : Int) ≤ participantsOf clients R) :
    RoomInv Q
      (modifyFirst (fun r => decide (r.room_id = room_id))
        (fun r => { r with
          current_participants := r.current_participants + 1,
          status := if r.status = "waiting" then "active" else r.status }) rooms)
      clients1 := by
  have hr0mem : r0 ∈ rooms := List.mem_of_find?_eq_some hr0
  have hr0id : r0.room_id = room_id := by
    have := List.find?_some hr0
    simpa using this
  rw [roomIds_modifyFirst_map h.ids]
  refine { ids := ?_, status := ?_, maxq := ?_, cap := ?_, sess := ?_, count := ?_ }
  · rw [← roomIds_modifyFirst_map h.ids]
    exact roomIds_modifyFirst h.ids _ _ (fun _ => rfl)
  · intro y hy
    obtain ⟨x, hx, rfl⟩ := List.mem_map.1 hy
    split
    · show (if x.status = "waiting" then "active" else x.status) = "waiting" ∨
        (if x.status = "waiting" then "active" else x.status) = "active"
      split
      · exact Or.inr rfl
      · exact h.status x hx
    · exact h.status x hx
  · intro y hy
    obtain ⟨x, hx, rfl⟩ := List.mem_map.1 hy
    split
    · exact h.maxq x hx
    · exact h.maxq x hx
  · intro y hy
    obtain ⟨x, hx, rfl⟩ := List.mem_map.1 hy
    split
    · rename_i hxid
      simp only [decide_eq_true_eq] at hxid
      have hx0 : x = r0 := roomIds_unique h.ids hx hr0mem (by omega)
      left
      show x.current_participants + 1 ≤ x.max_participants
      rw [hx0]
      omega
    · exact h.cap x hx
  · intro d hd ha
    rw [List.length_map]
    exact hsess d hd ha
  · intro y hy
    obtain ⟨x, hx, rfl⟩ := List.mem_map.1 hy
    have hcnt := h.count x hx
    split
    · rename_i hxid
      simp only [decide_eq_true_eq] at hxid
      show (participantsOf _ x.room_id : Int) ≤ x.current_participants + 1
      rw [hxid]
      rw [hxid] at hcnt
      omega
    · rename_i hxid
      simp only [decide_eq_true_eq] at hxid
      exact le_trans (hpo_other x.room_id hxid) hcnt

/-- The write of `join_room` to the caller's session: live sessions still point to
stored rooms, the joined room has at most one live session more, no other room
has more. -/
theorem join_clients_facts {Q : Int → Prop} {rooms : List AuctionRoom}
    {clients : List ClientSession} (h : RoomInv Q rooms clients) (user_id room_id : Int)
    (hrid : 0 ≤ room_id ∧ room_id ≤ (rooms.length : Int)) (c : ClientSession)
    (hc : clients.find? (fun c => c.is_active && decide (c.user_id = user_id)) = some c) :
    (∀ d ∈ modifyFirst (fun c => c.is_active && decide (c.user_id = user_id))
          (fun c => { c with current_room_id := room_id }) clients, d.is_active = true →
        0 ≤ d.current_room_id ∧ d.current_room_id ≤ (rooms.length : Int)) ∧
      (participantsOf (modifyFirst (fun c => c.is_active && decide (c.user_id = user_id))
          (fun c => { c with current_room_id := room_id }) clients) room_id : Int) ≤
        participantsOf clients room_id + 1 ∧
      (∀ R : Int, R ≠ room_id →
        (participantsOf (modifyFirst (fun c => c.is_active && decide (c.user_id = user_id))
          (fun c => { c with current_room_id := room_id }) clients) R : Int) ≤
          participantsOf clients R) := by
  refine ⟨?_, ?_, ?_⟩
  · intro d hd ha
    rcases mem_modifyFirst _ _ hd with h1 | ⟨x, _, _, hdx⟩
    · exact h.sess d h1 ha
    · rw [hdx]
      exact hrid
  · rw [participantsOf_modifyFirst _ _ hc room_id]
    have h1 := inRoom_nonneg room_id c
    have h2 := inRoom_le_one room_id { c with current_room_id := room_id }
    omega
  · intro R hR
    rw [participantsOf_modifyFirst _ _ hc R]
    have h1 := inRoom_nonneg R c
    have h2 : inRoom R { c with current_room_id := room_id } = 0 := by
      apply inRoom_of_other
      exact fun e => hR e.symm
    omega

theorem roomInv_join_room {Q : Int → Prop} {s : State} (h : RoomInv Q s.data.rooms s.clients)
    (user_id room_id : Int) :
    RoomInv Q (join_room s user_id room_id).2.data.rooms
      (join_room s user_id room_id).2.clients := by
  cases hr : find_room_by_id s.data.rooms room_id with
  | none =>
    have e : join_room s user_id room_id = (-1, s) := by simp [join_room, hr]
    rw [e]
    exact h
  | some r0 =>
    by_cases hne : r0.status = "ended"
    · have e : join_room s user_id room_id = (-2, s) := by simp [join_room, hr, hne]
      rw [e]
      exact h
    by_cases hfull : r0.max_participants ≤ r0.current_participants
    · have e : join_room s user_id room_id = (-3, s) := by simp [join_room, hr, hne, hfull]
      rw [e]
      exact h
    have hrange := roomIds_range h.ids (List.mem_of_find?_eq_some hr)
    have hr0id : r0.room_id = room_id := by
      have := List.find?_some hr
      simpa using this
    cases hc : find_client_by_user_id s.clients user_id with
    | none =>
      have e : join_room s user_id room_id =
          (0, save_all_data
            { s with
              data := { s.data with
                rooms := modifyFirst (fun r => decide (r.room_id = room_id))
                  (fun r => { r with
                    current_participants := r.current_participants + 1,
                    status := if r.status = "waiting" then "active" else r.status })
                  s.data.rooms },
              clients := s.clients }) := by
        unfold join_room
        simp only [hr, hc]
        rw [if_neg hne, if_neg hfull]
        rfl
      rw [e]
      have hres := roomInv_join_rooms h room_id r0 hr (by omega) h.sess (by omega)
        (fun _ _ => le_refl _)
      exact hres
    | some c =>
      by_cases hal : 0 < c.current_room_id ∧ c.current_room_id ≠ room_id
      · have e : join_room s user_id room_id = (-4, s) := by
          simp [join_room, hr, hne, hfull, hc, hal.1, hal.2]
        rw [e]
        exact h
      · rw [join_room_of_ok hr hne (by omega) hc hal]
        unfold find_client_by_user_id at hc
        obtain ⟨h1, h2, h3⟩ := join_clients_facts h user_id room_id (by omega) c hc
        exact roomInv_join_rooms h room_id r0 hr (by omega) h1 h2 h3

theorem roomInv_leave_core {Q : Int → Prop} {s : State}
    (h : RoomInv Q s.data.rooms s.clients) (user_id : Int) :
    RoomInv Q ( _leave_room_unsafe s user_id).2.data.rooms
      ( _leave_room_unsafe s user_id).2.clients := by
  cases hc : find_client_by_user_id s.clients user_id with
  | none =>
    have e : _leave_room_unsafe s user_id = (-1, s) := by simp [ _leave_room_unsafe, hc]
    rw [e]
    exact h
  | some c =>
    by_cases hz : c.current_room_id = 0
    · have e : _leave_room_unsafe s user_id = (-1, s) := by
        simp [ _leave_room_unsafe, hc, hz]
      rw [e]
      exact h
    · unfold _leave_room_unsafe
      simp only [hc]
      rw [if_neg hz]
      unfold find_client_by_user_id at hc
      exact roomInv_leave h user_id c hc hz

theorem roomInv_leave_room {Q : Int → Prop} {s : State}
    (h : RoomInv Q s.data.rooms s.clients) (user_id : Int) :
    RoomInv Q (leave_room s user_id).2.data.rooms (leave_room s user_id).2.clients := by
  have := roomInv_leave_core h user_id
  unfold leave_room save_all_data
  simp only
  split <;> exact this

theorem roomInv_remove_client {Q : Int → Prop} {s : State}
    (h : RoomInv Q s.data.rooms s.clients) (sock : Int) :
    RoomInv Q (remove_client s sock).data.rooms (remove_client s sock).clients := by
  unfold remove_client
  split
  · exact h
  · rename_i c hfind
    have h1 : RoomInv Q s.data.rooms
        (modifyFirst (fun c => c.is_active && decide (c.socket = sock))
          (fun c => { c with is_active := false }) s.clients) := by
      apply roomInv_clients h
      · intro d hd ha
        rcases mem_modifyFirst _ _ hd with hd1 | ⟨x, _, _, hdx⟩
        · exact h.sess d hd1 ha
        · rw [hdx] at ha
          exact absurd ha (by simp)
      · intro R _
        apply participantsOf_modifyFirst_le
        intro x _
        rw [inRoom_of_inactive R (c := { x with is_active := false }) rfl]
        exact inRoom_nonneg R x
    simp only
    split
    · exact roomInv_leave_core
        (s := { s with
          clients := modifyFirst (fun c => c.is_active && decide (c.socket = sock))
            (fun c => { c with is_active := false }) s.clients,
          client_count := s.client_count - 1 }) h1 c.user_id
    · exact h1

theorem roomInv_handle_login {Q : Int → Prop} {s : State}
    (h : RoomInv Q s.data.rooms s.clients) (now sock : Int) (u p : String) :
    RoomInv Q (handle_login s now sock u p).data.rooms (handle_login s now sock u p).clients := by
  rw [handle_login_data]
  have hforce : ∀ uid, RoomInv Q s.data.rooms (force_logout_user s uid).clients := by
    intro uid
    apply roomInv_clients h
    · intro d hd ha
      unfold force_logout_user at hd
      obtain ⟨x, hx, rfl⟩ := List.mem_map.1 hd
      split at ha
      · exact absurd ha (by simp)
      · rename_i hcond
        rw [if_neg hcond]
        exact h.sess x hx ha
    · intro R _
      unfold force_logout_user
      apply participantsOf_map_le
      intro x
      split
      · rw [inRoom_of_inactive R (c := { x with is_active := false }) rfl]
        exact inRoom_nonneg R x
      · exact le_refl _
  have hadd : ∀ (t : State) (uid : Int), RoomInv Q s.data.rooms t.clients →
      RoomInv Q s.data.rooms (add_client t now sock uid u).clients := by
    intro t uid ht
    unfold add_client
    split
    · apply roomInv_clients ht
      · intro d hd ha
        rcases mem_modifyFirst _ _ hd with hd1 | ⟨x, _, _, hdx⟩
        · exact ht.sess d hd1 ha
        · rw [hdx]
          show (0 : Int) ≤ 0 ∧ (0 : Int) ≤ (s.data.rooms.length : Int)
          omega
      · intro R hR
        apply participantsOf_modifyFirst_le
        intro x _
        have e : inRoom R { x with
            socket := sock, user_id := uid, username := strncpy 49 u,
            is_active := true, login_time := now, current_room_id := 0 } = 0 := by
          apply inRoom_of_other
          show (0 : Int) ≠ R
          omega
        rw [e]
        exact inRoom_nonneg R x
    · exact ht
  unfold handle_login
  simp only
  split
  · split
    · exact hadd _ _ (hforce _)
    · exact hadd _ _ h
  · exact h

theorem roomInv_create_room_state {Q : Int → Prop} {s : State}
    (h : RoomInv Q s.data.rooms s.clients) (now c : Int) (n d : String) (m dur : Int)
    (hq : Q m) :
    RoomInv Q (create_room s now c n d m dur).2.data.rooms
      (create_room s now c n d m dur).2.clients := by
  rcases create_room_cases s now c n d m dur with ⟨_, e⟩ | e
  · rw [e]
    exact h
  · rw [e]
    exact roomInv_create_room h _ rfl rfl hq rfl

theorem roomInv_create_auction {Q : Int → Prop} {s : State}
    (h : RoomInv Q s.data.rooms s.clients) (now sid rid : Int) (t d : String)
    (sp bp mi dur : Int) :
    RoomInv Q (create_auction s now sid rid t d sp bp mi dur).2.data.rooms
      (create_auction s now sid rid t d sp bp mi dur).2.clients := by
  unfold create_auction save_all_data
  split
  · exact h
  · split
    · exact h
    · simp only
      split
      · exact h
      · split
        · exact h
        · exact roomInv_rooms_same_fields h _ _ (fun _ => ⟨rfl, rfl, rfl, rfl⟩)

theorem step_roomInv {Q : Int → Prop} (now : Int) (op : Op) (s : State)
    (h : RoomInv Q s.data.rooms s.clients)
    (hop : ∀ c n d m dur, op = .create_room c n d m dur → Q m) :
    RoomInv Q (step now op s).data.rooms (step now op s).clients := by
  cases op with
  | register u p e =>
    simp only [step]
    rcases register_user_cases s now u p e with ⟨_, e1⟩ | ⟨_, user, _, e1⟩
    · rw [e1]
      exact h
    · rw [e1]
      exact h
  | login sock u p => exact roomInv_handle_login h now sock u p
  | disconnect sock => exact roomInv_remove_client h sock
  | create_room c n d m dur =>
    simp only [step, handle_create_room]
    have h1 := roomInv_create_room_state h now c n d m dur (hop c n d m dur rfl)
    split
    · exact roomInv_join_room h1 _ _
    · exact h1
  | join_room u r => exact roomInv_join_room h u r
  | leave_room u => exact roomInv_leave_room h u
  | create_auction sid rid t d sp bp mi dur =>
    exact roomInv_create_auction h now sid rid t d sp bp mi dur
  | place_bid aid uid amt =>
    simp only [step]
    rcases place_bid_cases s now aid uid amt with ⟨_, e⟩ | ⟨a, u, hok⟩
    · rw [e]
      exact h
    · rw [place_bid_of_ok hok]
      exact h
  | buy_now aid uid =>
    simp only [step]
    rcases buy_now_cases s aid uid with ⟨_, e⟩ | ⟨a, c, u, hok⟩
    · rw [e]
      exact h
    · rw [buy_now_of_ok hok]
      exact h
  | timer => exact h
  | query => exact h

theorem ReachableBy.roomInv {P : Op → Prop} {Q : Int → Prop}
    (hPQ : ∀ c n d m dur, P (.create_room c n d m dur) → Q m) {s : State}
    (h : ReachableBy P s) : RoomInv Q s.data.rooms s.clients := by
  induction h with
  | init => exact roomInv_init Q
  | step now op s _ hP ih =>
    apply step_roomInv now op s ih
    intro c n d m dur e
    rw [e] at hP
    exact hPQ c n d m dur hP

/-- The sweep of `auction_timer` writes to auction records only. -/
theorem auction_timer_rooms (s : State) (now : Int) :
    (auction_timer s now).data.rooms = s.data.rooms ∧
      (auction_timer s now).clients = s.clients :=
  ⟨rfl, rfl⟩

/-- No statement of the server stores "ended" in a room: in every reachable state
each room is "waiting" or "active". -/
theorem reachable_room_not_ended {P : Op → Prop} {s : State} (h : ReachableBy P s) :
    ∀ r ∈ s.data.rooms, r.status = "waiting" ∨ r.status = "active" :=
  (ReachableBy.roomInv (fun _ _ _ _ _ _ => trivial) h :
    RoomInv (fun _ => True) s.data.rooms s.clients).status

theorem place_bid_users (s : State) (now aid uid amt : Int) :
    (place_bid s now aid uid amt).2.data.users = s.data.users := by
  rcases place_bid_cases s now aid uid amt with ⟨_, e⟩ | ⟨a, u, hok⟩
  · rw [e]
  · rw [place_bid_of_ok hok]
    rfl

/-! ## Lock order -/

theorem holdsFrom_append (m : Mutex) (b : Bool) (t u : List LockEvent) :
    holdsFrom m b (t ++ u) = holdsFrom m (holdsFrom m b t) u := by
  unfold holdsFrom
  rw [List.foldl_append]

theorem safeFrom_append (c : Bool) (t u : List LockEvent) :
    safeFrom c (t ++ u) = (safeFrom c t && safeFrom (holdsFrom .client_mutex c t) u) := by
  induction t generalizing c with
  | nil => simp [safeFrom, holdsFrom]
  | cons e t ih =>
    show safeFrom c (e :: (t ++ u)) = _
    simp only [safeFrom, ih, holdsFrom, List.foldl_cons, Bool.and_assoc]

theorem safeFrom_take {c : Bool} {t : List LockEvent} (h : safeFrom c t = true) (i : Nat)
    (hi : t[i]? = some (.lock .data_mutex)) :
    holdsFrom .client_mutex c (t.take i) = false := by
  induction t generalizing c i with
  | nil => simp at hi
  | cons e t ih =>
    simp only [safeFrom, Bool.and_eq_true] at h
    cases i with
    | zero =>
      simp only [List.getElem?_cons_zero, Option.some.injEq] at hi
      have h1 := h.1
      rw [if_pos hi] at h1
      simpa [holdsFrom] using h1
    | succ i =>
      simp only [List.getElem?_cons_succ] at hi
      have := ih h.2 i hi
      simpa [holdsFrom] using this

theorem iterate_sound {c : Bool} {ts : List (List LockEvent)}
    (hts : ∀ t ∈ ts, safeFrom c t = true ∧ holdsFrom .client_mutex c t = c) (k : Nat) :
    ∀ t ∈ iterate ts k, safeFrom c t = true ∧ holdsFrom .client_mutex c t = c := by
  induction k with
  | zero =>
    intro t ht
    simp only [iterate, List.mem_singleton] at ht
    rw [ht]
    exact ⟨rfl, rfl⟩
  | succ k ih =>
    intro t ht
    simp only [iterate, List.mem_cons, List.mem_flatMap, List.mem_map] at ht
    rcases ht with rfl | ⟨t1, ht1, u, hu, rfl⟩
    · exact ⟨rfl, rfl⟩
    · obtain ⟨h1, h2⟩ := hts t1 ht1
      obtain ⟨h3, h4⟩ := ih u hu
      rw [safeFrom_append, holdsFrom_append, h1, h2, h3, h4]
      exact ⟨rfl, rfl⟩

theorem check_sound (p : LockProg) :
    ∀ (c c1 : Bool), check p c = some c1 → ∀ (n : Nat) (t : List LockEvent),
      t ∈ traces n p → safeFrom c t = true ∧ holdsFrom .client_mutex c t = c1 := by
  induction p with
  | skip =>
    intro c c1 h n t ht
    simp only [traces, List.mem_singleton] at ht
    simp only [check, Option.some.injEq] at h
    rw [ht, ← h]
    exact ⟨rfl, rfl⟩
  | lock m =>
    intro c c1 h n t ht
    simp only [traces, List.mem_singleton] at ht
    simp only [check] at h
    split at h
    · exact absurd h (by simp)
    · rename_i hno
      simp only [Option.some.injEq] at h
      rw [ht, ← h]
      refine ⟨?_, rfl⟩
      simp only [safeFrom, Bool.and_true]
      split
      · rename_i he
        have hm : m = .data_mutex := by
          injection he
        cases c with
        | false => rfl
        | true => exact absurd ⟨hm, rfl⟩ hno
      · rfl
  | unlock m =>
    intro c c1 h n t ht
    simp only [traces, List.mem_singleton] at ht
    simp only [check, Option.some.injEq] at h
    rw [ht, ← h]
    refine ⟨?_, rfl⟩
    simp [safeFrom]
  | seq a b iha ihb =>
    intro c c1 h n t ht
    simp only [traces, List.mem_flatMap, List.mem_map] at ht
    obtain ⟨t1, ht1, u, hu, rfl⟩ := ht
    simp only [check] at h
    cases hca : check a c with
    | none => rw [hca] at h; exact absurd h (by simp)
    | some c2 =>
      rw [hca] at h
      simp only [Option.some_bind] at h
      obtain ⟨h1, h2⟩ := iha c c2 hca n t1 ht1
      obtain ⟨h3, h4⟩ := ihb c2 c1 h n u hu
      rw [safeFrom_append, holdsFrom_append, h1, h2, h3, h4]
      exact ⟨rfl, rfl⟩
  | alt a b iha ihb =>
    intro c c1 h n t ht
    simp only [traces, List.mem_append] at ht
    simp only [check] at h
    cases hca : check a c with
    | none => rw [hca] at h; exact absurd h (by simp)
    | some x =>
      cases hcb : check b c with
      | none => rw [hca, hcb] at h; exact absurd h (by simp)
      | some y =>
        rw [hca, hcb] at h
        simp only at h
        split at h
        · rename_i hxy
          simp only [Option.some.injEq] at h
          rcases ht with ht | ht
          · rw [← h]
            exact iha c x hca n t ht
          · rw [← h, hxy]
            exact ihb c y hcb n t ht
        · exact absurd h (by simp)
  | loop a iha =>
    intro c c1 h n t ht
    simp only [traces] at ht
    simp only [check] at h
    split at h
    · rename_i hca
      simp only [Option.some.injEq] at h
      rw [← h]
      exact iterate_sound (fun u hu => iha c c hca n u hu) n t ht
    · exact absurd h (by simp)

/-- A program that passes `check` from the state with no mutex held has only
ordered paths. -/
theorem lockOrdered_of_check {p : LockProg} (h : check p false = some false)
    (n : Nat) (t : List LockEvent) (ht : t ∈ traces n p) : LockOrdered t := by
  intro i _ hi
  exact safeFrom_take (check_sound p false false h n t ht).1 i hi

/-- The order the other way round is told apart: a path that locks `data_mutex`
under `client_mutex` is not ordered, and `check` refuses it. -/
theorem lockOrdered_refuses_reverse :
    ¬ LockOrdered [.lock .client_mutex, .lock .data_mutex, .unlock .data_mutex,
        .unlock .client_mutex] ∧
      check (.block [.lock .client_mutex, .lock .data_mutex, .unlock .data_mutex,
        .unlock .client_mutex]) false = none := by
  decide

/-! ## Sessions and auctions refer to stored users -/

theorem sessionUsers_mono {n m : Int} {clients : List ClientSession}
    (h : SessionUsers n clients) (hnm : n ≤ m) : SessionUsers m clients := by
  intro c hc ha
  have := h c hc ha
  omega

theorem auctionRefs_mono {n m : Int} {auctions : List Auction}
    (h : AuctionRefs n auctions) (hnm : n ≤ m) : AuctionRefs m auctions := by
  intro a ha
  have := h a ha
  omega

/-- A write to one session that does not make it live and keeps its user id. -/
theorem sessionUsers_modifyFirst {n : Int} {clients : List ClientSession}
    (h : SessionUsers n clients) (p : ClientSession → Bool)
    (f : ClientSession → ClientSession)
    (hf : ∀ x, (f x).is_active = true → x.is_active = true ∧ (f x).user_id = x.user_id) :
    SessionUsers n (modifyFirst p f clients) := by
  intro c hc ha
  rcases mem_modifyFirst _ _ hc with h1 | ⟨x, hx, _, rfl⟩
  · exact h c h1 ha
  · obtain ⟨hxa, hid⟩ := hf x ha
    rw [hid]
    exact h x hx hxa

theorem sessionUsers_init (n : Int) : SessionUsers n initState.clients := by
  intro c hc ha
  unfold initState at hc
  rw [List.eq_of_mem_replicate hc] at ha
  exact absurd ha (by decide)

theorem sessionUsers_force_logout {n : Int} {s : State} (h : SessionUsers n s.clients)
    (user_id : Int) : SessionUsers n (force_logout_user s user_id).clients := by
  intro c hc ha
  unfold force_logout_user at hc
  obtain ⟨x, hx, rfl⟩ := List.mem_map.1 hc
  split at ha
  · exact absurd ha (by simp)
  · rename_i hcond
    rw [if_neg hcond]
    exact h x hx ha

theorem sessionUsers_add_client {n : Int} {s : State} (h : SessionUsers n s.clients)
    (now socket user_id : Int) (username : String) (hid : 1 ≤ user_id ∧ user_id ≤ n) :
    SessionUsers n (add_client s now socket user_id username).clients := by
  unfold add_client
  split
  · intro c hc ha
    rcases mem_modifyFirst _ _ hc with h1 | ⟨x, _, _, rfl⟩
    · exact h c h1 ha
    · exact hid
  · exact h

/-- A successful `authenticate_user` returns the id of a stored user. -/
theorem authenticate_user_range {s : State} (hU : UserIds s.data.users) (u p : String)
    (hpos : 0 < authenticate_user s u p) :
    1 ≤ authenticate_user s u p ∧ authenticate_user s u p ≤ (s.data.users.length : Int) := by
  unfold authenticate_user at hpos ⊢
  split at hpos
  · exact absurd hpos (by decide)
  · rename_i user hfind
    by_cases h1 : user.password ≠ p
    · rw [if_pos h1] at hpos
      exact absurd hpos (by decide)
    · by_cases h2 : user.status ≠ "active"
      · rw [if_neg h1, if_pos h2] at hpos
        exact absurd hpos (by decide)
      · rw [if_neg h1, if_neg h2]
        have hmem : user ∈ s.data.users := by
          unfold find_user_by_username at hfind
          exact List.mem_of_find?_eq_some hfind
        obtain ⟨i, hi⟩ := List.mem_iff_getElem?.1 hmem
        have hid := hU i user hi
        have hlt : i < s.data.users.length := by
          by_contra hge
          rw [List.getElem?_eq_none (by omega)] at hi
          exact Option.noConfusion hi
        omega

theorem sessionUsers_handle_login {s : State} (hU : UserIds s.data.users)
    (h : SessionUsers (s.data.users.length : Int) s.clients) (now sock : Int) (u p : String) :
    SessionUsers (s.data.users.length : Int) (handle_login s now sock u p).clients := by
  unfold handle_login
  simp only
  split
  · rename_i hpos
    have hid := authenticate_user_range hU u p hpos
    split
    · exact sessionUsers_add_client (sessionUsers_force_logout h _) now sock _ u hid
    · exact sessionUsers_add_client h now sock _ u hid
  · exact h

theorem sessionUsers_leave_room_core {n : Int} {s : State} (h : SessionUsers n s.clients)
    (user_id : Int) : SessionUsers n ( _leave_room_unsafe s user_id).2.clients := by
  unfold _leave_room_unsafe
  split
  · exact h
  · split
    · exact h
    · exact sessionUsers_modifyFirst h _ _ (fun x hx => ⟨hx, rfl⟩)

theorem sessionUsers_leave_room {n : Int} {s : State} (h : SessionUsers n s.clients)
    (user_id : Int) : SessionUsers n (leave_room s user_id).2.clients := by
  have := sessionUsers_leave_room_core h user_id
  unfold leave_room save_all_data
  simp only
  split <;> exact this

theorem sessionUsers_remove_client {n : Int} {s : State} (h : SessionUsers n s.clients)
    (sock : Int) : SessionUsers n (remove_client s sock).clients := by
  unfold remove_client
  split
  · exact h
  · rename_i c _
    have h1 : SessionUsers n (modifyFirst
        (fun c => c.is_active && decide (c.socket = sock))
        (fun c => { c with is_active := false }) s.clients) :=
      sessionUsers_modifyFirst h _ _ (fun x hx => absurd hx (by simp))
    simp only
    split
    · exact sessionUsers_leave_room_core
        (s := { s with
          clients := modifyFirst
            (fun c => c.is_active && decide (c.socket = sock))
            (fun c => { c with is_active := false }) s.clients,
          client_count := s.client_count - 1 }) h1 c.user_id
    · exact h1

theorem sessionUsers_join_room {n : Int} {s : State} (h : SessionUsers n s.clients)
    (user_id room_id : Int) : SessionUsers n (join_room s user_id room_id).2.clients := by
  unfold join_room save_all_data
  split
  · exact h
  · split
    · exact h
    · split
      · exact h
      · simp only
        split
        · exact h
        · simp only
          split
          · exact sessionUsers_modifyFirst h _ _ (fun x hx => ⟨hx, rfl⟩)
          · exact h

theorem step_sessionUsers (now : Int) (op : Op) (s : State) (hU : UserIds s.data.users)
    (h : SessionUsers (s.data.users.length : Int) s.clients) :
    SessionUsers (s.data.users.length : Int) (step now op s).clients := by
  cases op with
  | register u p e =>
    simp only [step, register_user_clients]
    exact h
  | login sock u p => exact sessionUsers_handle_login hU h now sock u p
  | disconnect sock => exact sessionUsers_remove_client h sock
  | create_room c n d m dur =>
    simp only [step, handle_create_room]
    have h1 : SessionUsers (s.data.users.length : Int)
        (create_room s now c n d m dur).2.clients := by
      rw [create_room_clients]
      exact h
    split
    · exact sessionUsers_join_room h1 _ _
    · exact h1
  | join_room u r => exact sessionUsers_join_room h u r
  | leave_room u => exact sessionUsers_leave_room h u
  | create_auction sid rid t d sp bp mi dur =>
    simp only [step, create_auction_clients]
    exact h
  | place_bid aid uid amt =>
    simp only [step, place_bid_clients]
    exact h
  | buy_now aid uid =>
    simp only [step, buy_now_clients]
    exact h
  | timer => exact h
  | query => exact h

theorem buyUsers_length (users : List User) (uid : Int) (a : Auction) :
    (buyUsers users uid a).length = users.length := by
  unfold buyUsers
  simp only
  split <;> simp [modifyFirst_length]

theorem step_users_length (now : Int) (op : Op) (s : State) :
    s.data.users.length ≤ (step now op s).data.users.length := by
  rcases step_users now op s with e | ⟨user, _, e⟩ | ⟨uid, a, e⟩
  · rw [e]
  · rw [e]
    simp
  · rw [e, buyUsers_length]

/-- A write to one auction that keeps its seller and its room. -/
theorem auctionRefs_modifyFirst {n : Int} {auctions : List Auction}
    (h : AuctionRefs n auctions) (p : Auction → Bool) (f : Auction → Auction)
    (hf : ∀ x, (f x).seller_id = x.seller_id ∧ (f x).room_id = x.room_id) :
    AuctionRefs n (modifyFirst p f auctions) := by
  intro a ha
  rcases mem_modifyFirst _ _ ha with h1 | ⟨x, hx, _, rfl⟩
  · exact h a h1
  · rw [(hf x).1, (hf x).2]
    exact h x hx

theorem auctionRefs_create_auction {n : Int} {s : State} (hs : SessionUsers n s.clients)
    (hR : RoomIds s.data.rooms) (h : AuctionRefs n s.data.auctions) (now sid rid : Int)
    (t d : String) (sp bp mi dur : Int) :
    AuctionRefs n (create_auction s now sid rid t d sp bp mi dur).2.data.auctions := by
  unfold create_auction save_all_data
  split
  · exact h
  · split
    · exact h
    · rename_i room hroom
      simp only
      split
      · exact h
      · split
        · exact h
        · rename_i hin _
          have hrid : room.room_id = rid := by
            have := List.find?_some hroom
            simpa using this
          have hrange := roomIds_range hR (List.mem_of_find?_eq_some hroom)
          intro a ha
          rcases List.mem_append.1 ha with h1 | h1
          · exact h a h1
          · rw [List.mem_singleton] at h1
            rw [h1]
            simp only
            cases hc : find_client_by_user_id s.clients sid with
            | none =>
              rw [hc] at hin
              simp only [ne_eq, not_not] at hin
              omega
            | some c =>
              have hp := List.find?_some hc
              simp only [Bool.and_eq_true, decide_eq_true_eq] at hp
              have := hs c (List.mem_of_find?_eq_some hc) hp.1
              rw [hp.2] at this
              omega

theorem step_auctionRefs (now : Int) (op : Op) (s : State) {n : Int}
    (hs : SessionUsers n s.clients) (hR : RoomIds s.data.rooms)
    (h : AuctionRefs n s.data.auctions) :
    AuctionRefs n (step now op s).data.auctions := by
  cases op with
  | register u p e =>
    simp only [step]
    rw [(register_user_tables s now u p e).1]
    exact h
  | login sock u p =>
    simp only [step]
    rw [handle_login_data]
    exact h
  | disconnect sock =>
    simp only [step]
    rw [(remove_client_tables s sock).1]
    exact h
  | create_room c n d m dur =>
    simp only [step]
    rw [(handle_create_room_tables s now c n d m dur).1]
    exact h
  | join_room u r =>
    simp only [step]
    rw [(join_room_tables s u r).1]
    exact h
  | leave_room u =>
    simp only [step]
    rw [(leave_room_tables s u).1]
    exact h
  | create_auction sid rid t d sp bp mi dur =>
    exact auctionRefs_create_auction hs hR h now sid rid t d sp bp mi dur
  | place_bid aid uid amt =>
    simp only [step]
    rcases place_bid_cases s now aid uid amt with ⟨_, e⟩ | ⟨a, u, hok⟩
    · rw [e]
      exact h
    · rw [place_bid_of_ok hok]
      exact auctionRefs_modifyFirst h _ _ (fun _ => ⟨rfl, rfl⟩)
  | buy_now aid uid =>
    simp only [step]
    rcases buy_now_cases s aid uid with ⟨_, e⟩ | ⟨a, c, u, hok⟩
    · rw [e]
      exact h
    · rw [buy_now_of_ok hok]
      exact auctionRefs_modifyFirst h _ _ (fun _ => ⟨rfl, rfl⟩)
  | timer =>
    intro a ha
    simp only [step, auction_timer] at ha
    obtain ⟨x, hx, rfl⟩ := List.mem_map.1 ha
    have := h x hx
    split
    · split
      · exact this
      · exact this
    · exact this
  | query => exact h

theorem ReachableBy.refInv {P : Op → Prop} {s : State} (h : ReachableBy P s) : RefInv s := by
  induction h with
  | init =>
    refine ⟨sessionUsers_init _, ?_⟩
    intro a ha
    simp [initState, emptyStore] at ha
  | step now op s hs _ ih =>
    have hlen : (s.data.users.length : Int) ≤
        ((AuctionServer.step now op s).data.users.length : Int) := by
      have := step_users_length now op s
      omega
    exact ⟨sessionUsers_mono (step_sessionUsers now op s hs.userIds ih.sess) hlen,
      auctionRefs_mono (step_auctionRefs now op s ih.sess hs.roomIds ih.refs) hlen⟩

/-- In a reachable state the seller of every auction has a user record. -/
theorem ReachableBy.seller_stored {P : Op → Prop} {s : State} (h : ReachableBy P s)
    {a : Auction} (ha : a ∈ s.data.auctions) :
    ∃ seller, find_user_by_id s.data.users a.seller_id = some seller := by
  have hr := h.refInv.refs a ha
  unfold find_user_by_id
  rw [dense_find User.user_id h.userIds a.seller_id, if_pos ⟨hr.1, hr.2.1⟩]
  have hlt : (a.seller_id - 1).toNat < s.data.users.length := by omega
  exact ⟨_, List.getElem?_eq_getElem hlt⟩

/-- In a reachable state every auction has a room id that the bidder's room,
taken as 0 without a live session, can only equal through a live session. -/
theorem ReachableBy.room_of_session {P : Op → Prop} {s : State} (h : ReachableBy P s)
    {a : Auction} (ha : a ∈ s.data.auctions) (user_id : Int) :
    user_room_id s.clients user_id = a.room_id ↔
      ∃ c, find_client_by_user_id s.clients user_id = some c ∧
        c.current_room_id = a.room_id := by
  have hr := (h.refInv.refs a ha).2.2
  unfold user_room_id
  cases hc : find_client_by_user_id s.clients user_id with
  | none =>
    simp only
    constructor
    · intro h0
      omega
    · rintro ⟨c, hc1, _⟩
      exact Option.noConfusion hc1
  | some c =>
    simp only
    constructor
    · intro h0
      exact ⟨c, rfl, h0⟩
    · rintro ⟨c1, hc1, h1⟩
      rw [← Option.some.inj hc1] at h1
      exact h1

/-- With one live session per user, the search for a user's session returns any
live session of that user found in the table. -/
theorem find_client_of_live {clients : List ClientSession} (h : SessionsUnique clients)
    {c : ClientSession} (hc : c ∈ clients) (ha : c.is_active = true) :
    find_client_by_user_id clients c.user_id = some c := by
  unfold find_client_by_user_id
  unfold SessionsUnique at h
  induction clients with
  | nil => simp at hc
  | cons x xs ih =>
    rw [List.pairwise_cons] at h
    by_cases hx : (x.is_active && decide (x.user_id = c.user_id)) = true
    · rw [List.find?_cons, hx]
      rcases List.mem_cons.1 hc with e | hmem
      · rw [e]
      · simp only [Bool.and_eq_true, decide_eq_true_eq] at hx
        exact absurd ⟨hx.1, ha, hx.2⟩ (h.1 c hmem)
    · have hx1 : (x.is_active && decide (x.user_id = c.user_id)) = false :=
        Bool.eq_false_iff.2 hx
      rw [List.find?_cons, hx1]
      rcases List.mem_cons.1 hc with e | hmem
      · rw [e] at ha hx1
        simp [ha] at hx1
      · exact ih h.2 hmem

section ModifyFirstUnique
variable {α : Type} (p : α → Bool) (f : α → α)

/-- Where at most one element satisfies `p`, the write lands on it. -/
theorem getElem?_modifyFirst_unique {l : List α}
    (hpw : l.Pairwise (fun x y => ¬ (p x = true ∧ p y = true))) {i : Nat} {x : α}
    (hi : l[i]? = some x) (hp : p x = true) : (modifyFirst p f l)[i]? = some (f x) := by
  induction l generalizing i with
  | nil => simp at hi
  | cons y ys ih =>
    rw [List.pairwise_cons] at hpw
    by_cases hy : p y = true
    · have e : modifyFirst p f (y :: ys) = f y :: ys := by simp [modifyFirst, hy]
      rw [e]
      cases i with
      | zero =>
        simp only [List.getElem?_cons_zero, Option.some.injEq] at hi ⊢
        rw [hi]
      | succ j =>
        simp only [List.getElem?_cons_succ] at hi
        exact absurd ⟨hy, hp⟩ (hpw.1 x (List.mem_iff_getElem?.2 ⟨j, hi⟩))
    · have e : modifyFirst p f (y :: ys) = y :: modifyFirst p f ys := by
        simp [modifyFirst, hy]
      rw [e]
      cases i with
      | zero =>
        simp only [List.getElem?_cons_zero, Option.some.injEq] at hi
        rw [hi] at hy
        exact absurd hp hy
      | succ j =>
        simp only [List.getElem?_cons_succ] at hi ⊢
        exact ih hpw.2 hi

end ModifyFirstUnique

/-- With dense auction ids, the search for the id of a stored auction returns it. -/
theorem find_auction_of_mem {auctions : List Auction} {bids : List Bid}
    (hinv : StoreInv auctions bids) {a : Auction} (ha : a ∈ auctions) :
    find_auction_by_id auctions a.auction_id = some a := by
  unfold find_auction_by_id
  cases hf : auctions.find? (fun x => decide (x.auction_id = a.auction_id)) with
  | none =>
    have := List.find?_eq_none.1 hf a ha
    simp at this
  | some a0 =>
    have hid : a0.auction_id = a.auction_id := by
      have := List.find?_some hf
      simpa using this
    rw [hinv.unique (List.mem_of_find?_eq_some hf) ha hid]

/-- A successful `buy_now` on the auction stored at position `i` writes the
buy-now price, the winner and "ended" into that record. -/
theorem buy_now_auction_at {s : State} (hinv : StoreInv s.data.auctions s.data.bids)
    {i : Nat} {a : Auction} (hi : s.data.auctions[i]? = some a) {uid : Int}
    (hok : (buy_now s a.auction_id uid).1 = 0) :
    (buy_now s a.auction_id uid).2.data.auctions[i]? =
      some { a with winner_id := uid, current_price := a.buy_now_price, status := "ended" } := by
  have hmem : a ∈ s.data.auctions := List.mem_iff_getElem?.2 ⟨i, hi⟩
  obtain ⟨c, u, hbuy⟩ := buy_now_accepted (find_auction_of_mem hinv hmem) hok
  rw [buy_now_of_ok hbuy]
  exact getElem?_modifyFirst_unique _ _ (hinv.pairwise a.auction_id) hi (by simp)

theorem map_modifyFirst {α β : Type} (g : α → β) (p : α → Bool) (f : α → α)
    (p1 : β → Bool) (f1 : β → β) (hp : ∀ x, p1 (g x) = p x) (hf : ∀ x, f1 (g x) = g (f x))
    (l : List α) : (modifyFirst p f l).map g = modifyFirst p1 f1 (l.map g) := by
  induction l with
  | nil => rfl
  | cons x xs ih =>
    by_cases hx : p x = true
    · have hx1 : p1 (g x) = true := by rw [hp, hx]
      simp [modifyFirst, hx, hx1, hf]
    · have hx1 : ¬ p1 (g x) = true := by rw [hp]; exact hx
      simp [modifyFirst, hx, hx1, ih]

theorem dbl_find_auction_by_id (l : List Auction) (aid : Int) :
    Dbl.find_auction_by_id (l.map Dbl.ofAuction) aid =
      (find_auction_by_id l aid).map Dbl.ofAuction := by
  unfold Dbl.find_auction_by_id find_auction_by_id
  rw [List.find?_map]
  rfl

theorem dbl_find_user_by_id (l : List User) (uid : Int) :
    Dbl.find_user_by_id (l.map Dbl.ofUser) uid = (find_user_by_id l uid).map Dbl.ofUser := by
  unfold Dbl.find_user_by_id find_user_by_id
  rw [List.find?_map]
  rfl

/-- On amounts that are numbers the two forms of `place_bid` agree. -/
theorem dbl_place_bid_of_num (s : State) (now auction_id user_id x : Int) :
    Dbl.place_bid (Dbl.ofState s) now auction_id user_id (.num x) =
      ((place_bid s now auction_id user_id x).1,
        Dbl.ofState (place_bid s now auction_id user_id x).2) := by
  unfold Dbl.place_bid place_bid
  simp only [Dbl.ofState, Dbl.ofStore]
  rw [dbl_find_auction_by_id, dbl_find_user_by_id]
  cases find_auction_by_id s.data.auctions auction_id with
  | none => rfl
  | some a =>
    simp only [Option.map_some']
    by_cases h1 : a.status ≠ "active"
    · simp [Dbl.ofAuction, h1, Dbl.ofState, Dbl.ofStore]
    by_cases h2 : user_room_id s.clients user_id ≠ a.room_id
    · simp [Dbl.ofAuction, h1, h2, Dbl.ofState, Dbl.ofStore]
    by_cases h3 : a.end_time < now
    · simp [Dbl.ofAuction, h1, h2, h3, Dbl.ofState, Dbl.ofStore]
    by_cases h4 : x < a.current_price + a.min_bid_increment
    · simp [Dbl.ofAuction, h1, h2, h3, h4, Dbl.ofState, Dbl.ofStore, Double.lt, Double.add]
    by_cases h5 : a.seller_id = user_id
    · simp [Dbl.ofAuction, h1, h2, h3, h4, h5, Dbl.ofState, Dbl.ofStore, Double.lt,
        Double.add]
    cases find_user_by_id s.data.users user_id with
    | none =>
      simp [Dbl.ofAuction, h1, h2, h3, h4, h5, Dbl.ofState, Dbl.ofStore, Double.lt,
        Double.add]
    | some u =>
      by_cases h6 : u.balance < x
      · simp [Dbl.ofAuction, Dbl.ofUser, h1, h2, h3, h4, h5, h6, Dbl.ofState, Dbl.ofStore,
          Double.lt, Double.add]
      by_cases h7 : MAX_BIDS ≤ s.data.bids.length
      · simp [Dbl.ofAuction, Dbl.ofUser, h1, h2, h3, h4, h5, h6, h7, Dbl.ofState,
          Dbl.ofStore, Double.lt, Double.add]
      · simp only [Dbl.ofAuction, Dbl.ofUser, Double.lt, Double.add, Option.map_some',
          if_neg h1, if_neg h2, if_neg h3, if_neg h5, if_neg h7, decide_eq_true_eq,
          if_neg h4, if_neg h6]
        rw [List.length_map, if_neg h7]
        have e := map_modifyFirst Dbl.ofAuction
          (fun a : Auction => decide (a.auction_id = auction_id))
          (fun a1 : Auction => { a1 with
            current_price := x,
            total_bids := a1.total_bids + 1,
            winner_id := user_id,
            end_time :=
              if a.end_time - now < 30 ∧ 0 < a.end_time - now then now + 30 else a1.end_time })
          (fun a : Dbl.Auction => decide (a.auction_id = auction_id))
          (fun a1 : Dbl.Auction => { a1 with
            current_price := .num x,
            total_bids := a1.total_bids + 1,
            winner_id := user_id,
            end_time :=
              if a.end_time - now < 30 ∧ 0 < a.end_time - now then now + 30 else a1.end_time })
          (fun _ => rfl) (fun _ => rfl) s.data.auctions
        unfold Dbl.save_all_data save_all_data
        simp only [List.map_append, List.map_cons, List.map_nil, Dbl.ofBid, e]


theorem double_lt_nan_left (d : Double) : Double.lt .nan d = false := by
  cases d <;> rfl

theorem double_lt_nan_right (d : Double) : Double.lt d .nan = false := by
  cases d <;> rfl

/-- A not-a-number bid passes both amount checks of `place_bid`: it is accepted
exactly when the checks that do not look at the amount pass. -/
theorem dbl_place_bid_nan (s : Dbl.State) (now auction_id user_id : Int) :
    0 < (Dbl.place_bid s now auction_id user_id .nan).1 ↔
      ∃ a u, Dbl.find_auction_by_id s.data.auctions auction_id = some a ∧
        a.status = "active" ∧ user_room_id s.clients user_id = a.room_id ∧
        now ≤ a.end_time ∧ user_id ≠ a.seller_id ∧
        Dbl.find_user_by_id s.data.users user_id = some u ∧
        s.data.bids.length < 5000 := by
  unfold Dbl.place_bid
  cases ha : Dbl.find_auction_by_id s.data.auctions auction_id with
  | none => simp
  | some a =>
    simp only [double_lt_nan_left, double_lt_nan_right]
    by_cases h1 : a.status ≠ "active"
    · simp [h1]
    by_cases h2 : user_room_id s.clients user_id ≠ a.room_id
    · simp [h1, h2]
    by_cases h3 : a.end_time < now
    · simp [h1, h2, h3]
    by_cases h5 : a.seller_id = user_id
    · simp [h1, h2, h3, h5]
    cases hu : Dbl.find_user_by_id s.data.users user_id with
    | none => simp [h1, h2, h3, h5]
    | some u =>
      by_cases h7 : MAX_BIDS ≤ s.data.bids.length
      · have : ¬ s.data.bids.length < 5000 := by
          simp only [MAX_BIDS] at h7
          omega
        simp [h1, h2, h3, h5, h7, this]
      · have h8 : s.data.bids.length < 5000 := by
          simp only [MAX_BIDS] at h7
          omega
        have h9 : (0 : Int) < (s.data.bids.length : Int) + 1 := by omega
        have h10 : ¬ user_id = a.seller_id := fun e => h5 e.symm
        simp only [ne_eq, not_not] at h1 h2
        simp [h1, h2, h3, h5, h7, h8, h9, h10, not_lt.1 h3]

/-! ## Bidding -/

/-- In any state whatever, `place_bid` returns a positive bid id exactly when an
auction with that id is found, it is "active" and `now ≤ end_time`, the amount is
at least `current_price + min_bid_increment`, the bidder is not the seller, the
bidder is a stored user with `balance ≥ amount`, fewer than 5000 bids are stored,
and the room `place_bid` takes the bidder to be in equals the auction's `room_id`. -/
theorem place_bid_accepts_iff_room (s : State) (now auction_id user_id bid_amount : Int) :
    0 < (place_bid s now auction_id user_id bid_amount).1 ↔
      ∃ a u, find_auction_by_id s.data.auctions auction_id = some a ∧
        a.status = "active" ∧ now ≤ a.end_time ∧
        a.current_price + a.min_bid_increment ≤ bid_amount ∧
        user_id ≠ a.seller_id ∧
        find_user_by_id s.data.users user_id = some u ∧ bid_amount ≤ u.balance ∧
        user_room_id s.clients user_id = a.room_id ∧
        s.data.bids.length < 5000 := by
  constructor
  · intro h
    rcases place_bid_cases s now auction_id user_id bid_amount with ⟨hneg, _⟩ | ⟨a, u, hok⟩
    · omega
    · exact ⟨a, u, hok⟩
  · rintro ⟨a, u, hok⟩
    rw [place_bid_of_ok hok]
    simp only
    omega

/-- C1: in every reachable state, `place_bid` returns a positive bid id exactly when
an auction with that id is found, it is "active" and `now ≤ end_time`, the amount is
at least `current_price + min_bid_increment`, the bidder is not the seller, the
bidder is a stored user with `balance ≥ amount`, a live session of the bidder has
`current_room_id` equal to the auction's `room_id`, and fewer than 5000 bids are
stored. -/
theorem place_bid_accepts_iff (s : State) (hreach : Reachable s)
    (now auction_id user_id bid_amount : Int) :
    0 < (place_bid s now auction_id user_id bid_amount).1 ↔
      ∃ a u, find_auction_by_id s.data.auctions auction_id = some a ∧
        a.status = "active" ∧ now ≤ a.end_time ∧
        a.current_price + a.min_bid_increment ≤ bid_amount ∧
        user_id ≠ a.seller_id ∧
        find_user_by_id s.data.users user_id = some u ∧ bid_amount ≤ u.balance ∧
        (∃ c ∈ s.clients, c.is_active = true ∧ c.user_id = user_id ∧
          c.current_room_id = a.room_id) ∧
        s.data.bids.length < 5000 := by
  rw [place_bid_accepts_iff_room]
  have hroom : ∀ a, find_auction_by_id s.data.auctions auction_id = some a →
      (user_room_id s.clients user_id = a.room_id ↔
        ∃ c ∈ s.clients, c.is_active = true ∧ c.user_id = user_id ∧
          c.current_room_id = a.room_id) := by
    intro a ha
    have hmem : a ∈ s.data.auctions := by
      unfold find_auction_by_id at ha
      exact List.mem_of_find?_eq_some ha
    rw [ReachableBy.room_of_session hreach hmem user_id]
    constructor
    · rintro ⟨c, hc, hcr⟩
      have hp := List.find?_some hc
      simp only [Bool.and_eq_true, decide_eq_true_eq] at hp
      exact ⟨c, List.mem_of_find?_eq_some hc, hp.1, hp.2, hcr⟩
    · rintro ⟨c, hc, hact, hid, hcr⟩
      refine ⟨c, ?_, hcr⟩
      rw [← hid]
      exact find_client_of_live (ReachableBy.sessionsUnique hreach) hc hact
  constructor
  · rintro ⟨a, u, h1, h2, h3, h4, h5, h6, h7, h8, h9⟩
    exact ⟨a, u, h1, h2, h3, h4, h5, h6, h7, (hroom a h1).1 h8, h9⟩
  · rintro ⟨a, u, h1, h2, h3, h4, h5, h6, h7, h8, h9⟩
    exact ⟨a, u, h1, h2, h3, h4, h5, h6, h7, (hroom a h1).2 h8, h9⟩

/-- C1 at a concrete input: in `demoState` the bid of 110 by user 2 on auction 1 at
time 1 is accepted, so all the conditions hold, with the session of user 2 in room 1. -/
theorem place_bid_accepts_iff_witness :
    Reachable demoState ∧
      ∃ a u, find_auction_by_id demoState.data.auctions 1 = some a ∧
        a.status = "active" ∧ 1 ≤ a.end_time ∧
        a.current_price + a.min_bid_increment ≤ 110 ∧
        2 ≠ a.seller_id ∧
        find_user_by_id demoState.data.users 2 = some u ∧ 110 ≤ u.balance ∧
        (∃ c ∈ demoState.clients, c.is_active = true ∧ c.user_id = 2 ∧
          c.current_room_id = a.room_id) ∧
        demoState.data.bids.length < 5000 :=
  ⟨ReachableBy.run demoEvents ReachableBy.init (fun _ _ => trivial),
    (place_bid_accepts_iff demoState
      (ReachableBy.run demoEvents ReachableBy.init (fun _ _ => trivial)) 1 1 2 110).1
      (by decide)⟩

/-- For amounts that are exact numbers: an accepted `place_bid` returns the previous
bid count plus one, appends exactly the record (that id, auction_id, user_id, amount,
now) leaving every earlier bid in place, and the auction then has
`current_price = amount`, `winner_id = uid`, `total_bids` one higher, where
`amount ≥ previous current_price + min_bid_increment`. -/
theorem place_bid_accepted_effect (s : State) (now auction_id user_id bid_amount : Int)
    (a : Auction) (ha : find_auction_by_id s.data.auctions auction_id = some a)
    (hacc : 0 < (place_bid s now auction_id user_id bid_amount).1) :
    (place_bid s now auction_id user_id bid_amount).1 = (s.data.bids.length : Int) + 1 ∧
      (place_bid s now auction_id user_id bid_amount).2.data.bids =
        s.data.bids ++ [{ bid_id := (s.data.bids.length : Int) + 1, auction_id := auction_id,
                          user_id := user_id, bid_amount := bid_amount, bid_time := now }] ∧
      (∀ (i : Nat) (b : Bid), s.data.bids[i]? = some b →
        (place_bid s now auction_id user_id bid_amount).2.data.bids[i]? = some b) ∧
      (∃ a', find_auction_by_id
            (place_bid s now auction_id user_id bid_amount).2.data.auctions auction_id = some a' ∧
          a'.current_price = bid_amount ∧ a'.winner_id = user_id ∧
          a'.total_bids = a.total_bids + 1) ∧
      a.current_price + a.min_bid_increment ≤ bid_amount := by
  obtain ⟨u, hok⟩ := place_bid_accepted ha hacc
  rw [place_bid_of_ok hok]
  refine ⟨rfl, rfl, ?_, ?_, hok.2.2.2.1⟩
  · intro i b hb
    show (s.data.bids ++ _)[i]? = some b
    have hlt : i < s.data.bids.length := by
      by_contra hge
      rw [List.getElem?_eq_none (by omega)] at hb
      exact Option.noConfusion hb
    rw [List.getElem?_append_left hlt]
    exact hb
  · rw [find_auction_bidAccepted, ha]
    exact ⟨_, rfl, rfl, rfl, rfl⟩

/-- The same at a concrete input: the bid of 110 by user 2 on auction 1 of
`demoState`. -/
theorem place_bid_accepted_effect_witness :
    find_auction_by_id demoState.data.auctions 1 =
        some demoAuction ∧
      0 < (place_bid demoState 1 1 2 110).1 ∧
      (place_bid demoState 1 1 2 110).1 = (demoState.data.bids.length : Int) + 1 ∧
      (place_bid demoState 1 1 2 110).2.data.bids =
        demoState.data.bids ++
          [{ bid_id := (demoState.data.bids.length : Int) + 1, auction_id := 1, user_id := 2,
             bid_amount := 110, bid_time := 1 }] ∧
      (∀ (i : Nat) (b : Bid), demoState.data.bids[i]? = some b →
        (place_bid demoState 1 1 2 110).2.data.bids[i]? = some b) ∧
      (∃ a', find_auction_by_id (place_bid demoState 1 1 2 110).2.data.auctions 1 = some a' ∧
          a'.current_price = 110 ∧ a'.winner_id = 2 ∧ a'.total_bids = 0 + 1) ∧
      (100 : Int) + 10 ≤ 110 :=
  ⟨by decide, by decide, place_bid_accepted_effect demoState 1 1 2 110 demoAuction (by decide) (by decide)⟩

/-- C2 at the failing input: in `demoState`, with amounts read as `double`, the
request `PLACE_BID|1|2|nan` at time 1 is accepted with bid id 1; auction 1, whose
price was 100 with increment 10, then has a not-a-number as `current_price`, user 2
as winner and one bid, although `100 + 10 <= nan` is false. -/
theorem nan_bid_is_accepted :
    (Dbl.find_auction_by_id (Dbl.ofState demoState).data.auctions 1).map
        (fun a => (a.current_price, a.min_bid_increment)) = some (.num 100, .num 10) ∧
      (Dbl.place_bid (Dbl.ofState demoState) 1 1 2 .nan).1 = 1 ∧
      (Dbl.place_bid (Dbl.ofState demoState) 1 1 2 .nan).2.data.bids.map
        (fun b => (b.bid_id, b.auction_id, b.user_id, b.bid_amount)) = [(1, 1, 2, .nan)] ∧
      (Dbl.find_auction_by_id
          (Dbl.place_bid (Dbl.ofState demoState) 1 1 2 .nan).2.data.auctions 1).map
        (fun a => (a.current_price, a.winner_id, a.total_bids)) = some (.nan, 2, 1) ∧
      Double.le (Double.add (.num 100) (.num 10)) .nan = false := by
  decide

/-- C3: for a bid accepted at time `now` on an auction whose end time was `E`, the
end time afterwards is `now + 30` if `0 < E - now < 30`, and `E` otherwise. -/
theorem place_bid_anti_snipe (s : State) (now auction_id user_id bid_amount : Int)
    (a : Auction) (ha : find_auction_by_id s.data.auctions auction_id = some a)
    (hacc : 0 < (place_bid s now auction_id user_id bid_amount).1) :
    ∃ a', find_auction_by_id
          (place_bid s now auction_id user_id bid_amount).2.data.auctions auction_id = some a' ∧
      a'.end_time =
        if 0 < a.end_time - now ∧ a.end_time - now < 30 then now + 30 else a.end_time :=
  place_bid_end_time ha hacc

/-- C3 at a concrete input: a bid at time 55 on auction 1 of `demoState`, which
ends at 60, moves the end to 85. -/
theorem place_bid_anti_snipe_witness :
    find_auction_by_id demoState.data.auctions 1 =
        some demoAuction ∧
      0 < (place_bid demoState 55 1 2 110).1 ∧
      ∃ a', find_auction_by_id (place_bid demoState 55 1 2 110).2.data.auctions 1 = some a' ∧
        a'.end_time = if 0 < (60 : Int) - 55 ∧ (60 : Int) - 55 < 30 then 55 + 30 else 60 :=
  ⟨by decide, by decide, place_bid_anti_snipe demoState 55 1 2 110 demoAuction (by decide) (by decide)⟩

/-- C4 (as the code has it): a bid accepted at time `t` with `E - 30 < t < E`, `E`
being the end time before the bid, leaves the auction with end time `t + 30`. -/
theorem place_bid_late_bid_extends (s : State) (t auction_id user_id bid_amount : Int)
    (a : Auction) (ha : find_auction_by_id s.data.auctions auction_id = some a)
    (hacc : 0 < (place_bid s t auction_id user_id bid_amount).1)
    (hlate : a.end_time - 30 < t) (hbefore : t < a.end_time) :
    ∃ a', find_auction_by_id
          (place_bid s t auction_id user_id bid_amount).2.data.auctions auction_id = some a' ∧
      a'.end_time = t + 30 := by
  obtain ⟨a', h1, h2⟩ := place_bid_end_time ha hacc
  refine ⟨a', h1, ?_⟩
  rw [h2, if_pos (by constructor <;> omega)]

/-- C4 at a concrete input: the bid at time 55 on the auction ending at 60. -/
theorem place_bid_late_bid_extends_witness :
    find_auction_by_id demoState.data.auctions 1 =
        some demoAuction ∧
      0 < (place_bid demoState 55 1 2 110).1 ∧ (60 : Int) - 30 < 55 ∧ (55 : Int) < 60 ∧
      ∃ a', find_auction_by_id (place_bid demoState 55 1 2 110).2.data.auctions 1 = some a' ∧
        a'.end_time = 55 + 30 :=
  ⟨by decide, by decide, by decide, by decide,
    place_bid_late_bid_extends demoState 55 1 2 110 demoAuction (by decide) (by decide) (by decide)
      (by decide)⟩

/-- C4 fails as stated: auction 1 of `demoState` ends at 60; a bid at `t = 60` is
accepted and `t > 60 - 30`, yet the end time stays 60 instead of becoming 90. -/
theorem place_bid_at_end_time_not_extended :
    (find_auction_by_id demoState.data.auctions 1).map (fun a => a.end_time) = some 60 ∧
      0 < (place_bid demoState 60 1 2 110).1 ∧ (60 : Int) > 60 - 30 ∧
      (find_auction_by_id (place_bid demoState 60 1 2 110).2.data.auctions 1).map
        (fun a => a.end_time) = some 60 ∧
      (60 : Int) ≠ 60 + 30 := by
  decide

/-! ## Buy-now -/

/-- C5 at the failing input: in `demoState` user 1 is the seller of auction 1, is
logged in, is in the auction's room and has the balance; `buy_now 1 1` returns 0,
ends the auction with the seller as winner and leaves the seller's balance as it was. -/
theorem buy_now_by_seller_succeeds :
    (find_auction_by_id demoState.data.auctions 1).map (fun a => a.seller_id) = some 1 ∧
      (buy_now demoState 1 1).1 = 0 ∧
      (find_auction_by_id (buy_now demoState 1 1).2.data.auctions 1).map
        (fun a => (a.status, a.winner_id, a.current_price)) = some ("ended", 1, 500) ∧
      (find_user_by_id demoState.data.users 1).map (fun u => u.balance) = some 1000000 ∧
      (find_user_by_id (buy_now demoState 1 1).2.data.users 1).map (fun u => u.balance) =
        some 1000000 := by
  decide

/-- In any state whatever, after a successful `buy_now` with price
`p = buy_now_price`, the buyer not being the seller and `seller` being the record
found under the seller's id: the buyer's balance is lower by `p` and not negative,
the seller's is higher by `p`, every other user record is unchanged, the sum of all
balances is the same, and the auction has `current_price = p`, `winner_id = uid`,
status "ended". -/
theorem buy_now_settles_with_seller (s : State) (auction_id user_id : Int) (a : Auction)
    (u seller : User)
    (ha : find_auction_by_id s.data.auctions auction_id = some a)
    (hu : find_user_by_id s.data.users user_id = some u)
    (hsel : find_user_by_id s.data.users a.seller_id = some seller)
    (hne : user_id ≠ a.seller_id)
    (hok : (buy_now s auction_id user_id).1 = 0) :
    find_user_by_id (buy_now s auction_id user_id).2.data.users user_id =
        some { u with balance := u.balance - a.buy_now_price } ∧
      0 ≤ u.balance - a.buy_now_price ∧
      find_user_by_id (buy_now s auction_id user_id).2.data.users a.seller_id =
        some { seller with balance := seller.balance + a.buy_now_price } ∧
      (buy_now s auction_id user_id).2.data.users.length = s.data.users.length ∧
      (∀ (i : Nat) (x : User), s.data.users[i]? = some x → x.user_id ≠ user_id →
        x.user_id ≠ a.seller_id → (buy_now s auction_id user_id).2.data.users[i]? = some x) ∧
      ((buy_now s auction_id user_id).2.data.users.map (fun x => x.balance)).sum =
        (s.data.users.map (fun x => x.balance)).sum ∧
      ∃ a', find_auction_by_id (buy_now s auction_id user_id).2.data.auctions auction_id =
            some a' ∧
        a'.current_price = a.buy_now_price ∧ a'.winner_id = user_id ∧ a'.status = "ended" := by
  obtain ⟨c, u', hbuy⟩ := buy_now_accepted ha hok
  have hu' : u' = u := by
    have h := hbuy.2.2.2.2.2.1
    rw [hu] at h
    exact (Option.some.inj h).symm
  subst hu'
  have hbal : a.buy_now_price ≤ u'.balance := hbuy.2.2.2.2.2.2
  rw [buy_now_of_ok hbuy]
  have husers : (buyAccepted s auction_id user_id a).data.users =
      buyUsers s.data.users user_id a := rfl
  -- the seller's record as found after the debit
  have hsel1 : find_user_by_id (modifyFirst (fun x => decide (x.user_id = user_id))
      (fun x => { x with balance := x.balance - a.buy_now_price }) s.data.users) a.seller_id =
      some seller := by
    rw [← hsel]
    unfold find_user_by_id
    apply find?_modifyFirst_disjoint
    · intro x hx
      simp at hx ⊢
      omega
    · intro x hx
      simp at hx ⊢
      omega
  have hu1 : find_user_by_id (modifyFirst (fun x => decide (x.user_id = user_id))
      (fun x => { x with balance := x.balance - a.buy_now_price }) s.data.users) user_id =
      some { u' with balance := u'.balance - a.buy_now_price } := by
    unfold find_user_by_id at hu ⊢
    rw [find?_modifyFirst_self _ _ (fun x hx => by simpa using hx), hu]
    rfl
  simp only [husers, buyUsers_of_seller hne hsel]
  refine ⟨?_, by omega, ?_, by simp, ?_, ?_, ?_⟩
  · rw [← hu1]
    unfold find_user_by_id
    apply find?_modifyFirst_disjoint
    · intro x hx
      simp at hx ⊢
      omega
    · intro x hx
      simp at hx ⊢
      omega
  · unfold find_user_by_id at hsel1 ⊢
    rw [find?_modifyFirst_self _ _ (fun x hx => by simpa using hx), hsel1]
    rfl
  · intro i x hx h1 h2
    apply getElem?_modifyFirst_of_not
    · apply getElem?_modifyFirst_of_not _ _ hx
      simpa using h1
    · simpa using h2
  · unfold find_user_by_id at hsel1 hu
    rw [sum_map_modifyFirst _ _ _ hsel1, sum_map_modifyFirst _ _ _ hu]
    simp only
    omega
  · rw [find_auction_buyAccepted, ha]
    exact ⟨_, rfl, rfl, rfl, rfl⟩

/-- C6: in every reachable state, after a successful `buy_now` on auction `a` with
price `p = buy_now_price` by a buyer who is not the seller, the buyer and the seller
both have a user record, the buyer's balance is lower by `p` and not negative, the
seller's is higher by `p`, every other user record is unchanged, the sum of all
balances is the same, and the auction has `current_price = p`, `winner_id = uid`,
status "ended". -/
theorem buy_now_settlement (s : State) (hreach : Reachable s) (auction_id user_id : Int)
    (a : Auction) (ha : find_auction_by_id s.data.auctions auction_id = some a)
    (hne : user_id ≠ a.seller_id) (hok : (buy_now s auction_id user_id).1 = 0) :
    ∃ u seller, find_user_by_id s.data.users user_id = some u ∧
      find_user_by_id s.data.users a.seller_id = some seller ∧
      find_user_by_id (buy_now s auction_id user_id).2.data.users user_id =
        some { u with balance := u.balance - a.buy_now_price } ∧
      0 ≤ u.balance - a.buy_now_price ∧
      find_user_by_id (buy_now s auction_id user_id).2.data.users a.seller_id =
        some { seller with balance := seller.balance + a.buy_now_price } ∧
      (buy_now s auction_id user_id).2.data.users.length = s.data.users.length ∧
      (∀ (i : Nat) (x : User), s.data.users[i]? = some x → x.user_id ≠ user_id →
        x.user_id ≠ a.seller_id → (buy_now s auction_id user_id).2.data.users[i]? = some x) ∧
      ((buy_now s auction_id user_id).2.data.users.map (fun x => x.balance)).sum =
        (s.data.users.map (fun x => x.balance)).sum ∧
      ∃ a', find_auction_by_id (buy_now s auction_id user_id).2.data.auctions auction_id =
            some a' ∧
        a'.current_price = a.buy_now_price ∧ a'.winner_id = user_id ∧ a'.status = "ended" := by
  obtain ⟨c, u, hbuy⟩ := buy_now_accepted ha hok
  have hmem : a ∈ s.data.auctions := by
    unfold find_auction_by_id at ha
    exact List.mem_of_find?_eq_some ha
  obtain ⟨seller, hsel⟩ := ReachableBy.seller_stored hreach hmem
  exact ⟨u, seller, hbuy.2.2.2.2.2.1, hsel,
    buy_now_settles_with_seller s auction_id user_id a u seller ha hbuy.2.2.2.2.2.1 hsel hne hok⟩

/-- C6 at a concrete input: user 2 buys auction 1 of `demoState` from user 1 for 500. -/
theorem buy_now_settlement_witness :
    Reachable demoState ∧
      find_auction_by_id demoState.data.auctions 1 = some demoAuction ∧
      (2 : Int) ≠ demoAuction.seller_id ∧
      (buy_now demoState 1 2).1 = 0 ∧
      ∃ u seller, find_user_by_id demoState.data.users 2 = some u ∧
        find_user_by_id demoState.data.users demoAuction.seller_id = some seller ∧
        find_user_by_id (buy_now demoState 1 2).2.data.users 2 =
          some { u with balance := u.balance - demoAuction.buy_now_price } ∧
        0 ≤ u.balance - demoAuction.buy_now_price ∧
        find_user_by_id (buy_now demoState 1 2).2.data.users demoAuction.seller_id =
          some { seller with balance := seller.balance + demoAuction.buy_now_price } ∧
        (buy_now demoState 1 2).2.data.users.length = demoState.data.users.length ∧
        (∀ (i : Nat) (x : User), demoState.data.users[i]? = some x → x.user_id ≠ 2 →
          x.user_id ≠ demoAuction.seller_id →
          (buy_now demoState 1 2).2.data.users[i]? = some x) ∧
        ((buy_now demoState 1 2).2.data.users.map (fun x => x.balance)).sum =
          (demoState.data.users.map (fun x => x.balance)).sum ∧
        ∃ a', find_auction_by_id (buy_now demoState 1 2).2.data.auctions 1 = some a' ∧
          a'.current_price = demoAuction.buy_now_price ∧ a'.winner_id = 2 ∧
          a'.status = "ended" :=
  ⟨ReachableBy.run demoEvents ReachableBy.init (fun _ _ => trivial), by decide, by decide,
    by decide,
    buy_now_settlement demoState
      (ReachableBy.run demoEvents ReachableBy.init (fun _ _ => trivial)) 1 2 demoAuction
      (by decide) (by decide) (by decide)⟩

/-! ## Invariants of the auction table -/

/-- C7 (as the code has it, amounts being exact numbers): for an auction with
`min_bid_increment > 0` stored in a reachable state, `current_price ≥ start_price`
unless it is "ended" with `current_price = buy_now_price`; a successful `buy_now`
on it sets `current_price` to `buy_now_price`; and every other request or timer
tick, a rejected `buy_now` included, leaves `current_price` at least what it was. -/
theorem current_price_after_step (s : State) (hreach : Reachable s) (now : Int) (op : Op)
    (i : Nat) (a : Auction) (hi : s.data.auctions[i]? = some a)
    (hpos : 0 < a.min_bid_increment) :
    (a.start_price ≤ a.current_price ∨
        (a.status = "ended" ∧ a.current_price = a.buy_now_price)) ∧
      ∃ a', (step now op s).data.auctions[i]? = some a' ∧
        (∀ uid, op = .buy_now a.auction_id uid → (buy_now s a.auction_id uid).1 = 0 →
          a'.current_price = a.buy_now_price) ∧
        ((∀ uid, op = .buy_now a.auction_id uid → (buy_now s a.auction_id uid).1 ≠ 0) →
          a.current_price ≤ a'.current_price) := by
  have hmem : a ∈ s.data.auctions := List.mem_iff_getElem?.2 ⟨i, hi⟩
  have hinv := ReachableBy.storeInv hreach
  refine ⟨(hinv.each a hmem).floor hpos, ?_⟩
  rcases step_auction_at s now op i a hi with h1 | ⟨aid, uid, amt, u, hop, hok, h1⟩ |
    ⟨aid, uid, c, u, hop, hok, h1⟩ | ⟨hop, _, _, h1⟩
  · refine ⟨a, h1, ?_, fun _ => le_refl _⟩
    intro uid hop hsucc
    have h2 := buy_now_auction_at hinv hi hsucc
    rw [hop] at h1
    simp only [step] at h1
    rw [h2] at h1
    have h3 := congrArg Auction.current_price (Option.some.inj h1)
    exact h3.symm
  · refine ⟨_, h1, ?_, ?_⟩
    · intro uid1 hop1
      rw [hop] at hop1
      cases hop1
    · intro _
      have := hok.2.2.2.1
      show a.current_price ≤ amt
      omega
  · refine ⟨_, h1, fun _ _ _ => rfl, ?_⟩
    intro hno
    have hid : a.auction_id = aid := by
      have := List.find?_some hok.1
      simpa using this
    exact absurd (by rw [hid, buy_now_of_ok hok]) (hno uid (by rw [hop, hid]))
  · refine ⟨_, h1, ?_, fun _ => le_refl _⟩
    intro uid1 hop1
    rw [hop] at hop1
    cases hop1

/-- C7 at concrete inputs: the bid of 110 at time 1 on auction 1 of `demoState`
raises its price from 100 to 110, and `BUY_NOW|1|2` sets it to 500. -/
theorem current_price_after_step_witness :
    Reachable demoState ∧ demoState.data.auctions[0]? = some demoAuction ∧
      0 < demoAuction.min_bid_increment ∧
      (∃ a', (step 1 (.place_bid 1 2 110) demoState).data.auctions[0]? = some a' ∧
        demoAuction.current_price ≤ a'.current_price) ∧
      (∃ a', (step 1 (.buy_now 1 2) demoState).data.auctions[0]? = some a' ∧
        a'.current_price = demoAuction.buy_now_price) :=
  ⟨ReachableBy.run demoEvents ReachableBy.init (fun _ _ => trivial), by decide, by decide,
    (current_price_after_step demoState
      (ReachableBy.run demoEvents ReachableBy.init (fun _ _ => trivial)) 1 (.place_bid 1 2 110) 0
      demoAuction (by decide) (by decide)).2.imp
      (fun _ h => ⟨h.1, h.2.2 (fun uid hop => by cases hop)⟩),
    (current_price_after_step demoState
      (ReachableBy.run demoEvents ReachableBy.init (fun _ _ => trivial)) 1 (.buy_now 1 2) 0
      demoAuction (by decide) (by decide)).2.imp
      (fun _ h => ⟨h.1, h.2.1 2 rfl (by decide)⟩)⟩

/-- C7 fails as stated: `cheapState` is reached with every auction created with a
positive increment; its auction 1 has start price 100 and current price 100, and
`buy_now 1 2` brings the current price down to 50, below the start price. -/
theorem buy_now_lowers_current_price :
    ReachableBy PositiveIncrement (step 1 (.buy_now 1 2) cheapState) ∧
      cheapState.data.auctions.map (fun a => (a.min_bid_increment, a.current_price)) =
        [(10, 100)] ∧
      (step 1 (.buy_now 1 2) cheapState).data.auctions.map
        (fun a => (a.start_price, a.current_price)) = [(100, 50)] :=
  ⟨ReachableBy.step 1 (.buy_now 1 2) cheapState
      (ReachableBy.run cheapEvents ReachableBy.init (by decide)) trivial,
    by decide, by decide⟩

/-- For amounts that are exact numbers: in a state reached with every auction
created with a positive increment, an "active" auction with `total_bids > 0` has a
recorded bid of highest amount, the bidder of any highest bid on it is its
`winner_id`, and no two recorded bids on it have the same amount. -/
theorem winner_is_highest_bidder (s : State) (hreach : ReachableBy PositiveIncrement s)
    (a : Auction) (ha : a ∈ s.data.auctions) (hact : a.status = "active")
    (hbids : 0 < a.total_bids) :
    (∃ b ∈ bidsOn s a.auction_id, b.user_id = a.winner_id ∧
        ∀ b' ∈ bidsOn s a.auction_id, b'.bid_amount ≤ b.bid_amount) ∧
      (∀ b ∈ bidsOn s a.auction_id,
        (∀ b' ∈ bidsOn s a.auction_id, b'.bid_amount ≤ b.bid_amount) →
          b.user_id = a.winner_id) ∧
      (bidsOn s a.auction_id).Pairwise (fun x y => x.bid_amount ≠ y.bid_amount) := by
  have hpos : 0 < a.min_bid_increment := hreach.increments a ha
  have hinv := hreach.storeInv.each a ha
  unfold bidsOn
  have hne : bidsOf s.data.bids a.auction_id ≠ [] := by
    intro hnil
    have := hinv.total
    rw [hnil] at this
    simp at this
    omega
  obtain ⟨l, hl⟩ : ∃ l, (bidsOf s.data.bids a.auction_id).getLast? = some l := by
    cases h : (bidsOf s.data.bids a.auction_id).getLast? with
    | none => exact absurd (List.getLast?_eq_none_iff.1 h) hne
    | some l => exact ⟨l, rfl⟩
  have hlmem := List.mem_of_getLast?_eq_some hl
  have hwin : a.winner_id = l.user_id := hinv.winner hact l hl
  have hprice : a.current_price = l.bid_amount := by
    rcases hinv.price with h | h
    · rw [h]
      unfold latestPrice
      rw [hl]
    · rw [hact] at h
      exact absurd h.1 active_ne_ended
  have htop := hinv.top hpos hact
  have hsorted := hinv.sorted hpos
  refine ⟨⟨l, hlmem, hwin.symm, fun b' hb' => by rw [← hprice]; exact htop b' hb'⟩, ?_, ?_⟩
  · intro b hb hmax
    have h1 : l.bid_amount ≤ b.bid_amount := hmax l hlmem
    have h2 : b.bid_amount ≤ l.bid_amount := by rw [← hprice]; exact htop b hb
    have hbl : b = l := by
      obtain ⟨i, hi, rfl⟩ := List.mem_iff_getElem.1 hb
      obtain ⟨j, hj, rfl⟩ := List.mem_iff_getElem.1 hlmem
      rw [List.pairwise_iff_getElem] at hsorted
      rcases Nat.lt_trichotomy i j with hij | hij | hij
      · have := hsorted i j hi hj hij
        omega
      · subst hij
        rfl
      · have := hsorted j i hj hi hij
        omega
    rw [hbl, hwin]
  · exact hsorted.imp (fun h => ne_of_lt h)

/-- The same at a concrete input: auction 1 of `bidState`, with bids 110 and 150 by
user 2. -/
theorem winner_is_highest_bidder_witness :
    ReachableBy PositiveIncrement bidState ∧ bidAuction ∈ bidState.data.auctions ∧
      bidAuction.status = "active" ∧ 0 < bidAuction.total_bids ∧
      (∃ b ∈ bidsOn bidState bidAuction.auction_id, b.user_id = bidAuction.winner_id ∧
        ∀ b' ∈ bidsOn bidState bidAuction.auction_id, b'.bid_amount ≤ b.bid_amount) ∧
      (∀ b ∈ bidsOn bidState bidAuction.auction_id,
        (∀ b' ∈ bidsOn bidState bidAuction.auction_id, b'.bid_amount ≤ b.bid_amount) →
          b.user_id = bidAuction.winner_id) ∧
      (bidsOn bidState bidAuction.auction_id).Pairwise
        (fun x y => x.bid_amount ≠ y.bid_amount) :=
  ⟨ReachableBy.run bidEvents ReachableBy.init (by decide), by decide, by decide, by decide,
    winner_is_highest_bidder bidState (ReachableBy.run bidEvents ReachableBy.init (by decide))
      bidAuction (by decide) (by decide) (by decide)⟩

/-- C8 at the failing input: in `trioState`, with amounts read as `double`, user 2
bids 110 and then a not-a-number on auction 1 (increment 10), both accepted; after
that the bid of 1 by user 3 is accepted and makes user 3 the winner of the active
auction, below the recorded bid of 110 by user 2; and a bid of 110 by user 3 would
be accepted too, a second recorded bid of the same amount. -/
theorem nan_bid_lets_lower_bid_win :
    (Dbl.place_bid (Dbl.ofState trioState) 1 1 2 (.num 110)).1 = 1 ∧
      (Dbl.place_bid (Dbl.place_bid (Dbl.ofState trioState) 1 1 2 (.num 110)).2
        2 1 2 .nan).1 = 2 ∧
      (Dbl.place_bid nanState 3 1 3 (.num 1)).1 = 3 ∧
      (Dbl.place_bid nanState 3 1 3 (.num 1)).2.data.bids.map
        (fun b => (b.auction_id, b.user_id, b.bid_amount)) =
        [(1, 2, .num 110), (1, 2, .nan), (1, 3, .num 1)] ∧
      (Dbl.place_bid nanState 3 1 3 (.num 1)).2.data.auctions.map
        (fun a => (a.min_bid_increment, a.status, a.total_bids, a.winner_id,
          a.current_price)) = [(.num 10, "active", 3, 3, .num 1)] ∧
      (Dbl.place_bid nanState 3 1 3 (.num 110)).1 = 3 ∧
      (Dbl.place_bid nanState 3 1 3 (.num 110)).2.data.bids.map
        (fun b => (b.auction_id, b.user_id, b.bid_amount)) =
        [(1, 2, .num 110), (1, 2, .nan), (1, 3, .num 110)] := by
  decide

/-- C9 (as the code has it): in every reachable state, each auction's
`current_price` is the amount of the most recently recorded bid on it, or its
`start_price` when no bid on it is recorded, unless the auction is "ended" with
`current_price = buy_now_price`. -/
theorem current_price_latest_bid_or_buy_now (s : State) (hreach : Reachable s)
    (a : Auction) (ha : a ∈ s.data.auctions) :
    a.current_price = latestPrice s.data.bids a ∨
      (a.status = "ended" ∧ a.current_price = a.buy_now_price) :=
  ((ReachableBy.storeInv hreach).each a ha).price

/-- C9 at a concrete input: auction 1 of `bidState`, whose latest bid is 150. -/
theorem current_price_latest_bid_or_buy_now_witness :
    Reachable bidState ∧ bidAuction ∈ bidState.data.auctions ∧
      (bidAuction.current_price = latestPrice bidState.data.bids bidAuction ∨
        (bidAuction.status = "ended" ∧ bidAuction.current_price = bidAuction.buy_now_price)) :=
  ⟨ReachableBy.run bidEvents ReachableBy.init (fun _ _ => trivial), by decide,
    current_price_latest_bid_or_buy_now bidState
      (ReachableBy.run bidEvents ReachableBy.init (fun _ _ => trivial)) bidAuction (by decide)⟩

/-- C9 fails as stated: `soldState` is reachable, no bid is recorded in it, and its
auction 1 has start price 100 but current price 500, written by `buy_now`. -/
theorem buy_now_price_is_no_bid :
    Reachable soldState ∧ soldState.data.bids = [] ∧
      soldState.data.auctions.map
        (fun a => (a.start_price, a.current_price, latestPrice soldState.data.bids a)) =
        [(100, 500, 100)] :=
  ⟨ReachableBy.run soldEvents ReachableBy.init (fun _ _ => trivial), by decide, by decide⟩

/-- C10: an auction record whose status is "ended" is left exactly as it is by every
request and by the timer (so its status, current_price, winner_id, end_time and
total_bids stay), and `place_bid` and `buy_now` on it are rejected without a write. -/
theorem ended_auction_is_final (s : State) (now : Int) (op : Op) (i : Nat) (a : Auction)
    (hi : s.data.auctions[i]? = some a) (hended : a.status = "ended") :
    (step now op s).data.auctions[i]? = some a ∧
      (∀ aid uid amt, find_auction_by_id s.data.auctions aid = some a →
        place_bid s now aid uid amt = (-2, s)) ∧
      (∀ aid uid, find_auction_by_id s.data.auctions aid = some a →
        buy_now s aid uid = (-1, s)) := by
  have hna : a.status ≠ "active" := by rw [hended]; exact ended_ne_active
  refine ⟨?_, ?_, ?_⟩
  · rcases step_auction_at s now op i a hi with h1 | ⟨_, _, _, _, _, hok, _⟩ |
      ⟨_, _, _, _, _, hok, _⟩ | ⟨_, hact, _, _⟩
    · exact h1
    · exact absurd hok.2.1 hna
    · exact absurd hok.2.1 hna
    · exact absurd hact hna
  · intro aid uid amt hfind
    simp [place_bid, hfind, hna]
  · intro aid uid hfind
    simp [buy_now, hfind, hna]

/-- C10 at a concrete input: a bid of 600 by user 2 at time 2 on the auction that
`soldState` holds as ended. -/
theorem ended_auction_is_final_witness :
    soldState.data.auctions[0]? = some soldAuction ∧ soldAuction.status = "ended" ∧
      (step 2 (.place_bid 1 2 600) soldState).data.auctions[0]? = some soldAuction ∧
      (∀ aid uid amt, find_auction_by_id soldState.data.auctions aid = some soldAuction →
        place_bid soldState 2 aid uid amt = (-2, soldState)) ∧
      (∀ aid uid, find_auction_by_id soldState.data.auctions aid = some soldAuction →
        buy_now soldState aid uid = (-1, soldState)) :=
  ⟨by decide, by decide,
    ended_auction_is_final soldState 2 (.place_bid 1 2 600) 0 soldAuction (by decide)
      (by decide)⟩

/-! ## Sessions and room membership -/

/-- C12 at the failing input: in `demoState` users 1 and 2 are in room 1, which
counts 2 participants; after the connection of user 2 (socket 5) is dropped the
room still counts 2, while one live session is left in it. -/
theorem disconnect_keeps_room_count :
    Reachable (step 1 (.disconnect 5) demoState) ∧
      demoState.data.rooms.map (fun r => (r.room_id, r.current_participants)) = [(1, 2)] ∧
      participantsOf demoState.clients 1 = 2 ∧
      (step 1 (.disconnect 5) demoState).data.rooms.map
        (fun r => (r.room_id, r.current_participants)) = [(1, 2)] ∧
      participantsOf (step 1 (.disconnect 5) demoState).clients 1 = 1 :=
  ⟨ReachableBy.step 1 (.disconnect 5) demoState
      (ReachableBy.run demoEvents ReachableBy.init (fun _ _ => trivial)) trivial,
    by decide, by decide, by decide, by decide⟩

/-- C13 at the failing input: the session on socket 5 of `demoState` is live and in
room 1 (2 participants); `remove_client 5` makes it inactive but room 1 keeps its
2 participants; a second `remove_client 5` changes nothing. -/
theorem remove_client_keeps_participants :
    demoState.clients[1]? = some demoSessionBob ∧
      find_room_by_id demoState.data.rooms 1 = some demoRoom ∧
      (remove_client demoState 5).clients[1]? =
        some { demoSessionBob with is_active := false } ∧
      find_room_by_id (remove_client demoState 5).data.rooms 1 = some demoRoom ∧
      demoRoom.current_participants = 2 ∧
      remove_client (remove_client demoState 5) 5 = remove_client demoState 5 := by
  decide

/-! ## Registration -/

/-- C16 (as the code has it): `register_user` returns -1 ("Username already
exists") when a stored user has the given name; otherwise -2 ("Database full") when
1000 or more users are stored; otherwise it returns `n + 1` and appends one record
with that id, the first 49 characters of the name, balance 1000000 and status
"active", leaving the stored records in place; a name of at most 49 characters is
stored whole. -/
theorem register_user_result (s : State) (now : Int) (username password email : String) :
    ((∃ u ∈ s.data.users, u.username = username) →
        register_user s now username password email = (-1, s) ∧
        handle_register_response (register_user s now username password email).1 username =
          .fail "Username already exists") ∧
      ((¬ ∃ u ∈ s.data.users, u.username = username) → 1000 ≤ s.data.users.length →
        register_user s now username password email = (-2, s) ∧
        handle_register_response (register_user s now username password email).1 username =
          .fail "Database full") ∧
      ((¬ ∃ u ∈ s.data.users, u.username = username) → s.data.users.length < 1000 →
        (register_user s now username password email).1 = (s.data.users.length : Int) + 1 ∧
        (register_user s now username password email).2.data.users =
          s.data.users ++
            [{ user_id := (s.data.users.length : Int) + 1, username := strncpy 49 username,
               password := strncpy 255 password, email := strncpy 99 email, role := "user",
               balance := 1000000, status := "active", created_at := now }] ∧
        handle_register_response (register_user s now username password email).1 username =
          .success ((s.data.users.length : Int) + 1) username) ∧
      (username.length ≤ 49 → strncpy 49 username = username) := by
  refine ⟨?_, ?_, ?_, ?_⟩
  · rintro ⟨u, hu, hname⟩
    have hsome : (find_user_by_username s.data.users username).isSome = true := by
      unfold find_user_by_username
      rw [List.find?_isSome]
      exact ⟨u, hu, by simpa using hname⟩
    cases hfind : find_user_by_username s.data.users username with
    | none => rw [hfind] at hsome; exact absurd hsome (by decide)
    | some v =>
      have h : register_user s now username password email = (-1, s) := by
        simp [register_user, hfind]
      rw [h]
      exact ⟨rfl, by simp [handle_register_response]⟩
  · intro hno hfull
    have hfind : find_user_by_username s.data.users username = none := by
      unfold find_user_by_username
      rw [List.find?_eq_none]
      intro x hx hxn
      exact hno ⟨x, hx, by simpa using hxn⟩
    have hfull1 : MAX_USERS ≤ s.data.users.length := by simp [MAX_USERS]; omega
    have h : register_user s now username password email = (-2, s) := by
      simp [register_user, hfind, hfull1]
    rw [h]
    exact ⟨rfl, by simp [handle_register_response]⟩
  · intro hno hroom
    have hfind : find_user_by_username s.data.users username = none := by
      unfold find_user_by_username
      rw [List.find?_eq_none]
      intro x hx hxn
      exact hno ⟨x, hx, by simpa using hxn⟩
    have hroom1 : ¬ MAX_USERS ≤ s.data.users.length := by simp [MAX_USERS]; omega
    have h : register_user s now username password email =
        ((s.data.users.length : Int) + 1,
          save_all_data { s with data := { s.data with users := s.data.users ++
            [{ user_id := (s.data.users.length : Int) + 1, username := strncpy 49 username,
               password := strncpy 255 password, email := strncpy 99 email, role := "user",
               balance := 1000000, status := "active", created_at := now }] } }) := by
      simp [register_user, hfind, hroom1]
    rw [h]
    refine ⟨rfl, rfl, ?_⟩
    have hpos : 0 < (s.data.users.length : Int) + 1 := by omega
    simp [handle_register_response, hpos]
  · intro hlen
    unfold strncpy
    have : username.data.length ≤ 49 := hlen
    rw [List.take_of_length_le this]

/-- C16 fails as stated: registering the 50-character `longName` on the empty store
returns 1, but the stored username is its 49-character beginning, not the name. -/
theorem register_user_truncates_name :
    longName.length = 50 ∧ (register_user initState 0 longName "pw" "a@x").1 = 1 ∧
      (register_user initState 0 longName "pw" "a@x").2.data.users.map
        (fun u => u.username) = [longNameStored] ∧
      longNameStored ≠ longName := by
  decide

/-- C17 at the failing input: `register_user` is called twice with the
50-character `longName` from the empty store; both calls succeed (ids 1 and 2)
and both records carry the same stored username. -/
theorem register_user_twice_same_stored_name :
    (register_user initState 0 longName "pw" "a@x").1 = 1 ∧
      (register_user (register_user initState 0 longName "pw" "a@x").2 1 longName "pw2"
        "b@x").1 = 2 ∧
      (register_user (register_user initState 0 longName "pw" "a@x").2 1 longName "pw2"
        "b@x").2.data.users.map (fun u => (u.user_id, u.username)) =
        [(1, longNameStored), (2, longNameStored)] := by
  decide

/-! ## Timer -/

/-- C20 (as the code has it): a timer sweep leaves the user table, hence every
balance, exactly as it was, also when it ends an auction that has a winner; and
`place_bid` never changes the user table either. -/
theorem timer_and_bids_keep_balances (s : State) (now : Int) :
    (auction_timer s now).data.users = s.data.users ∧
      ∀ auction_id user_id bid_amount,
        (place_bid s now auction_id user_id bid_amount).2.data.users = s.data.users := by
  refine ⟨rfl, ?_⟩
  intro aid uid amt
  rcases place_bid_cases s now aid uid amt with ⟨_, e⟩ | ⟨a, u, hok⟩
  · rw [e]
  · rw [place_bid_of_ok hok]
    rfl

/-- C20 fails as stated: in `bidState` auction 1 is active with winner 2, seller 1
and price 150; the sweep at time 100 ends it, and the balances of users 1 and 2
are 1000000 before and after. -/
theorem timer_ends_auction_without_payment :
    bidState.data.auctions = [bidAuction] ∧
      (auction_timer bidState 100).data.auctions = [{ bidAuction with status := "ended" }] ∧
      bidState.data.users.map (fun u => (u.user_id, u.balance)) =
        [(1, 1000000), (2, 1000000)] ∧
      (auction_timer bidState 100).data.users.map (fun u => (u.user_id, u.balance)) =
        [(1, 1000000), (2, 1000000)] := by
  decide

/-- C14: for a user with a live session `c`, `join_room` returns -1 when the room is
not found, else -2 when its status is "ended", else -3 when
`current_participants ≥ max_participants`, else -4 when the session holds another
room (`current_room_id > 0` and different from `room_id`), each time without a
write; otherwise it returns 0, the room has one participant more and status
"active" if it was "waiting" (its status as before otherwise), and the session's
`current_room_id` is `room_id`. -/
theorem join_room_result (s : State) (user_id room_id : Int) (c : ClientSession)
    (hc : find_client_by_user_id s.clients user_id = some c) :
    (find_room_by_id s.data.rooms room_id = none → join_room s user_id room_id = (-1, s)) ∧
      (∀ room, find_room_by_id s.data.rooms room_id = some room → room.status = "ended" →
        join_room s user_id room_id = (-2, s)) ∧
      (∀ room, find_room_by_id s.data.rooms room_id = some room → room.status ≠ "ended" →
        room.max_participants ≤ room.current_participants →
        join_room s user_id room_id = (-3, s)) ∧
      (∀ room, find_room_by_id s.data.rooms room_id = some room → room.status ≠ "ended" →
        room.current_participants < room.max_participants →
        0 < c.current_room_id → c.current_room_id ≠ room_id →
        join_room s user_id room_id = (-4, s)) ∧
      (∀ room, find_room_by_id s.data.rooms room_id = some room → room.status ≠ "ended" →
        room.current_participants < room.max_participants →
        ¬ (0 < c.current_room_id ∧ c.current_room_id ≠ room_id) →
        (join_room s user_id room_id).1 = 0 ∧
        find_room_by_id (join_room s user_id room_id).2.data.rooms room_id =
          some { room with
            current_participants := room.current_participants + 1,
            status := if room.status = "waiting" then "active" else room.status } ∧
        find_client_by_user_id (join_room s user_id room_id).2.clients user_id =
          some { c with current_room_id := room_id }) := by
  refine ⟨?_, ?_, ?_, ?_, ?_⟩
  · intro hr
    simp [join_room, hr]
  · intro room hr hended
    simp [join_room, hr, hended]
  · intro room hr hne hfull
    simp [join_room, hr, hne, hfull]
  · intro room hr hne hcap h1 h2
    have hcap1 : ¬ room.max_participants ≤ room.current_participants := by omega
    simp [join_room, hr, hne, hcap1, hc, h1, h2]
  · intro room hr hne hcap hfree
    exact join_room_done hr hne hcap hc hfree

/-- C14 at a concrete input: user 2, logged in and in no room, joins room 1 of
`openState`. -/
theorem join_room_result_witness :
    find_client_by_user_id openState.clients 2 = some openSessionBob ∧
      find_room_by_id openState.data.rooms 1 = some openRoom ∧
      (join_room openState 2 1).1 = 0 ∧
      find_room_by_id (join_room openState 2 1).2.data.rooms 1 =
        some { openRoom with current_participants := 2 } ∧
      find_client_by_user_id (join_room openState 2 1).2.clients 2 =
        some { openSessionBob with current_room_id := 1 } :=
  ⟨by decide, by decide,
    (join_room_result openState 2 1 openSessionBob (by decide)).2.2.2.2 openRoom (by decide)
      (by decide) (by decide) (by decide)⟩

/-- C11: in every state reached from the start state by handling requests one
after the other (logins with the forced logout of a prior session, disconnects and
all other commands), two different slots of the session table that are both live
never carry the same `user_id`. -/
theorem one_session_per_user (s : State) (hreach : Reachable s) (i j : Nat)
    (c d : ClientSession) (hi : s.clients[i]? = some c) (hj : s.clients[j]? = some d)
    (hij : i ≠ j) (hc : c.is_active = true) (hd : d.is_active = true) :
    c.user_id ≠ d.user_id := by
  have h := ReachableBy.sessionsUnique hreach
  unfold SessionsUnique at h
  rw [List.pairwise_iff_getElem] at h
  have hilt : i < s.clients.length := by
    by_contra hge
    rw [List.getElem?_eq_none (by omega)] at hi
    exact Option.noConfusion hi
  have hjlt : j < s.clients.length := by
    by_contra hge
    rw [List.getElem?_eq_none (by omega)] at hj
    exact Option.noConfusion hj
  rw [List.getElem?_eq_getElem hilt] at hi
  rw [List.getElem?_eq_getElem hjlt] at hj
  have hci := Option.some.inj hi
  have hdj := Option.some.inj hj
  intro heq
  rcases Nat.lt_or_gt_of_ne hij with hlt | hgt
  · apply h i j hilt hjlt hlt
    rw [hci, hdj]
    exact ⟨hc, hd, heq⟩
  · apply h j i hjlt hilt hgt
    rw [hci, hdj]
    exact ⟨hd, hc, heq.symm⟩

/-- C11 at a concrete input: the two live sessions of `demoState`. -/
theorem one_session_per_user_witness :
    Reachable demoState ∧ demoState.clients[0]? = some demoSessionAlice ∧
      demoState.clients[1]? = some demoSessionBob ∧ (0 : Nat) ≠ 1 ∧
      demoSessionAlice.is_active = true ∧ demoSessionBob.is_active = true ∧
      demoSessionAlice.user_id ≠ demoSessionBob.user_id :=
  ⟨ReachableBy.run demoEvents ReachableBy.init (fun _ _ => trivial), by decide, by decide,
    by decide, by decide, by decide,
    one_session_per_user demoState
      (ReachableBy.run demoEvents ReachableBy.init (fun _ _ => trivial)) 0 1 demoSessionAlice
      demoSessionBob (by decide) (by decide) (by decide) (by decide) (by decide)⟩

/-! ## Bid history -/

set_option maxRecDepth 200000 in
/-- C22 at the failing input: in `historyState` one bid is recorded on auction 1 and
twenty later ones on auction 2; user 2 is in the room of auction 1, and
`BID_HISTORY|1|2` returns no record at all instead of the one bid on auction 1. -/
theorem bid_history_misses_older_bid :
    historyState.data.bids.length = 21 ∧ (bidsOn historyState 1).length = 1 ∧
      handle_bid_history historyState 1 2 = .history [] := by
  decide

/-! ## Snapshot -/

/-- C23: let `s` hold a store within the capacities (1000 users, 100 rooms, 1000
auctions, 5000 bids) and let `t` be a server on the files that `save_all_data`
wrote in `s`, whatever `t` holds in memory; then `init_data_storage` in `t` reads
the four record sequences of `s` into memory, and hence the same four counts. -/
theorem snapshot_round_trip (s t : State) (hu : s.data.users.length ≤ 1000)
    (hr : s.data.rooms.length ≤ 100) (ha : s.data.auctions.length ≤ 1000)
    (hb : s.data.bids.length ≤ 5000) (hfiles : t.disk = (save_all_data s).disk) :
    (init_data_storage t).data = s.data ∧
      (init_data_storage t).data.users.length = s.data.users.length ∧
      (init_data_storage t).data.rooms.length = s.data.rooms.length ∧
      (init_data_storage t).data.auctions.length = s.data.auctions.length ∧
      (init_data_storage t).data.bids.length = s.data.bids.length := by
  have h : (init_data_storage t).data = s.data := by
    unfold init_data_storage
    simp only
    rw [hfiles]
    unfold save_all_data
    simp only
    rw [List.take_of_length_le (by simpa [MAX_USERS] using hu),
      List.take_of_length_le (by simpa [MAX_ROOMS] using hr),
      List.take_of_length_le (by simpa [MAX_AUCTIONS] using ha),
      List.take_of_length_le (by simpa [MAX_BIDS] using hb)]
  rw [h]
  exact ⟨rfl, rfl, rfl, rfl, rfl⟩

/-- C23 at a concrete input: `restartState` has nothing in memory and the files
that `bidState` saved (2 users, 1 room, 1 auction, 2 bids); the load brings the
store of `bidState` back. -/
theorem snapshot_round_trip_witness :
    bidState.data.users.length ≤ 1000 ∧ bidState.data.rooms.length ≤ 100 ∧
      bidState.data.auctions.length ≤ 1000 ∧ bidState.data.bids.length ≤ 5000 ∧
      restartState.disk = (save_all_data bidState).disk ∧
      restartState.data = emptyStore ∧
      (init_data_storage restartState).data = bidState.data ∧
      (init_data_storage restartState).data.users.length = bidState.data.users.length ∧
      (init_data_storage restartState).data.rooms.length = bidState.data.rooms.length ∧
      (init_data_storage restartState).data.auctions.length =
        bidState.data.auctions.length ∧
      (init_data_storage restartState).data.bids.length = bidState.data.bids.length :=
  ⟨by decide, by decide, by decide, by decide, rfl, rfl,
    snapshot_round_trip bidState restartState (by decide) (by decide) (by decide) (by decide)
      rfl⟩

/-- C24 at the failing input: in `bidState` the files equal the store; the sweep at
time 100 ends auction 1 in the store, and the files still hold it as "active". -/
theorem timer_sweep_is_not_saved :
    bidState.disk = bidState.data ∧
      (auction_timer bidState 100).data.auctions.map (fun a => (a.auction_id, a.status)) =
        [(1, "ended")] ∧
      (auction_timer bidState 100).disk.auctions.map (fun a => (a.auction_id, a.status)) =
        [(1, "active")] ∧
      (auction_timer bidState 100).disk ≠ (auction_timer bidState 100).data := by
  decide

/-! ## Failure atomicity -/

/-- C29: whenever `register_user`, `create_room`, `join_room`, `leave_room`,
`create_auction`, `place_bid` or `buy_now` returns a negative code, the state after
the call (the four collections, the session table, the files) is the state before. -/
theorem negative_result_writes_nothing (s : State) (now : Int) :
    (∀ u p e, (register_user s now u p e).1 < 0 → (register_user s now u p e).2 = s) ∧
      (∀ c n d m dur, (create_room s now c n d m dur).1 < 0 →
        (create_room s now c n d m dur).2 = s) ∧
      (∀ u r, (join_room s u r).1 < 0 → (join_room s u r).2 = s) ∧
      (∀ u, (leave_room s u).1 < 0 → (leave_room s u).2 = s) ∧
      (∀ sid rid t d sp bp mi dur, (create_auction s now sid rid t d sp bp mi dur).1 < 0 →
        (create_auction s now sid rid t d sp bp mi dur).2 = s) ∧
      (∀ aid uid amt, (place_bid s now aid uid amt).1 < 0 →
        (place_bid s now aid uid amt).2 = s) ∧
      (∀ aid uid, (buy_now s aid uid).1 < 0 → (buy_now s aid uid).2 = s) := by
  refine ⟨?_, ?_, ?_, ?_, ?_, ?_, ?_⟩
  · intro u p e hneg
    rcases register_user_cases s now u p e with ⟨_, h⟩ | ⟨hpos, _⟩
    · exact h
    · omega
  · intro c n d m dur hneg
    rcases create_room_cases s now c n d m dur with ⟨_, h⟩ | h
    · exact h
    · rw [h] at hneg
      have : ¬ ((s.data.rooms.length : Int) + 1 < 0) := by omega
      exact absurd hneg this
  · intro u r hneg
    rcases join_room_cases s u r with ⟨_, h⟩ | ⟨h0, _⟩
    · exact h
    · omega
  · intro u hneg
    rcases leave_room_cases s u with ⟨_, h⟩ | ⟨h0, _⟩
    · exact h
    · omega
  · intro sid rid t d sp bp mi dur hneg
    rcases create_auction_cases s now sid rid t d sp bp mi dur with ⟨_, h⟩ | ⟨hpos, _⟩
    · exact h
    · omega
  · intro aid uid amt hneg
    rcases place_bid_cases s now aid uid amt with ⟨_, h⟩ | ⟨a, u, hok⟩
    · exact h
    · rw [place_bid_of_ok hok] at hneg
      have : ¬ ((s.data.bids.length : Int) + 1 < 0) := by omega
      exact absurd hneg this
  · intro aid uid hneg
    rcases buy_now_cases s aid uid with ⟨_, h⟩ | ⟨a, c, u, hok⟩
    · exact h
    · rw [buy_now_of_ok hok] at hneg
      exact absurd hneg (by simp)

/-- C29 at concrete inputs on `demoState`: a second `REGISTER` of "alice", a second
room named "Vintage", a join of the missing room 9, a leave by user 3 who has no
session, an auction put up by user 2 in room 9, a bid of 105 (below 100 + 10) and a
purchase of the missing auction 7 are all refused and leave the state as it was. -/
theorem negative_result_writes_nothing_witness :
    ((register_user demoState 5 "alice" "x" "y").1 < 0 ∧
        (register_user demoState 5 "alice" "x" "y").2 = demoState) ∧
      ((create_room demoState 5 2 "Vintage" "Again" 5 60).1 < 0 ∧
        (create_room demoState 5 2 "Vintage" "Again" 5 60).2 = demoState) ∧
      ((join_room demoState 2 9).1 < 0 ∧ (join_room demoState 2 9).2 = demoState) ∧
      ((leave_room demoState 3).1 < 0 ∧ (leave_room demoState 3).2 = demoState) ∧
      ((create_auction demoState 5 2 9 "Clock" "Wall clock" 100 0 10 1).1 < 0 ∧
        (create_auction demoState 5 2 9 "Clock" "Wall clock" 100 0 10 1).2 = demoState) ∧
      ((place_bid demoState 5 1 2 105).1 < 0 ∧
        (place_bid demoState 5 1 2 105).2 = demoState) ∧
      ((buy_now demoState 7 2).1 < 0 ∧ (buy_now demoState 7 2).2 = demoState) :=
  have h := negative_result_writes_nothing demoState 5
  ⟨⟨by decide, h.1 "alice" "x" "y" (by decide)⟩,
    ⟨by decide, h.2.1 2 "Vintage" "Again" 5 60 (by decide)⟩,
    ⟨by decide, h.2.2.1 2 9 (by decide)⟩,
    ⟨by decide, h.2.2.2.1 3 (by decide)⟩,
    ⟨by decide, h.2.2.2.2.1 2 9 "Clock" "Wall clock" 100 0 10 1 (by decide)⟩,
    ⟨by decide, h.2.2.2.2.2.1 1 2 105 (by decide)⟩,
    ⟨by decide, h.2.2.2.2.2.2 7 2 (by decide)⟩⟩

/-! ## Bid counters -/

/-- C30: in every reachable state, the `total_bids` of each auction is the number
of recorded bids carrying that auction's id. -/
theorem total_bids_counts_bids (s : State) (hreach : Reachable s) (a : Auction)
    (ha : a ∈ s.data.auctions) :
    a.total_bids =
      ((s.data.bids.filter (fun b => decide (b.auction_id = a.auction_id))).length : Int) :=
  ((ReachableBy.storeInv hreach).each a ha).total

/-- C30 at a concrete input: auction 1 of `bidState`, with 2 bids. -/
theorem total_bids_counts_bids_witness :
    Reachable bidState ∧ bidAuction ∈ bidState.data.auctions ∧
      bidAuction.total_bids =
        ((bidState.data.bids.filter
          (fun b => decide (b.auction_id = bidAuction.auction_id))).length : Int) :=
  ⟨ReachableBy.run bidEvents ReachableBy.init (fun _ _ => trivial), by decide,
    total_bids_counts_bids bidState
      (ReachableBy.run bidEvents ReachableBy.init (fun _ _ => trivial)) bidAuction (by decide)⟩

/-! ## Bid notifications -/

/-- C25 (as the code has it): for an accepted `PLACE_BID`, with `a1` the auction
after the bid and `r = a1.end_time - now2` the time left when the handler reads the
clock, the handler broadcasts to the auction's room, excluding the requesting
socket, `NEW_BID_WARNING` carrying `r` when `0 < r < 30` and `NEW_BID` otherwise;
the message is sent to exactly the live sessions in that room on other sockets. -/
theorem place_bid_notification (s : State) (now now2 client_socket auction_id user_id : Int)
    (bid_amount : Int) (a1 : Auction)
    (hacc : 0 < (place_bid s now auction_id user_id bid_amount).1)
    (ha1 : find_auction_by_id (place_bid s now auction_id user_id bid_amount).2.data.auctions
      auction_id = some a1) :
    ∃ msg,
      (handle_place_bid s now now2 client_socket auction_id user_id bid_amount).broadcast =
          some { room_id := a1.room_id, exclude_socket := client_socket, message := msg } ∧
        (0 < a1.end_time - now2 → a1.end_time - now2 < 30 →
          msg = .new_bid_warning auction_id (bidder_name s.data.users user_id) bid_amount
            a1.total_bids (a1.end_time - now2)) ∧
        (30 ≤ a1.end_time - now2 →
          msg = .new_bid auction_id (bidder_name s.data.users user_id) bid_amount
            a1.total_bids) ∧
        (a1.end_time - now2 ≤ 0 →
          msg = .new_bid auction_id (bidder_name s.data.users user_id) bid_amount
            a1.total_bids) ∧
        (∀ c, c ∈ broadcast_recipients
              (handle_place_bid s now now2 client_socket auction_id user_id
                bid_amount).state.clients a1.room_id client_socket ↔
            c ∈ s.clients ∧ c.is_active = true ∧ c.current_room_id = a1.room_id ∧
              c.socket ≠ client_socket) := by
  have hout : handle_place_bid s now now2 client_socket auction_id user_id bid_amount =
      { state := (place_bid s now auction_id user_id bid_amount).2,
        response := .success auction_id bid_amount a1.total_bids (a1.end_time - now2),
        broadcast := some
          { room_id := a1.room_id,
            exclude_socket := client_socket,
            message :=
              if a1.end_time - now2 < 30 ∧ 0 < a1.end_time - now2 then
                .new_bid_warning auction_id
                  (bidder_name (place_bid s now auction_id user_id bid_amount).2.data.users
                    user_id)
                  bid_amount a1.total_bids (a1.end_time - now2)
              else
                .new_bid auction_id
                  (bidder_name (place_bid s now auction_id user_id bid_amount).2.data.users
                    user_id)
                  bid_amount a1.total_bids } } := by
    unfold handle_place_bid
    simp only
    rw [if_pos hacc]
    simp only [ha1]
  have husers : (place_bid s now auction_id user_id bid_amount).2.data.users = s.data.users :=
    place_bid_users s now auction_id user_id bid_amount
  rw [hout, husers]
  refine ⟨_, rfl, ?_, ?_, ?_, ?_⟩
  · intro h1 h2
    rw [if_pos ⟨h2, h1⟩]
  · intro h
    rw [if_neg (by omega)]
  · intro h
    rw [if_neg (by omega)]
  · intro c
    simp only [place_bid_clients]
    unfold broadcast_recipients
    simp [List.mem_filter, and_assoc]

/-- C25 at a concrete input: user 2 bids 110 on socket 5 at time 55 on auction 1 of
`demoState` (end 60, moved to 85) and the handler reads the clock at 56, so 29
seconds are left and `NEW_BID_WARNING` goes to the session of user 1. -/
theorem place_bid_notification_witness :
    0 < (place_bid demoState 55 1 2 110).1 ∧
      (handle_place_bid demoState 55 56 5 1 2 110).broadcast =
        some { room_id := 1, exclude_socket := 5,
               message := .new_bid_warning 1 "bob" 110 1 29 } ∧
      broadcast_recipients (handle_place_bid demoState 55 56 5 1 2 110).state.clients 1 5 =
        [demoSessionAlice] ∧
      ∃ msg,
        (handle_place_bid demoState 55 56 5 1 2 110).broadcast =
            some { room_id := 1, exclude_socket := 5, message := msg } ∧
          ((0 : Int) < 85 - 56 → (85 : Int) - 56 < 30 →
            msg = .new_bid_warning 1 (bidder_name demoState.data.users 2) 110 1 (85 - 56)) :=
  ⟨by decide, by decide, by decide,
    (place_bid_notification demoState 55 56 5 1 2 110
      { demoAuction with current_price := 110, total_bids := 1, winner_id := 2, end_time := 85 }
      (by decide) (by decide)).imp
      (fun _ h => ⟨h.1, h.2.1⟩)⟩

/-- C25 fails as stated: user 2 bids 110 on socket 5 at time 60 on auction 1 of
`demoState`, which ends at 60; the bid is accepted, the end time stays 60, so the
time left is 0 (less than 30), and the room is sent `NEW_BID`, not
`NEW_BID_WARNING`. -/
theorem place_bid_at_end_sends_new_bid :
    0 < (place_bid demoState 60 1 2 110).1 ∧
      (find_auction_by_id (place_bid demoState 60 1 2 110).2.data.auctions 1).map
        (fun a => a.end_time - 60) = some 0 ∧
      (handle_place_bid demoState 60 60 5 1 2 110).broadcast =
        some { room_id := 1, exclude_socket := 5, message := .new_bid 1 "bob" 110 1 } := by
  decide

/-! ## Ids -/

/-- C27: in every reachable state the record at position `i` of the user, room,
auction and bid tables has id `i + 1`; so two positions never carry the same id,
and `find_user_by_id`, `find_room_by_id`, `find_auction_by_id` return the record at
position `k - 1` when `1 ≤ k ≤ count` and nothing otherwise. -/
theorem ids_are_positions (s : State) (hreach : Reachable s) :
    ((∀ (i : Nat) (u : User), s.data.users[i]? = some u → u.user_id = (i : Int) + 1) ∧
        (∀ (i : Nat) (r : AuctionRoom), s.data.rooms[i]? = some r →
          r.room_id = (i : Int) + 1) ∧
        (∀ (i : Nat) (a : Auction), s.data.auctions[i]? = some a →
          a.auction_id = (i : Int) + 1) ∧
        (∀ (i : Nat) (b : Bid), s.data.bids[i]? = some b → b.bid_id = (i : Int) + 1)) ∧
      ((∀ (i j : Nat) (x y : User), s.data.users[i]? = some x → s.data.users[j]? = some y →
          x.user_id = y.user_id → i = j) ∧
        (∀ (i j : Nat) (x y : AuctionRoom), s.data.rooms[i]? = some x →
          s.data.rooms[j]? = some y → x.room_id = y.room_id → i = j) ∧
        (∀ (i j : Nat) (x y : Auction), s.data.auctions[i]? = some x →
          s.data.auctions[j]? = some y → x.auction_id = y.auction_id → i = j) ∧
        (∀ (i j : Nat) (x y : Bid), s.data.bids[i]? = some x → s.data.bids[j]? = some y →
          x.bid_id = y.bid_id → i = j)) ∧
      (∀ k : Int, find_user_by_id s.data.users k =
        if 1 ≤ k ∧ k ≤ (s.data.users.length : Int) then s.data.users[(k - 1).toNat]?
        else none) ∧
      (∀ k : Int, find_room_by_id s.data.rooms k =
        if 1 ≤ k ∧ k ≤ (s.data.rooms.length : Int) then s.data.rooms[(k - 1).toNat]?
        else none) ∧
      (∀ k : Int, find_auction_by_id s.data.auctions k =
        if 1 ≤ k ∧ k ≤ (s.data.auctions.length : Int) then s.data.auctions[(k - 1).toNat]?
        else none) := by
  have hu : UserIds s.data.users := ReachableBy.userIds hreach
  have hr : RoomIds s.data.rooms := ReachableBy.roomIds hreach
  have ha := (ReachableBy.storeInv hreach).ids
  have hb : BidIds s.data.bids := ReachableBy.bidIds hreach
  refine ⟨⟨hu, hr, ha, hb⟩, ⟨?_, ?_, ?_, ?_⟩, ?_, ?_, ?_⟩
  · exact dense_unique User.user_id hu
  · exact dense_unique AuctionRoom.room_id hr
  · exact dense_unique Auction.auction_id ha
  · exact dense_unique Bid.bid_id hb
  · intro k
    exact dense_find User.user_id hu k
  · intro k
    exact dense_find AuctionRoom.room_id hr k
  · intro k
    exact dense_find Auction.auction_id ha k

/-- C27 at a concrete input: `bidState`, where the search for user 2 returns the
record at position 1 and the search for user 3 returns nothing. -/
theorem ids_are_positions_witness :
    Reachable bidState ∧
      find_user_by_id bidState.data.users 2 = bidState.data.users[1]? ∧
      find_user_by_id bidState.data.users 3 = none ∧
      (∀ (i : Nat) (b : Bid), bidState.data.bids[i]? = some b → b.bid_id = (i : Int) + 1) :=
  ⟨ReachableBy.run bidEvents ReachableBy.init (fun _ _ => trivial), by decide, by decide,
    (ids_are_positions bidState
      (ReachableBy.run bidEvents ReachableBy.init (fun _ _ => trivial))).1.2.2.2⟩

/-! ## Rooms -/

/-- C21 at the failing input: room 1 of `openState` has `end_time` 3600; after the
sweep at time 4000 the room is unchanged, still "active", and `join_room` of user 2
is accepted. -/
theorem timer_leaves_expired_room_open :
    openState.data.rooms = [openRoom] ∧ openRoom.end_time ≤ 4000 ∧
      (step 4000 .timer openState).data.rooms = [openRoom] ∧
      openRoom.status = "active" ∧
      (join_room (step 4000 .timer openState) 2 1).1 = 0 := by
  decide

/-- C26: in every state reached from the empty store and session table by requests
that create rooms with `max_participants > 0` only, every room has
`0 ≤ current_participants ≤ max_participants`. -/
theorem room_count_within_capacity (s : State) (hreach : ReachableBy PositiveCapacity s)
    (r : AuctionRoom) (hr : r ∈ s.data.rooms) :
    0 ≤ r.current_participants ∧ r.current_participants ≤ r.max_participants := by
  have hinv : RoomInv (fun m => 0 < m) s.data.rooms s.clients :=
    ReachableBy.roomInv (fun _ _ _ _ _ hP => hP) hreach
  have hcount := hinv.count r hr
  have hmax : 0 < r.max_participants := hinv.maxq r hr
  have hcap := hinv.cap r hr
  have hnn : (0 : Int) ≤ (participantsOf s.clients r.room_id : Int) := Int.ofNat_nonneg _
  constructor
  · omega
  · omega

/-- C26 at a concrete input: room 1 of `leftState`, after a leave and a disconnect,
with 1 participant counted out of 5. -/
theorem room_count_within_capacity_witness :
    ReachableBy PositiveCapacity leftState ∧ leftRoom ∈ leftState.data.rooms ∧
      0 ≤ leftRoom.current_participants ∧
      leftRoom.current_participants ≤ leftRoom.max_participants :=
  ⟨ReachableBy.run leftEvents ReachableBy.init (by decide), by decide,
    room_count_within_capacity leftState
      (ReachableBy.run leftEvents ReachableBy.init (by decide)) leftRoom (by decide)⟩

/-! ## Lock order -/

/-- C28: on every path of a connection thread (`handle_client`), of the timer
thread (`auction_timer`) and of `main`, with loops run any number of times,
`data_mutex` is never locked while `client_mutex` is held; so wherever both are
held, `data_mutex` was taken first. -/
theorem data_mutex_before_client_mutex (p : LockProg)
    (hp : p = Locks.handle_client ∨ p = Locks.auction_timer ∨ p = Locks.main) (n : Nat)
    (t : List LockEvent) (ht : t ∈ traces n p) : LockOrdered t := by
  rcases hp with rfl | rfl | rfl
  · exact lockOrdered_of_check (by decide) n t ht
  · exact lockOrdered_of_check (by decide) n t ht
  · exact lockOrdered_of_check (by decide) n t ht

/-- C28 at a concrete input: the round of the timer thread that broadcasts once
holds both mutexes after its second event, `data_mutex` taken first. -/
theorem data_mutex_before_client_mutex_witness :
    [LockEvent.lock .data_mutex, .lock .client_mutex, .unlock .client_mutex,
        .unlock .data_mutex] ∈ traces 1 Locks.auction_timer ∧
      holds .data_mutex [LockEvent.lock .data_mutex, .lock .client_mutex] = true ∧
      holds .client_mutex [LockEvent.lock .data_mutex, .lock .client_mutex] = true ∧
      LockOrdered [LockEvent.lock .data_mutex, .lock .client_mutex, .unlock .client_mutex,
        .unlock .data_mutex] :=
  ⟨by decide, by decide, by decide,
    data_mutex_before_client_mutex Locks.auction_timer (Or.inr (Or.inl rfl)) 1 _ (by decide)⟩

end AuctionServer
